import Mathlib

/-!
# irmago: configuration store, keyshare PIN back-off and session store

A shallow embedding of `irmaconfig.go` (package `irma`), of `server/keyshareserver/db.go`
and of `server/irmaserver/sessions.go`, followed by the properties established about them.

Conventions of the embedding.

* A Go `string` is a sequence of bytes, here a Lean `String` with one character per
  byte, so that `len`, slicing, comparison and `strings.Split` act on it as they do in Go
  and `string(bts)` is the characters of the bytes.
* A Go `[]byte` is a list of bytes; `nil` and the empty slice are identified, as
  `bytes.Equal` does.
* A Go `error` is its message; `nil` is `none`.
* A Go `map` is an association list read through `GoMap.get?`; a pointer stored in a
  map is the value it points to, a missing key reads as `nil`.
* Everything the sources obtain from outside the repository (the file system, the
  standard library's cryptography and XML decoding) is a field of `Env`; what they do to
  it (removing folders, fetching files) is a field of `Effects`.
* The sessions of the session store are objects at addresses, and its maps hold
  addresses; instants and durations are integers, in nanoseconds, and a `time.Duration`
  that is computed wraps at 64 bits.
-/

namespace Irma

/-! ## Basic data -/

abbrev Bytes := List (Fin 256)

abbrev Error := String

/-- A Go map as an association list; the first binding of a key is the live one. -/
abbrev GoMap (κ ν : Type) := List (κ × ν)

namespace GoMap

variable {κ ν : Type} [DecidableEq κ]

/-- The read `m[k]`, with `none` for a missing key. -/
def get? : GoMap κ ν → κ → Option ν
  | [], _ => none
  | (k', v) :: m, k => if k' = k then some v else get? m k

/-- The assignment `m[k] = v`. -/
def set (m : GoMap κ ν) (k : κ) (v : ν) : GoMap κ ν :=
  (k, v) :: m.filter (fun e => e.1 ≠ k)

/-- The statement `delete(m, k)`. -/
def delete (m : GoMap κ ν) (k : κ) : GoMap κ ν :=
  m.filter (fun e => e.1 ≠ k)

/-- The keys that `for k := range m` visits, each once. -/
def keys (m : GoMap κ ν) : List κ :=
  (m.map Prod.fst).dedup

end GoMap

/-- The conversion `string(bts)`. -/
def bytesToString (bts : Bytes) : String :=
  String.mk (bts.map fun b => Char.ofNat b.val)

/-- The conversion `[]byte(s)`. -/
def stringToBytes (s : String) : Bytes :=
  s.data.map fun c => Fin.ofNat c.toNat

/-! ## Identifiers and descriptions -/

/-- Modelled from the spec: the identifier types (`identifiers.go`) are not part of the
sources at hand.  An identifier is an ordered tuple of name segments, of arity one for
a scheme manager, two for an issuer and three for a credential type. -/
abbrev Identifier := List String

/-- Modelled from the spec: the parent of an identifier drops the last segment
(`IssuerIdentifier()` of a credential type, `SchemeManagerIdentifier()` of an issuer). -/
def Identifier.parent (id : Identifier) : Identifier :=
  id.dropLast

/-- Modelled from the spec: the dotted string form of an identifier. -/
def Identifier.String (id : Identifier) : String :=
  ".".intercalate id

abbrev ConfigurationFileHash := Bytes

abbrev SchemeManagerIndex := GoMap String ConfigurationFileHash

/-- The fields of `SchemeManager` that the sources use. -/
structure SchemeManager where
  ID : String
  URL : String
  XMLVersion : Int
  Index : SchemeManagerIndex
  deriving DecidableEq, Repr

/-- Modelled from the spec: the `Issuer` description (`descriptions.go` is not part of the
sources at hand) carries its own name and the name of its parent scheme manager. -/
structure Issuer where
  ID : String
  SchemeManagerID : String
  XMLVersion : Int
  deriving DecidableEq, Repr

/-- Modelled from the spec: the `CredentialType` description carries its own name and the
names of its issuer and scheme manager. -/
structure CredentialType where
  ID : String
  IssuerID : String
  SchemeManagerID : String
  XMLVersion : Int
  deriving DecidableEq, Repr

/-- The value `&SchemeManager{}`. -/
def SchemeManager.zero : SchemeManager := ⟨"", "", 0, []⟩

/-- The value `&Issuer{}`. -/
def Issuer.zero : Issuer := ⟨"", "", 0⟩

/-- The value `&CredentialType{}`. -/
def CredentialType.zero : CredentialType := ⟨"", "", "", 0⟩

/-- Modelled from the spec: `manager.Identifier()`, the one-segment identifier made of the
manager's `ID` (as `AddSchemeManager` builds it with `NewSchemeManagerIdentifier`). -/
def SchemeManager.Identifier (m : SchemeManager) : Identifier := [m.ID]

/-- Modelled from the spec: `issuer.Identifier()`. -/
def Issuer.Identifier (i : Issuer) : Identifier := [i.SchemeManagerID, i.ID]

/-- Modelled from the spec: `cred.Identifier()`. -/
def CredentialType.Identifier (c : CredentialType) : Identifier :=
  [c.SchemeManagerID, c.IssuerID, c.ID]

/-- The fields of `gabi.PublicKey` that the sources use. -/
structure PublicKey where
  Issuer : String
  material : Bytes
  deriving DecidableEq, Repr

structure Configuration where
  SchemeManagers : GoMap Identifier SchemeManager
  Issuers : GoMap Identifier Issuer
  CredentialTypes : GoMap Identifier CredentialType
  publicKeys : GoMap Identifier (GoMap Int PublicKey)
  reverseHashes : GoMap String Identifier
  path : String
  initialized : Bool
  deriving DecidableEq, Repr

/-! ## The outside world -/

/-- What `x509.ParsePKIXPublicKey` can return: an ECDSA key or a key of another kind. -/
inductive PkixKey where
  | ecdsa (key : Bytes)
  | other
  deriving DecidableEq, Repr

/-- The value handed to `panic`: an `error` (a run-time error is one) or anything else. -/
inductive PanicValue where
  | err (e : Error)
  | other
  deriving DecidableEq, Repr

/-- The file system and the library functions the sources call. -/
structure Env where
  /-- The names that `filepath.Glob(dir + "/*")` matches in `dir`, or `ErrBadPattern`. -/
  globNames : String → Except Error (List String)
  /-- The call `os.Stat(path)`, reduced to `IsDir()`. -/
  stat : String → Except Error Bool
  /-- The call `ioutil.ReadFile(path)`. -/
  readFile : String → Except Error Bytes
  /-- The helper `fs.AssertPathExists` of `internal/fs`, for one path. -/
  pathExists : String → Bool
  /-- The call `filepath.Join(a, b)`. -/
  filepathJoin : String → String → String
  /-- The digest `sha256.Sum256`. -/
  sha256 : Bytes → Bytes
  /-- The encoder `base64.StdEncoding.EncodeToString`. -/
  base64 : Bytes → String
  /-- The block bytes found by `pem.Decode`, `none` when it returns a nil block. -/
  pemDecode : Bytes → Option Bytes
  parsePKIXPublicKey : Bytes → Except Error PkixKey
  /-- The INTEGERs that `asn1.Unmarshal` stores into a `[]*big.Int`, or its error. -/
  asn1Unmarshal : Bytes → Except Error (List Int)
  /-- The call `ecdsa.Verify`, an `error` standing for a panic inside it. -/
  ecdsaVerify : Bytes → Bytes → Int → Int → Except PanicValue Bool
  /-- The call `xml.Unmarshal(bts, manager)`: the struct after decoding into it. -/
  unmarshalManager : Bytes → SchemeManager → Except Error SchemeManager
  unmarshalIssuer : Bytes → Issuer → Except Error Issuer
  unmarshalCredential : Bytes → CredentialType → Except Error CredentialType

/-- The matches of `filepath.Glob(path + "/*")`: each name joined to the cleaned directory,
which for a clean `path` with at most one trailing separator is `path`, a separator when
`path` has none at its end, and the name. -/
def Glob (env : Env) (path : String) : Except Error (List String) :=
  match env.globNames path with
  | .error e => .error e
  | .ok names =>
    .ok (names.map fun n =>
      if ['/'].isSuffixOf path.data then path ++ n else path ++ "/" ++ n)

/-- The predicate `strings.HasSuffix`. -/
def HasSuffix (s suffix : String) : Bool :=
  suffix.data.isSuffixOf s.data

/-! ## Index files -/

/-- Lower-case hexadecimal digit, the table of `encoding/hex`. -/
def hexDigit (n : Fin 16) : Char :=
  "0123456789abcdef".data.getD n.val '0'

/-- The table `reverseHexTable` of `encoding/hex`: both cases are accepted. -/
def fromHexChar (c : Char) : Option (Fin 16) :=
  if '0' ≤ c ∧ c ≤ '9' then some (Fin.ofNat (c.toNat - '0'.toNat))
  else if 'a' ≤ c ∧ c ≤ 'f' then some (Fin.ofNat (c.toNat - 'a'.toNat + 10))
  else if 'A' ≤ c ∧ c ≤ 'F' then some (Fin.ofNat (c.toNat - 'A'.toNat + 10))
  else none

def hexEncodeChars : Bytes → List Char
  | [] => []
  | b :: bs =>
    hexDigit ⟨b.val / 16, by omega⟩ :: hexDigit ⟨b.val % 16, by omega⟩ :: hexEncodeChars bs

/-- The function `hex.EncodeToString`. -/
def hexEncodeToString (b : Bytes) : String :=
  String.mk (hexEncodeChars b)

def hexDecodeChars : List Char → Except Error Bytes
  | [] => .ok []
  | [c] =>
    match fromHexChar c with
    | none => .error "encoding/hex: invalid byte"
    | some _ => .error "encoding/hex: odd length hex string"
  | p :: q :: rest =>
    match fromHexChar p, fromHexChar q with
    | some a, some b =>
      match hexDecodeChars rest with
      | .ok bs => .ok (⟨a.val * 16 + b.val, by omega⟩ :: bs)
      | .error e => .error e
    | _, _ => .error "encoding/hex: invalid byte"

/-- The function `hex.DecodeString`. -/
def hexDecodeString (s : String) : Except Error Bytes :=
  hexDecodeChars s.data

/-- The pieces of a character list between the occurrences of a separator. -/
def splitChars (sep : Char) : List Char → List (List Char)
  | [] => [[]]
  | c :: cs =>
    if c = sep then [] :: splitChars sep cs
    else
      match splitChars sep cs with
      | [] => [[c]]
      | p :: ps => (c :: p) :: ps

/-- The function `strings.Split(s, sep)` for a separator of one character. -/
def stringsSplit (s : String) (sep : Char) : List String :=
  (splitChars sep s.data).map String.mk

/-- Lexicographic comparison, the order of Go's `<` on strings. -/
def charsLe : List Char → List Char → Bool
  | [], _ => true
  | _ :: _, [] => false
  | a :: as, b :: bs => a.toNat < b.toNat || (a.toNat = b.toNat && charsLe as bs)

/-- The call `sort.Strings(paths)`. -/
def sortStrings (paths : List String) : List String :=
  paths.insertionSort (fun a b => charsLe a.data b.data = true)

/-- The loop of `SchemeManagerIndex.FromString` from line number `j` on: the map as the
loop leaves it, and the error returned. -/
def fromStringLines (i : SchemeManagerIndex) : Nat → List String →
    SchemeManagerIndex × Option Error
  | _, [] => (i, none)
  | j, line :: rest =>
    if line.length = 0 then fromStringLines i (j + 1) rest
    else
      match stringsSplit line ' ' with
      | [p0, p1] =>
        match hexDecodeString p0 with
        | .error e => (i, some e)
        | .ok hash => fromStringLines (GoMap.set i p1 hash) (j + 1) rest
      | _ =>
        (i, some ("Scheme manager index line " ++ toString j ++
          " has incorrect amount of parts"))

/-- The method `SchemeManagerIndex.FromString`, which fills the receiver in place. -/
def SchemeManagerIndex.FromString (i : SchemeManagerIndex) (s : String) :
    SchemeManagerIndex × Option Error :=
  fromStringLines i 0 (stringsSplit s '\n')

/-- The method `SchemeManagerIndex.String`. -/
def SchemeManagerIndex.String (i : SchemeManagerIndex) : String :=
  (sortStrings (GoMap.keys i)).foldl
    (fun b path =>
      b ++ hexEncodeToString ((GoMap.get? i path).getD []) ++ " " ++ path ++ "\n")
    ""

/-- White space as `unicode.IsSpace` knows it among the ASCII bytes. -/
def isSpaceChar (c : Char) : Bool :=
  c = ' ' || c = '\t' || c = '\n' || c = '\r' || c.toNat = 11 || c.toNat = 12

/-- The pieces of a character list between the characters that satisfy `p`. -/
def splitWhere (p : Char → Bool) : List Char → List (List Char)
  | [] => [[]]
  | c :: cs =>
    if p c then [] :: splitWhere p cs
    else
      match splitWhere p cs with
      | [] => [[c]]
      | t :: ts => (c :: t) :: ts

/-- The white-space-separated tokens of a line: its maximal runs of characters that are
not white space, as `strings.Fields` returns them. -/
def tokens (line : String) : List String :=
  ((splitWhere isSpaceChar line.data).filter (fun t => t ≠ [])).map String.mk

/-- The method `Configuration.ParseIndex`: the error and the manager as it is left. -/
def ParseIndex (env : Env) (manager : SchemeManager) (dir : String) :
    Option Error × SchemeManager :=
  if env.pathExists (dir ++ "/index") = false then
    (some "Missing scheme manager index file", manager)
  else
    match env.readFile (dir ++ "/index") with
    | .error e => (some e, manager)
    | .ok indexbts =>
      let r := SchemeManagerIndex.FromString [] (bytesToString indexbts)
      (r.2, { manager with Index := r.1 })

/-! ## Authenticated reads and the index signature -/

/-- The function `relativePath`, the slice `relative[len(absolute)+1:]`.  It is only
applied to a `relative` that starts with `absolute` and a separator, so that the slice
bound is in range. -/
def relativePath (absolute relative : String) : String :=
  String.mk (relative.data.drop (absolute.length + 1))

/-- The method `Configuration.ReadAuthenticatedFile`: the returned bytes (`none` for
`nil`) and the returned error. -/
def ReadAuthenticatedFile (env : Env) (conf : Configuration) (manager : SchemeManager)
    (path : String) : Option Bytes × Option Error :=
  match GoMap.get? manager.Index path with
  | none => (none, some "File not present in scheme manager index")
  | some signedHash =>
    match env.readFile (env.filepathJoin conf.path path) with
    | .error e => (none, some e)
    | .ok bts =>
      let computedHash := env.sha256 bts
      if computedHash ≠ signedHash then
        (none, some ("Hash of " ++ path ++ " does not match scheme manager index"))
      else (some bts, none)

/-- How the body of a Go function ends: by returning its results or by panicking. -/
inductive Outcome where
  | ret (valid : Bool) (err : Option Error)
  | panic (r : PanicValue)
  deriving DecidableEq, Repr

/-- The slice `ints` after `asn1.Unmarshal(sig, &ints)`, whose error is not looked at:
the INTEGERs of the ASN.1 SEQUENCE in `sig`, and still empty when `sig` is not one. -/
def signatureIntegers (env : Env) (sig : Bytes) : List Int :=
  match env.asn1Unmarshal sig with
  | .ok l => l
  | .error _ => []

/-- The body of `Configuration.VerifySignature`, without its deferred function. -/
def VerifySignatureBody (env : Env) (conf : Configuration) (id : Identifier) : Outcome :=
  let dir := env.filepathJoin conf.path id.String
  if (env.pathExists (dir ++ "/index") && env.pathExists (dir ++ "/index.sig") &&
      env.pathExists (dir ++ "/pk.pem")) = false then
    .ret false (some "Missing scheme manager index file, signature, or public key")
  else
    match env.readFile (dir ++ "/index") with
    | .error e => .ret false (some e)
    | .ok indexbts =>
      let indexhash := env.sha256 indexbts
      match env.readFile (dir ++ "/pk.pem") with
      | .error e => .ret false (some e)
      | .ok pkbts =>
        match env.pemDecode pkbts with
        | none =>
          .panic (.err "runtime error: invalid memory address or nil pointer dereference")
        | some blk =>
          match env.parsePKIXPublicKey blk with
          | .error e => .ret false (some e)
          | .ok .other => .ret false (some "Invalid scheme manager public key")
          | .ok (.ecdsa pk) =>
            match env.readFile (dir ++ "/index.sig") with
            | .error e => .ret false (some e)
            | .ok sig =>
              match signatureIntegers env sig with
              | r :: s :: _ =>
                match env.ecdsaVerify pk indexhash r s with
                | .ok v => .ret v none
                | .error p => .panic p
              | _ => .panic (.err "runtime error: index out of range")

/-- The deferred function of `VerifySignature`: a panic is recovered and replaced by
`valid = false` and an error; a normal return passes through. -/
def recoverVerifySignature : Outcome → Bool × Option Error
  | .ret valid err => (valid, err)
  | .panic (.err e) =>
    (false, some ("Scheme manager index signature failed to verify: " ++ e))
  | .panic .other => (false, some "Scheme manager index signature failed to verify")

/-- The method `Configuration.VerifySignature`: the results `(valid, err)` the caller
receives. -/
def VerifySignature (env : Env) (conf : Configuration) (id : Identifier) :
    Bool × Option Error :=
  recoverVerifySignature (VerifySignatureBody env conf id)

/-- The content of `pk.pem` is a PEM block that holds a PKIX-encoded ECDSA key. -/
def pemHoldsEcdsaKey (env : Env) (pkbts : Bytes) : Prop :=
  ∃ blk key, env.pemDecode pkbts = some blk ∧ env.parsePKIXPublicKey blk = .ok (.ecdsa key)

/-! ## Parsing the configuration folder -/

/-- The three call sites of `pathToDescription`. -/
inductive DescriptionKind where
  | scheme
  | issuer
  | credential
  deriving DecidableEq, Repr

/-- What a run of `ParseFolder` does to the files of a scheme, in order: `ParseIndex` is
called on a folder, `ReadAuthenticatedFile` is called on a description, the bytes it
returned are handed to `xml.Unmarshal`, `VerifySignature` returns.  The events
`readAuthenticated` and `xmlUnmarshal` name the call site, the identifier of the manager
passed to `pathToDescription` at that moment, and the path relative to the root.  The
events are a record kept beside the configuration; no embedded function reads them. -/
inductive Event where
  | parseIndex (dir : String)
  | readAuthenticated (kind : DescriptionKind) (manager : Identifier) (rel : String)
  | xmlUnmarshal (kind : DescriptionKind) (manager : Identifier) (rel : String)
  | verifySignature (id : Identifier) (valid : Bool)
  deriving DecidableEq, Repr

/-- The configuration being filled, with the events so far. -/
structure Run where
  conf : Configuration
  trace : List Event
  deriving DecidableEq, Repr

def Run.log (r : Run) (es : List Event) : Run :=
  { r with trace := r.trace ++ es }

/-- The results `(exists, err)` of `pathToDescription` and the description it filled:
`(false, nil)`, `(true, err)` and `(true, nil)`. -/
inductive Described (δ : Type) where
  | absent
  | failed (e : Error)
  | parsed (v : δ)
  deriving DecidableEq, Repr

/-- The method `Configuration.pathToDescription`; `unmarshal` is `xml.Unmarshal` into the
description passed by the caller. -/
def pathToDescription {δ : Type} (env : Env) (conf : Configuration) (kind : DescriptionKind)
    (manager : SchemeManager) (path : String) (unmarshal : Bytes → Except Error δ) :
    Described δ × List Event :=
  match env.stat path with
  | .error _ => (.absent, [])
  | .ok _ =>
    let rel := relativePath conf.path path
    let r := ReadAuthenticatedFile env conf manager rel
    match r.2 with
    | some e => (.failed e, [.readAuthenticated kind manager.Identifier rel])
    | none =>
      match unmarshal (r.1.getD []) with
      | .error e =>
        (.failed e, [.readAuthenticated kind manager.Identifier rel,
          .xmlUnmarshal kind manager.Identifier rel])
      | .ok v =>
        (.parsed v, [.readAuthenticated kind manager.Identifier rel,
          .xmlUnmarshal kind manager.Identifier rel])

/-- The loop of `iterateSubfolders` over the matches of the glob. -/
def iterateDirs (env : Env) (handler : String → Run → Option Error × Run) :
    List String → Run → Option Error × Run
  | [], r => (none, r)
  | dir :: dirs, r =>
    match env.stat dir with
    | .error e => (some e, r)
    | .ok isDir =>
      if isDir = false then iterateDirs env handler dirs r
      else if HasSuffix dir "/.git" then iterateDirs env handler dirs r
      else
        match handler dir r with
        | (some e, r') => (some e, r')
        | (none, r') => iterateDirs env handler dirs r'

/-- The function `iterateSubfolders`. -/
def iterateSubfolders (env : Env) (path : String)
    (handler : String → Run → Option Error × Run) (r : Run) : Option Error × Run :=
  match Glob env path with
  | .error e => (some e, r)
  | .ok dirs => iterateDirs env handler dirs r

/-- The method `Configuration.addReverseHash`. -/
def addReverseHash (env : Env) (conf : Configuration) (credid : Identifier) :
    Configuration :=
  let hash := env.sha256 (stringToBytes credid.String)
  { conf with reverseHashes := GoMap.set conf.reverseHashes (env.base64 (hash.take 16)) credid }

/-- The handler that `parseCredentialsFolder` runs on each subfolder. -/
def credentialHandler (env : Env) (manager : SchemeManager) (dir : String) (r : Run) :
    Option Error × Run :=
  let d := pathToDescription env r.conf .credential manager (dir ++ "/description.xml")
    (fun bts => env.unmarshalCredential bts CredentialType.zero)
  let r := r.log d.2
  match d.1 with
  | .failed e => (some e, r)
  | .absent => (none, r)
  | .parsed cred =>
    if cred.XMLVersion < 4 then (some "Unsupported credential type description", r)
    else
      let credid := cred.Identifier
      let conf := { r.conf with CredentialTypes := GoMap.set r.conf.CredentialTypes credid cred }
      (none, { r with conf := addReverseHash env conf credid })

/-- The method `Configuration.parseCredentialsFolder`. -/
def parseCredentialsFolder (env : Env) (manager : SchemeManager) (path : String) (r : Run) :
    Option Error × Run :=
  iterateSubfolders env path (credentialHandler env manager) r

/-- The handler that `parseIssuerFolders` runs on each subfolder. -/
def issuerHandler (env : Env) (manager : SchemeManager) (dir : String) (r : Run) :
    Option Error × Run :=
  let d := pathToDescription env r.conf .issuer manager (dir ++ "/description.xml")
    (fun bts => env.unmarshalIssuer bts Issuer.zero)
  let r := r.log d.2
  match d.1 with
  | .failed e => (some e, r)
  | .absent => (none, r)
  | .parsed issuer =>
    if issuer.XMLVersion < 4 then (some "Unsupported issuer description", r)
    else
      let conf := { r.conf with Issuers := GoMap.set r.conf.Issuers issuer.Identifier issuer }
      parseCredentialsFolder env manager (dir ++ "/Issues/") { r with conf := conf }

/-- The method `Configuration.parseIssuerFolders`. -/
def parseIssuerFolders (env : Env) (manager : SchemeManager) (path : String) (r : Run) :
    Option Error × Run :=
  iterateSubfolders env path (issuerHandler env manager) r

/-- The handler that `ParseFolder` runs on each subfolder of the root. -/
def schemeHandler (env : Env) (dir : String) (r : Run) : Option Error × Run :=
  let pi := ParseIndex env SchemeManager.zero dir
  let r := r.log [.parseIndex dir]
  match pi.1 with
  | some e => (some e, r)
  | none =>
    let d := pathToDescription env r.conf .scheme pi.2 (dir ++ "/description.xml")
      (fun bts => env.unmarshalManager bts pi.2)
    let r := r.log d.2
    match d.1 with
    | .failed e => (some e, r)
    | .absent => (none, r)
    | .parsed manager =>
      if manager.XMLVersion < 7 then (some "Unsupported scheme manager description", r)
      else
        let v := VerifySignature env r.conf manager.Identifier
        let r := r.log [.verifySignature manager.Identifier v.1]
        match v.2 with
        | some e => (some e, r)
        | none =>
          if v.1 = false then (some "Scheme manager signature was invalid", r)
          else
            let conf :=
              { r.conf with
                SchemeManagers := GoMap.set r.conf.SchemeManagers manager.Identifier manager }
            parseIssuerFolders env manager dir { r with conf := conf }

/-- The method `Configuration.ParseFolder`: the returned error, the configuration as the
call leaves it, and the events of the call. -/
def ParseFolder (env : Env) (conf : Configuration) : Option Error × Run :=
  let conf : Configuration :=
    { conf with
      SchemeManagers := [], Issuers := [], CredentialTypes := [], publicKeys := [],
      reverseHashes := [] }
  match iterateSubfolders env conf.path (schemeHandler env) ⟨conf, []⟩ with
  | (some e, r) => (some e, r)
  | (none, r) => (none, { r with conf := { r.conf with initialized := true } })

/-- The method `Configuration.Contains`. -/
def Contains (conf : Configuration) (cred : Identifier) : Bool :=
  (GoMap.get? conf.SchemeManagers cred.parent.parent).isSome &&
    (GoMap.get? conf.Issuers cred.parent).isSome &&
    (GoMap.get? conf.CredentialTypes cred).isSome

/-- The manager that the handler of `ParseFolder` holds for the scheme folder `dir` once
the index and the description of the folder are parsed, if both succeed. -/
def loadedManager (env : Env) (conf : Configuration) (dir : String) : Option SchemeManager :=
  let pi := ParseIndex env SchemeManager.zero dir
  match pi.1 with
  | some _ => none
  | none =>
    match (pathToDescription env conf .scheme pi.2 (dir ++ "/description.xml")
      (fun bts => env.unmarshalManager bts pi.2)).1 with
    | .parsed m => some m
    | _ => none

/-- The matches of `filepath.Glob(path + "/*")`, none when it fails. -/
def globbed (env : Env) (path : String) : List String :=
  match Glob env path with
  | .ok dirs => dirs
  | .error _ => []

/-- Every description that can be read names the folder it lies in: an issuer description
in a subfolder of a scheme folder names the scheme manager that the scheme folder's
description names, and a credential type description under `Issues/` of an issuer folder
names that scheme manager and the issuer that the issuer folder's description names. -/
def descriptionsNameFolders (env : Env) (conf : Configuration) : Bool :=
  (globbed env conf.path).all fun sdir =>
    match loadedManager env conf sdir with
    | none => true
    | some m =>
      (globbed env sdir).all fun idir =>
        match (pathToDescription env conf .issuer m (idir ++ "/description.xml")
          (fun bts => env.unmarshalIssuer bts Issuer.zero)).1 with
        | .parsed iss =>
          decide (iss.SchemeManagerID = m.ID) &&
            (globbed env (idir ++ "/Issues/")).all fun cdir =>
              match (pathToDescription env conf .credential m (cdir ++ "/description.xml")
                (fun bts => env.unmarshalCredential bts CredentialType.zero)).1 with
              | .parsed c => decide (c.SchemeManagerID = m.ID ∧ c.IssuerID = iss.ID)
              | _ => true
        | _ => true

/-- Every loaded credential type has its issuer and its scheme manager loaded. -/
def AllContained (conf : Configuration) : Prop :=
  ∀ c, (GoMap.get? conf.CredentialTypes c).isSome = true → Contains conf c = true

/-- The method `Configuration.IsInitialized`. -/
def IsInitialized (conf : Configuration) : Bool :=
  conf.initialized

/-- The configuration that `NewConfiguration` builds before copying assets. -/
def newConfiguration (path : String) : Configuration :=
  ⟨[], [], [], [], [], path, false⟩

/-! ## Reverse hashes -/

/-- The key under which `addReverseHash` files a credential type: the base64 text of the
first 16 bytes of the SHA-256 digest of the identifier's string form. -/
def reverseHashOf (env : Env) (credid : Identifier) : String :=
  env.base64 ((env.sha256 (stringToBytes credid.String)).take 16)

/-- The method `Configuration.hashToCredentialType`, `none` for a nil result. -/
def hashToCredentialType (env : Env) (conf : Configuration) (hash : Bytes) :
    Option CredentialType :=
  match GoMap.get? conf.reverseHashes (env.base64 hash) with
  | some str => GoMap.get? conf.CredentialTypes str
  | none => none

/-- Every entry of the reverse-hash map files a loaded credential type under its own
reverse hash, and every loaded credential type has its reverse hash in the map. -/
def ReverseHashesSound (env : Env) (conf : Configuration) : Prop :=
  (∀ h c, GoMap.get? conf.reverseHashes h = some c →
    h = reverseHashOf env c ∧ (GoMap.get? conf.CredentialTypes c).isSome = true) ∧
  (∀ c, (GoMap.get? conf.CredentialTypes c).isSome = true →
    (GoMap.get? conf.reverseHashes (reverseHashOf env c)).isSome = true)

/-! ## Changing the configuration: removal, public keys, download -/

/-- What the sources do to the world outside the configuration, beyond reading it. -/
structure Effects where
  /-- The call `os.RemoveAll(path)`: its error and the file system after it. -/
  removeAll : Env → String → Option Error × Env
  /-- The method `HTTPTransport.GetFile(url, dest)` for the full address `url`: its error
  and the file system after it. -/
  getFile : Env → String → String → Option Error × Env
  /-- The helper `fs.EnsureDirectoryExists` of `internal/fs`. -/
  ensureDirectoryExists : Env → String → Option Error × Env
  /-- The constructor `gabi.NewPublicKeyFromBytes`. -/
  newPublicKeyFromBytes : Bytes → Except Error PublicKey

/-- Modelled from the spec: `Name()` of an identifier, its last segment. -/
def Name (id : Identifier) : String :=
  id.getLast?.getD ""

/-- Modelled from the spec: the top-level segment of an identifier. -/
def rootOf (id : Identifier) : Option String :=
  id.head?

/-- The function `strconv.Atoi`, `none` for an error: an optional sign, then one or more
decimal digits, the value within the 64-bit `int`. -/
def Atoi (s : String) : Option Int :=
  let signed : Bool × List Char :=
    match s.data with
    | '-' :: rest => (true, rest)
    | '+' :: rest => (false, rest)
    | rest => (false, rest)
  if signed.2 = [] ∨ signed.2.all Char.isDigit = false then none
  else
    let n : Int := Int.ofNat (signed.2.foldl (fun a c => a * 10 + (c.toNat - '0'.toNat)) 0)
    let v : Int := if signed.1 then -n else n
    if v < -(2 ^ 63) ∨ 2 ^ 63 - 1 < v then none else some v

/-- The matches of `filepath.Glob(dir + "/*.xml")`, by their names in `dir`. -/
def GlobXmlNames (env : Env) (dir : String) : Except Error (List String) :=
  match env.globNames dir with
  | .error e => .error e
  | .ok names => .ok (names.filter fun n => HasSuffix n ".xml")

/-- The loop of `parseKeysFolder` over the names of the matched files of `dir`; a nil
`manager` or a nil inner map makes it panic. -/
def parseKeyFiles (fx : Effects) (env : Env) (manager : Option SchemeManager)
    (issuerid : Identifier) (dir : String) :
    List String → Configuration → Except PanicValue (Option Error × Configuration)
  | [], conf => .ok (none, conf)
  | filename :: files, conf =>
    let file := dir ++ "/" ++ filename
    let count := String.mk (filename.data.take (filename.length - 4))
    match Atoi count with
    | none => parseKeyFiles fx env manager issuerid dir files conf
    | some i =>
      match manager with
      | none => .error (.err "runtime error: invalid memory address or nil pointer dereference")
      | some manager =>
        let r := ReadAuthenticatedFile env conf manager (relativePath conf.path file)
        match r.2 with
        | some e => .ok (some e, conf)
        | none =>
          match fx.newPublicKeyFromBytes (r.1.getD []) with
          | .error e => .ok (some e, conf)
          | .ok pk =>
            let pk := { pk with Issuer := issuerid.String }
            match GoMap.get? conf.publicKeys issuerid with
            | none => .error (.err "assignment to entry in nil map")
            | some keys =>
              parseKeyFiles fx env (some manager) issuerid dir files
                { conf with
                  publicKeys := GoMap.set conf.publicKeys issuerid (GoMap.set keys i pk) }

/-- The method `Configuration.parseKeysFolder`. -/
def parseKeysFolder (fx : Effects) (env : Env) (conf : Configuration)
    (manager : Option SchemeManager) (issuerid : Identifier) :
    Except PanicValue (Option Error × Configuration) :=
  let dir := conf.path ++ "/" ++ Name issuerid.parent ++ "/" ++ Name issuerid ++ "/PublicKeys"
  match GlobXmlNames env dir with
  | .error e => .ok (some e, conf)
  | .ok files => parseKeyFiles fx env manager issuerid dir files conf

/-- The method `Configuration.PublicKey` (the name `PublicKey` is the type of the keys):
the key (`none` for nil), the error, and the configuration after the call. -/
def ConfigurationPublicKey (fx : Effects) (env : Env) (conf : Configuration) (id : Identifier)
    (counter : Int) :
    Except PanicValue ((Option PublicKey × Option Error) × Configuration) :=
  match GoMap.get? conf.publicKeys id with
  | none =>
    let conf := { conf with publicKeys := GoMap.set conf.publicKeys id [] }
    match parseKeysFolder fx env conf (GoMap.get? conf.SchemeManagers id.parent) id with
    | .error p => .error p
    | .ok (some e, conf) => .ok ((none, some e), conf)
    | .ok (none, conf) =>
      .ok (((GoMap.get? conf.publicKeys id).bind fun keys => GoMap.get? keys counter, none), conf)
  | some keys => .ok ((GoMap.get? keys counter, none), conf)

/-- Modelled from the spec: the type `IrmaIdentifierSet`, whose declaration is not part of
the sources at hand: sets of scheme manager, issuer and credential type identifiers, and
for issuers the counters of public keys. -/
structure IrmaIdentifierSet where
  SchemeManagers : GoMap Identifier Unit
  Issuers : GoMap Identifier Unit
  CredentialTypes : GoMap Identifier Unit
  PublicKeys : GoMap Identifier (List Int)
  deriving DecidableEq, Repr

/-- Modelled from the spec: the method `IrmaIdentifierSet.Empty`. -/
def IrmaIdentifierSet.Empty (set : IrmaIdentifierSet) : Bool :=
  set.SchemeManagers.isEmpty && set.Issuers.isEmpty && set.CredentialTypes.isEmpty &&
    set.PublicKeys.isEmpty

/-- The variables of `Download` that its loops change, with the configuration and the
file system. -/
structure Downloading where
  conf : Configuration
  env : Env
  downloaded : IrmaIdentifierSet
  updatedManagers : GoMap Identifier Unit

/-- The first loop of `Download`: every scheme manager of the set is known. -/
def unknownManager (conf : Configuration) : List Identifier → Option Error
  | [] => none
  | manid :: rest =>
    match GoMap.get? conf.SchemeManagers manid with
    | none => some ("Unknown scheme manager: " ++ manid.String)
    | some _ => unknownManager conf rest

/-- The loop of `Download` over the issuers of the set. -/
def downloadIssuers (fx : Effects) :
    List Identifier → Downloading → Except PanicValue (Option Error × Downloading)
  | [], d => .ok (none, d)
  | issid :: rest, d =>
    match GoMap.get? d.conf.Issuers issid with
    | some _ => downloadIssuers fx rest d
    | none =>
      let manager := issid.parent
      match GoMap.get? d.conf.SchemeManagers manager with
      | none => .error (.err "runtime error: invalid memory address or nil pointer dereference")
      | some m =>
        let url := m.URL ++ "/" ++ Name issid
        let path := d.conf.path ++ "/" ++ manager.String ++ "/" ++ Name issid
        let g1 := fx.getFile d.env (url ++ "/description.xml") (path ++ "/description.xml")
        match g1.1 with
        | some e => .ok (some e, { d with env := g1.2 })
        | none =>
          let g2 := fx.getFile g1.2 (url ++ "/logo.png") (path ++ "/logo.png")
          match g2.1 with
          | some e => .ok (some e, { d with env := g2.2 })
          | none =>
            downloadIssuers fx rest
              { d with
                env := g2.2
                updatedManagers := GoMap.set d.updatedManagers manager ()
                downloaded :=
                  { d.downloaded with Issuers := GoMap.set d.downloaded.Issuers issid () } }

/-- The inner loop of `Download` over the counters asked for one issuer. -/
def downloadKeysOf (fx : Effects) (issid : Identifier) :
    List Int → Downloading → Except PanicValue (Option Error × Downloading)
  | [], d => .ok (none, d)
  | count :: rest, d =>
    match ConfigurationPublicKey fx d.env d.conf issid count with
    | .error p => .error p
    | .ok ((_, some e), conf) => .ok (some e, { d with conf := conf })
    | .ok ((some _, none), conf) => downloadKeysOf fx issid rest { d with conf := conf }
    | .ok ((none, none), conf) =>
      let manager := issid.parent
      let suffix := "/" ++ Name issid ++ "/PublicKeys/" ++ toString count ++ ".xml"
      let path := conf.path ++ "/" ++ manager.String ++ "/" ++ suffix
      match GoMap.get? conf.SchemeManagers manager with
      | none => .error (.err "runtime error: invalid memory address or nil pointer dereference")
      | some m =>
        let g := fx.getFile d.env (m.URL ++ suffix) path
        match g.1 with
        | some e => .ok (some e, { d with conf := conf, env := g.2 })
        | none =>
          downloadKeysOf fx issid rest
            { d with
              conf := conf
              env := g.2
              updatedManagers := GoMap.set d.updatedManagers manager () }

/-- The loop of `Download` over the public keys of the set. -/
def downloadKeys (fx : Effects) (set : IrmaIdentifierSet) :
    List Identifier → Downloading → Except PanicValue (Option Error × Downloading)
  | [], d => .ok (none, d)
  | issid :: rest, d =>
    match downloadKeysOf fx issid ((GoMap.get? set.PublicKeys issid).getD []) d with
    | .error p => .error p
    | .ok (some e, d) => .ok (some e, d)
    | .ok (none, d) => downloadKeys fx set rest d

/-- The loop of `Download` over the credential types of the set. -/
def downloadCredentialTypes (fx : Effects) :
    List Identifier → Downloading → Except PanicValue (Option Error × Downloading)
  | [], d => .ok (none, d)
  | credid :: rest, d =>
    match GoMap.get? d.conf.CredentialTypes credid with
    | some _ => downloadCredentialTypes fx rest d
    | none =>
      let issuer := credid.parent
      let manager := issuer.parent
      let localDir := d.conf.path ++ "/" ++ Name manager ++ "/" ++ Name issuer ++ "/Issues"
      let e1 := fx.ensureDirectoryExists d.env localDir
      match e1.1 with
      | some e => .ok (some e, { d with env := e1.2 })
      | none =>
        match GoMap.get? d.conf.SchemeManagers manager with
        | none => .error (.err "runtime error: invalid memory address or nil pointer dereference")
        | some m =>
          let g1 := fx.getFile e1.2
            (m.URL ++ "/" ++ Name issuer ++ "/Issues/" ++ Name credid ++ "/description.xml")
            (localDir ++ "/" ++ Name credid ++ "/description.xml")
          match g1.1 with
          | some e => .ok (some e, { d with env := g1.2 })
          | none =>
            let g2 := fx.getFile g1.2
              (m.URL ++ "/" ++ Name issuer ++ "/Issues/" ++ Name credid ++ "/logo.png")
              (localDir ++ "/" ++ Name credid ++ "/logo.png")
            downloadCredentialTypes fx rest
              { d with
                env := g2.2
                updatedManagers := GoMap.set d.updatedManagers manager ()
                downloaded :=
                  { d.downloaded with
                    CredentialTypes := GoMap.set d.downloaded.CredentialTypes credid () } }

/-- The method `Configuration.DownloadSchemeManagerSignature`, for a transport that joins
the manager's address and the path asked for. -/
def DownloadSchemeManagerSignature (fx : Effects) (env : Env) (conf : Configuration)
    (manager : SchemeManager) : Option Error × Env :=
  let path := conf.path ++ "/" ++ manager.ID
  let g1 := fx.getFile env (manager.URL ++ "/index") (path ++ "/index")
  match g1.1 with
  | some e => (some e, g1.2)
  | none => fx.getFile g1.2 (manager.URL ++ "/index.sig") (path ++ "/index.sig")

/-- The loop of `Download` over the managers that received a file. -/
def downloadSignatures (fx : Effects) :
    List Identifier → Downloading → Except PanicValue (Option Error × Downloading)
  | [], d => .ok (none, d)
  | manager :: rest, d =>
    match GoMap.get? d.conf.SchemeManagers manager with
    | none => .error (.err "runtime error: invalid memory address or nil pointer dereference")
    | some m =>
      let g := DownloadSchemeManagerSignature fx d.env d.conf m
      match g.1 with
      | some e => .ok (some e, { d with env := g.2 })
      | none => downloadSignatures fx rest { d with env := g.2 }

/-- The results of `Download`: the set (`none` for nil) and the error, with the
configuration and the file system after the call. -/
structure Downloaded where
  set : Option IrmaIdentifierSet
  err : Option Error
  conf : Configuration
  env : Env

/-- The method `Configuration.Download`. -/
def Download (fx : Effects) (env : Env) (conf : Configuration) (set : IrmaIdentifierSet) :
    Except PanicValue Downloaded :=
  let d0 : Downloading := ⟨conf, env, ⟨[], [], [], []⟩, []⟩
  match unknownManager conf (GoMap.keys set.SchemeManagers) with
  | some e => .ok ⟨none, some e, conf, env⟩
  | none =>
    match downloadIssuers fx (GoMap.keys set.Issuers) d0 with
    | .error p => .error p
    | .ok (some e, d) => .ok ⟨none, some e, d.conf, d.env⟩
    | .ok (none, d) =>
      match downloadKeys fx set (GoMap.keys set.PublicKeys) d with
      | .error p => .error p
      | .ok (some e, d) => .ok ⟨none, some e, d.conf, d.env⟩
      | .ok (none, d) =>
        match downloadCredentialTypes fx (GoMap.keys set.CredentialTypes) d with
        | .error p => .error p
        | .ok (some e, d) => .ok ⟨none, some e, d.conf, d.env⟩
        | .ok (none, d) =>
          match downloadSignatures fx (GoMap.keys d.updatedManagers) d with
          | .error p => .error p
          | .ok (some e, d) => .ok ⟨none, some e, d.conf, d.env⟩
          | .ok (none, d) =>
            if d.downloaded.Empty = false then
              let r := ParseFolder d.env d.conf
              .ok ⟨some d.downloaded, r.1, r.2.conf, d.env⟩
            else .ok ⟨some d.downloaded, none, d.conf, d.env⟩

end Irma

/-! ## Keyshare server: the PIN check reservation of the Postgres database -/

namespace Keyshare

abbrev Error := String

def ErrUserNotFound : Error := "Could not find specified user"

def ErrInvalidData : Error := "Invalid user datastructure passed"

def MAX_PIN_TRIES : Int := 3

def BACKOFF_START : Int := 30

/-- The value of a Go `int64` that holds `x` after wrapping; an `int` has the same 64 bits
on the platforms of the server. -/
def int64 (x : Int) : Int :=
  (x + 2 ^ 63) % 2 ^ 64 - 2 ^ 63

/-- The integer types of PostgreSQL. -/
inductive IntType where
  | smallint
  | integer
  | bigint
  deriving DecidableEq, Repr

def IntType.bits : IntType → Nat
  | .smallint => 16
  | .integer => 32
  | .bigint => 64

/-- Whether a value is in the range of the type. -/
def IntType.holds (t : IntType) (x : Int) : Bool :=
  decide (-(2 ^ (t.bits - 1)) ≤ x ∧ x < 2 ^ (t.bits - 1))

/-- The error PostgreSQL raises for a value outside the range of the type. -/
def IntType.outOfRange : IntType → Error
  | .smallint => "ERROR: smallint out of range (SQLSTATE 22003)"
  | .integer => "ERROR: integer out of range (SQLSTATE 22003)"
  | .bigint => "ERROR: bigint out of range (SQLSTATE 22003)"

/-- Modelled from the spec: the schema of `irma.users` is not part of the sources at hand.
The spec lists the columns `pinCounter` and `pinBlockDate` as integers; which of the
integer types each of them has is a parameter. -/
structure Schema where
  pinCounter : IntType
  pinBlockDate : IntType
  deriving DecidableEq, Repr

/-- The columns of a row of `irma.users` that `ReservePincheck` reads and writes. -/
structure UserRow where
  pinCounter : Int
  pinBlockDate : Int
  deriving DecidableEq, Repr

/-- The table `irma.users`, by its primary key `id`. -/
abbrev Users := Int → Option UserRow

/-- The implementations of the interface `KeyshareUser`. -/
inductive KeyshareUser where
  | memory (username : String)
  | postgres (username : String) (id : Int)
  deriving DecidableEq, Repr

/-- The three readings of `time.Now().Unix()` that one call of `ReservePincheck` takes:
for the first query parameter, for the last one, and for the returned wait. -/
structure Clock where
  atBase : Int
  atGuard : Int
  atReturn : Int
  deriving DecidableEq, Repr

/-- The errors the database driver can report to `ReservePincheck`, `none` when the
statement runs: for the `UPDATE`, for scanning its row, for the `SELECT`, for scanning
its row.  `atNext` tells how an error that the engine raises while it runs the `UPDATE`
reaches the caller: from `Next`, where the method does not ask for it (it never calls
`uprows.Err()`), or already from `Query`. -/
structure DriverFaults where
  update : Option Error
  updateScan : Option Error
  select : Option Error
  selectScan : Option Error
  atNext : Bool
  deriving DecidableEq, Repr

/-- A driver that runs every statement. -/
def DriverFaults.none : DriverFaults :=
  ⟨Option.none, Option.none, Option.none, Option.none, false⟩

/-- The number of low bits that `n` has beyond 53 significant ones, counted with at most
`fuel` halvings. -/
def excessBits : Nat → Nat → Nat
  | 0, _ => 0
  | fuel + 1, n => if n < 2 ^ 53 then 0 else excessBits fuel (n / 2) + 1

/-- The natural number that double precision holds for `n`: `n` rounded to 53 significant
bits, to the nearest and in a tie to the even one; below `2^53` that is `n` itself. -/
def roundFloat8 (n : Nat) : Nat :=
  let e := excessBits n n
  let q := n / 2 ^ e
  let r := n % 2 ^ e
  if 2 ^ e < 2 * r ∨ (2 * r = 2 ^ e ∧ q % 2 = 1) then (q + 1) * 2 ^ e else q * 2 ^ e

/-- The integer that double precision holds for the integer `x`, when it is finite. -/
def toFloat8 (x : Int) : Int :=
  if x < 0 then -((roundFloat8 x.natAbs : Nat) : Int) else ((roundFloat8 x.natAbs : Nat) : Int)

/-- The largest finite number of double precision, `(2^53 − 1)·2^971`. -/
def maxFloat8 : Int := (((2 ^ 53 - 1) <<< 971 : Nat) : Int)

/-- The error of PostgreSQL for a double precision result that is not finite. -/
def float8Overflow : Error := "ERROR: value out of range: overflow (SQLSTATE 22003)"

/-- The expression `pinCounter+1` of the `UPDATE`, stored into the column `pinCounter`. -/
def newCounter (schema : Schema) (pinCounter : Int) : Except Error Int :=
  if schema.pinCounter.holds (pinCounter + 1) then .ok (pinCounter + 1)
  else .error schema.pinCounter.outOfRange

/-- The expression `$1+$2*2^GREATEST(0, pinCounter-$3)` of the `UPDATE`, stored into the
column `pinBlockDate`.  The difference is taken in the type of `pinCounter`; the operator
`^` takes and gives double precision, and so do the product and the sum: a power of two
and its product with a double are exact when they are finite, the sum is the exact sum
rounded; the assignment casts the sum to the type of the column. -/
def newBlockDate (schema : Schema) (p1 p2 p3 pinCounter : Int) : Except Error Int :=
  if schema.pinCounter.holds (pinCounter - p3) = false then .error schema.pinCounter.outOfRange
  else
    let e := (max 0 (pinCounter - p3)).toNat
    if 1024 ≤ e then .error float8Overflow
    else
      let prod := toFloat8 p2 * ((2 ^ e : Nat) : Int)
      if maxFloat8 < |prod| then .error float8Overflow
      else
        let sum := toFloat8 (p1 + prod)
        if maxFloat8 < |sum| then .error float8Overflow
        else if schema.pinBlockDate.holds sum then .ok sum
        else .error schema.pinBlockDate.outOfRange

/-- The statement
`UPDATE irma.users SET pinCounter = pinCounter+1, pinBlockDate = $1+$2*2^GREATEST(0, pinCounter-$3)
 WHERE id=$4 AND pinBlockDate<=$5 RETURNING pinCounter, pinBlockDate`
in the engine: its error, or the table after it and the returned row.  The right-hand
sides of `SET` read the row as it was before the statement. -/
def updateReserve (schema : Schema) (db : Users) (p1 p2 p3 p4 p5 : Int) :
    Except Error (Users × Option (Int × Int)) :=
  match db p4 with
  | Option.none => .ok (db, Option.none)
  | some row =>
    if row.pinBlockDate ≤ p5 then
      match newCounter schema row.pinCounter with
      | .error e => .error e
      | .ok counter =>
        match newBlockDate schema p1 p2 p3 row.pinCounter with
        | .error e => .error e
        | .ok blockDate =>
          .ok (Function.update db p4 (some ⟨counter, blockDate⟩), some (counter, blockDate))
    else .ok (db, Option.none)

/-- What the driver does with the arguments of the `UPDATE` before it sends them: `$1` and
`$2` have the type double precision and must be integers that double precision holds
exactly, `$3` has the type of `pinCounter` and `$5` the type of `pinBlockDate`. -/
def encodeArguments (schema : Schema) (p1 p2 p3 p5 : Int) : Option Error :=
  if toFloat8 p1 ≠ p1 then some (toString p1 ++ " cannot be exactly represented as float64")
  else if toFloat8 p2 ≠ p2 then some (toString p2 ++ " cannot be exactly represented as float64")
  else if schema.pinCounter.holds p3 = false then
    some (toString p3 ++ " is out of range for the type of pinCounter")
  else if schema.pinBlockDate.holds p5 = false then
    some (toString p5 ++ " is out of range for the type of pinBlockDate")
  else Option.none

/-- The statement `SELECT pinBlockDate FROM irma.users WHERE id=$1`. -/
def selectBlockDate (db : Users) (id : Int) : Option Int :=
  (db id).map UserRow.pinBlockDate

/-- The part of `ReservePincheck` after `uprows.Next()` has returned false. -/
def requestWait (db : Users) (faults : DriverFaults) (clock : Clock) (id : Int) :
    (Bool × Int × Int × Option Error) × Users :=
  match faults.select with
  | some e => ((false, 0, 0, some e), db)
  | Option.none =>
    match selectBlockDate db id with
    | Option.none => ((false, 0, 0, some ErrUserNotFound), db)
    | some wait =>
      match faults.selectScan with
      | some e => ((false, 0, 0, some e), db)
      | Option.none => ((false, 0, int64 (wait - clock.atReturn), Option.none), db)

/-- The method `keysharePostgresDatabase.ReservePincheck`: the results
`(allow, tries, wait, err)` and the table after the call. -/
def ReservePincheck (schema : Schema) (db : Users) (faults : DriverFaults) (clock : Clock)
    (user : KeyshareUser) : (Bool × Int × Int × Option Error) × Users :=
  match user with
  | .memory _ => ((false, 0, 0, some ErrInvalidData), db)
  | .postgres _ id =>
    match faults.update with
    | some e => ((false, 0, 0, some e), db)
    | Option.none =>
      let p1 := int64 (clock.atBase - 1 - BACKOFF_START)
      match encodeArguments schema p1 BACKOFF_START (MAX_PIN_TRIES - 2) clock.atGuard with
      | some e => ((false, 0, 0, some e), db)
      | Option.none =>
        match updateReserve schema db p1 BACKOFF_START (MAX_PIN_TRIES - 2) id clock.atGuard with
        | .error e =>
          if faults.atNext then requestWait db faults clock id
          else ((false, 0, 0, some e), db)
        | .ok (db', Option.none) => requestWait db' faults clock id
        | .ok (db', some (counter, wait)) =>
          match faults.updateScan with
          | some e => ((false, 0, 0, some e), db')
          | Option.none =>
            let tries := int64 (MAX_PIN_TRIES - counter)
            let tries := if tries < 0 then 0 else tries
            ((true, tries, int64 (wait - clock.atReturn), Option.none), db')

/-- The method `keysharePostgresDatabase.ClearPincheck`, for a driver that runs the
statement: `UPDATE irma.users SET pinCounter=0, pinBlockDate=0 WHERE id=$1`. -/
def ClearPincheck (db : Users) (user : KeyshareUser) : Option Error × Users :=
  match user with
  | .memory _ => (some ErrInvalidData, db)
  | .postgres _ id =>
    match db id with
    | Option.none => (some ErrUserNotFound, db)
    | some _ => (Option.none, Function.update db id (some ⟨0, 0⟩))

/-- The clock readings of a call are Unix times from the epoch to below `2^53` seconds
after it, the seconds that double precision tells apart. -/
def Clock.InRange (clock : Clock) : Prop :=
  (0 ≤ clock.atBase ∧ clock.atBase < 2 ^ 53) ∧ (0 ≤ clock.atGuard ∧ clock.atGuard < 2 ^ 53) ∧
    (0 ≤ clock.atReturn ∧ clock.atReturn < 2 ^ 53)

/-- A call of `ReservePincheck` during which the clock stays at the second `now` and the
driver runs every statement. -/
def reserveAt (schema : Schema) (db : Users) (now : Int) (user : KeyshareUser) :
    (Bool × Int × Int × Option Error) × Users :=
  ReservePincheck schema db DriverFaults.none ⟨now, now, now⟩ user

/-- A schema with a counter of type `integer` and a block date of type `bigint`. -/
def demoSchema : Schema := ⟨.integer, .bigint⟩

/-- A table with six users: one with two tries used, one with one try used, one with a
cleared record, one that is blocked until second 5000, one that is blocked until second
1001, and one with a hundred tries used. -/
def demoUsers : Users := fun id =>
  if id = 1 then some ⟨2, 0⟩
  else if id = 2 then some ⟨1, 0⟩
  else if id = 3 then some ⟨0, 0⟩
  else if id = 4 then some ⟨3, 5000⟩
  else if id = 5 then some ⟨3, 1001⟩
  else if id = 6 then some ⟨100, 0⟩
  else Option.none

end Keyshare

/-! ## Session store of the IRMA server (`server/irmaserver/sessions.go`)

Times are instants and durations in nanoseconds.  Session objects live at addresses; the
two maps of the store hold addresses, so that both maps point to the same objects. -/

namespace Server

open Irma

/-- Modelled from the spec: the type `server.Status`, declared outside the sources at
hand. -/
inductive Status where
  | initialized
  | connected
  | cancelled
  | done
  | timeout
  deriving DecidableEq, Repr

/-- Modelled from the spec: the method `Status.Finished`; the terminal statuses are
`Done`, `Cancelled` and `Timeout`. -/
def Status.Finished : Status → Bool
  | .done => true
  | .cancelled => true
  | .timeout => true
  | _ => false

/-- Modelled from the spec: the type `irma.Action`. -/
inductive Action where
  | disclosing
  | signing
  | issuing
  deriving DecidableEq, Repr

/-- The fields of `irma.BaseRequest` that the sources use. -/
structure BaseRequest where
  ClientReturnURL : String
  AugmentReturnURL : Bool
  Nonce : Option Int
  Context : Option Int
  deriving DecidableEq, Repr

/-- A requestor request: its session request's base (`SessionRequest().Base()`), whether
that is a legacy request (`Legacy()`), and the `ClientTimeout` of its own base
(`Base().ClientTimeout`), a number of seconds. -/
structure RequestorRequest where
  base : BaseRequest
  legacy : Bool
  ClientTimeout : Int
  deriving DecidableEq, Repr

/-- The fields of `server.SessionResult` that `newSession` fills (`SessionType` is its
field `Type`). -/
structure SessionResult where
  LegacySession : Bool
  Token : String
  SessionType : Action
  Status : Status
  deriving DecidableEq, Repr

/-- The fields of `session` that the sources at hand read or write; `sse` tells whether
the pointer to the event server is not nil. -/
structure Session where
  action : Action
  token : String
  clientToken : String
  rrequest : RequestorRequest
  status : Status
  prevStatus : Status
  sse : Bool
  lastActive : Int
  result : SessionResult
  deriving DecidableEq, Repr

abbrev Ptr := Nat

/-- The type `memorySessionStore`, with the session objects its maps point to and the
names of the channels closed so far. -/
structure MemorySessionStore where
  sessions : Ptr → Session
  requestor : GoMap String Ptr
  client : GoMap String Ptr
  closed : List String

/-- The method `memorySessionStore.get`, `none` for nil. -/
def get (s : MemorySessionStore) (t : String) : Option Ptr :=
  GoMap.get? s.requestor t

/-- The method `memorySessionStore.clientGet`, `none` for nil. -/
def clientGet (s : MemorySessionStore) (t : String) : Option Ptr :=
  GoMap.get? s.client t

/-- The method `memorySessionStore.add`, for the session object at address `p`. -/
def add (s : MemorySessionStore) (p : Ptr) : MemorySessionStore :=
  { s with
    requestor := GoMap.set s.requestor (s.sessions p).token p
    client := GoMap.set s.client (s.sessions p).clientToken p }

/-- The constant `time.Second`. -/
def second : Int := 1000000000

/-- The constant `maxSessionLifetime`, five minutes. -/
def maxSessionLifetime : Int := 5 * (60 * second)

/-- The value of a 64-bit signed integer that holds `x` after wrapping. -/
def wrap64 (x : Int) : Int :=
  (x + 2 ^ 63) % 2 ^ 64 - 2 ^ 63

/-- The variable `timeout` of `deleteExpired` for a session. -/
def sessionTimeout (session : Session) : Int :=
  if session.status = .initialized ∧ session.rrequest.ClientTimeout ≠ 0 then
    wrap64 (session.rrequest.ClientTimeout * second)
  else maxSessionLifetime

/-- The test `session.lastActive.Add(timeout).Before(time.Now())`. -/
def isExpired (now : Int) (session : Session) : Bool :=
  decide (session.lastActive + sessionTimeout session < now)

/-- Modelled from the spec: the method `session.markAlive`, which refreshes `lastActive`. -/
def markAlive (now : Int) (session : Session) : Session :=
  { session with lastActive := now }

/-- Modelled from the spec: the method `session.setStatus`, which records the previous
status and moves to the new one, in the session and in its result.  The notification it
sends is not part of the state kept here. -/
def setStatus (session : Session) (status : Status) : Session :=
  { session with
    prevStatus := session.status
    status := status
    result := { session.result with Status := status } }

/-- One turn of the first loop of `deleteExpired`, for the key `token` of the requestor
map: the session objects and the tokens collected in `expired`. -/
def sweepStep (now : Int) (requestor : GoMap String Ptr)
    (acc : (Ptr → Session) × List String) (token : String) : (Ptr → Session) × List String :=
  match GoMap.get? requestor token with
  | none => acc
  | some p =>
    let session := acc.1 p
    if isExpired now session then
      if session.status.Finished = false then
        (Function.update acc.1 p (setStatus (markAlive now session) .timeout), acc.2)
      else (acc.1, acc.2 ++ [token])
    else acc

/-- The second loop of `deleteExpired`, over the collected tokens; a token that the
requestor map does not hold would make it panic. -/
def deleteTokens : List String → MemorySessionStore → Except PanicValue MemorySessionStore
  | [], s => .ok s
  | token :: rest, s =>
    match GoMap.get? s.requestor token with
    | none => .error (.err "runtime error: invalid memory address or nil pointer dereference")
    | some p =>
      let session := s.sessions p
      deleteTokens rest
        { s with
          closed :=
            if session.sse then
              s.closed ++ ["session/" ++ session.token, "session/" ++ session.clientToken]
            else s.closed
          client := GoMap.delete s.client session.clientToken
          requestor := GoMap.delete s.requestor token }

/-- The method `memorySessionStore.deleteExpired`, run at the instant `now`. -/
def deleteExpired (now : Int) (s : MemorySessionStore) : Except PanicValue MemorySessionStore :=
  let swept := (GoMap.keys s.requestor).foldl (sweepStep now s.requestor) (s.sessions, [])
  deleteTokens swept.2 { s with sessions := swept.1 }

/-- The session that the first loop of `deleteExpired` leaves for a session that has
expired and is not finished. -/
def timedOut (now : Int) (session : Session) : Session :=
  setStatus (markAlive now session) .timeout

/-- Whether the first loop of `deleteExpired` collects the key `token`: its session has
expired and is finished. -/
def isCollected (now : Int) (sessions : Ptr → Session) (requestor : GoMap String Ptr)
    (token : String) : Bool :=
  match GoMap.get? requestor token with
  | some p => isExpired now (sessions p) && (sessions p).status.Finished
  | none => false

/-- Whether one of the tokens is the key of the session at address `p`. -/
def pointsTo (requestor : GoMap String Ptr) (tokens : List String) (p : Ptr) : Bool :=
  tokens.any fun t => decide (GoMap.get? requestor t = some p)

/-- Whether one of the tokens is the key of a session whose client token is `c`. -/
def clientTokenOf (s : MemorySessionStore) (tokens : List String) (c : String) : Bool :=
  tokens.any fun t =>
    match GoMap.get? s.requestor t with
    | some p => decide ((s.sessions p).clientToken = c)
    | none => false

/-- The fields of `server.Configuration` that `newSession` reads. -/
structure Configuration where
  AugmentClientReturnURL : Bool
  deriving DecidableEq, Repr

/-- What `newSession` leaves: the store, the address of the new session, and the request,
which it changes in place. -/
structure Started where
  store : MemorySessionStore
  session : Ptr
  request : RequestorRequest

/-- The method `Server.newSession`.  The two tokens, the nonce, the instant and the
address of the new object are what `common.NewSessionToken`, `gabi.GenerateNonce`,
`time.Now` and the allocator give. -/
def newSession (conf : Configuration) (store : MemorySessionStore) (sse : Bool) (p : Ptr)
    (token clientToken : String) (now nonce : Int) (action : Action)
    (request : RequestorRequest) : Started :=
  let base := request.base
  let base : BaseRequest :=
    if conf.AugmentClientReturnURL ∧ base.AugmentReturnURL ∧ base.ClientReturnURL ≠ "" then
      if '?' ∈ base.ClientReturnURL.data then
        { base with ClientReturnURL := base.ClientReturnURL ++ ("&token=" ++ token) }
      else { base with ClientReturnURL := base.ClientReturnURL ++ ("?token=" ++ token) }
    else base
  let base : BaseRequest := { base with Nonce := some nonce, Context := some 1 }
  let request : RequestorRequest := { request with base := base }
  let ses : Session :=
    { action := action
      rrequest := request
      lastActive := now
      token := token
      clientToken := clientToken
      status := .initialized
      prevStatus := .initialized
      sse := sse
      result := ⟨request.legacy, token, action, .initialized⟩ }
  ⟨add { store with sessions := Function.update store.sessions p ses } p, p, request⟩

/-- The store has its two maps in step: a session filed under a requestor token carries
that token and is filed under its own client token, and the other way round. -/
def InStep (s : MemorySessionStore) : Prop :=
  (∀ t p, GoMap.get? s.requestor t = some p →
    (s.sessions p).token = t ∧ GoMap.get? s.client (s.sessions p).clientToken = some p) ∧
  (∀ c p, GoMap.get? s.client c = some p →
    (s.sessions p).clientToken = c ∧ GoMap.get? s.requestor (s.sessions p).token = some p)

/-- The empty store. -/
def emptyStore (sessions : Ptr → Session) : MemorySessionStore :=
  ⟨sessions, [], [], []⟩

/-- The stores reached from the empty store by `add`, of a new session object whose
tokens are not yet keys of the maps, and by `deleteExpired`. -/
inductive Reachable : MemorySessionStore → Prop where
  | empty (sessions : Ptr → Session) : Reachable (emptyStore sessions)
  | add (s : MemorySessionStore) (p : Ptr) (session : Session) :
    Reachable s →
    (∀ t, GoMap.get? s.requestor t ≠ some p) → (∀ c, GoMap.get? s.client c ≠ some p) →
    GoMap.get? s.requestor session.token = none →
    GoMap.get? s.client session.clientToken = none →
    Reachable (Server.add { s with sessions := Function.update s.sessions p session } p)
  | deleteExpired (s s' : MemorySessionStore) (now : Int) :
    Reachable s → Server.deleteExpired now s = .ok s' → Reachable s'

/-- The query of an address: what stands between its first `?` and its fragment, which
starts at the first `#`; `none` when there is no `?` before the fragment. -/
def queryOf (url : String) : Option (List Char) :=
  let hier := url.data.takeWhile (fun c => c ≠ '#')
  if '?' ∈ hier then some ((hier.dropWhile (fun c => c ≠ '?')).drop 1) else none

/-- The query parameters of an address: the parts of its query between `&`. -/
def queryParameters (url : String) : List String :=
  match queryOf url with
  | none => []
  | some q => (Irma.splitChars '&' q).map String.mk

end Server

/-! ## A small configuration folder for worked examples

The library functions are stand-ins that are simple enough to evaluate: a one-byte
checksum for the digest, a signature check that accepts `(r, s) = (1, 1)`, and descriptions
that are recognised by their exact bytes.  The control flow of the embedded functions
only depends on whether digests agree with the index and on what the decoders return. -/

namespace Demo

open Irma

/-- Stand-in for the digest: the sum of the bytes, as one byte. -/
def digest (b : Bytes) : Bytes :=
  [Fin.ofNat (b.foldl (fun a x => a + x.val) 0)]

/-- The INTEGERs of a DER `SEQUENCE` in short form, read with at most `fuel` elements:
each is tag `0x02`, a length below 128 and that many big-endian bytes (non-negative
values only). -/
def derIntegerList : Nat → List (Fin 256) → Except Error (List Int)
  | _, [] => .ok []
  | 0, _ :: _ => .error "asn1: structure error"
  | fuel + 1, tag :: len :: rest =>
    if tag.val = 2 ∧ 0 < len.val ∧ len.val < 128 ∧ len.val ≤ rest.length then
      match derIntegerList fuel (rest.drop len.val) with
      | .ok is =>
        .ok (Int.ofNat ((rest.take len.val).foldl (fun a x => a * 256 + x.val) 0) :: is)
      | .error e => .error e
    else .error "asn1: structure error"
  | _ + 1, [_] => .error "asn1: syntax error"

/-- Stand-in for `asn1.Unmarshal` into a `[]*big.Int`: a short-form DER `SEQUENCE` of
INTEGERs, bytes after the sequence being the unparsed rest. -/
def asn1Unmarshal : Bytes → Except Error (List Int)
  | tag :: len :: rest =>
    if tag.val = 48 ∧ len.val < 128 ∧ len.val ≤ rest.length then
      derIntegerList len.val (rest.take len.val)
    else .error "asn1: structure error"
  | _ => .error "asn1: syntax error"

def managerXml : Bytes := stringToBytes "<SchemeManager>s</SchemeManager>"

def issuerXml : Bytes := stringToBytes "<Issuer>s.i</Issuer>"

/-- A credential description that names `issuer` as its issuer. -/
def credentialXml (issuer : String) : Bytes :=
  stringToBytes ("<IssueSpecification>s." ++ issuer ++ ".c</IssueSpecification>")

/-- The index of scheme `s` for a credential description naming `issuer`. -/
def index (issuer : String) : SchemeManagerIndex :=
  [("s/description.xml", digest managerXml),
   ("s/i/description.xml", digest issuerXml),
   ("s/i/Issues/c/description.xml", digest (credentialXml issuer))]

/-- The signature file: `SEQUENCE { INTEGER 1, INTEGER 1 }`. -/
def signature : Bytes := [48, 6, 2, 1, 1, 2, 1, 1]

/-- A signature file with a third INTEGER: `SEQUENCE { INTEGER 1, INTEGER 1, INTEGER 7 }`. -/
def signatureOfThree : Bytes := [48, 9, 2, 1, 1, 2, 1, 1, 2, 1, 7]

def publicKeyPem : Bytes := stringToBytes "-----BEGIN PUBLIC KEY-----"

/-- The files of the folder `conf`, holding scheme `s`, issuer `i` and credential type `c`
whose description names `issuer` as its issuer, with signature file `sig`. -/
def files (issuer : String) (sig : Bytes) : List (String × Bytes) :=
  [("conf/s/index", stringToBytes (SchemeManagerIndex.String (index issuer))),
   ("conf/s/index.sig", sig),
   ("conf/s/pk.pem", publicKeyPem),
   ("conf/s/description.xml", managerXml),
   ("conf/s/i/description.xml", issuerXml),
   ("conf/s/i/Issues/c/description.xml", credentialXml issuer)]

/-- The directories of the folder `conf` and the names in each. -/
def dirs : List (String × List String) :=
  [("conf", ["s"]),
   ("conf/s", ["description.xml", "i", "index", "index.sig", "pk.pem"]),
   ("conf/s/i", ["Issues", "description.xml"]),
   ("conf/s/i/Issues", ["c"]),
   ("conf/s/i/Issues/", ["c"]),
   ("conf/s/i/Issues/c", ["description.xml"])]

/-- An environment over the given directories and files. -/
def mkEnv (ds : List (String × List String)) (fs : List (String × Bytes)) : Env where
  globNames := fun p => .ok ((GoMap.get? ds p).getD [])
  stat := fun p =>
    if (GoMap.get? ds p).isSome then .ok true
    else if (GoMap.get? fs p).isSome then .ok false
    else .error "stat: no such file or directory"
  readFile := fun p =>
    match GoMap.get? fs p with
    | some b => .ok b
    | none => .error "open: no such file or directory"
  pathExists := fun p => (GoMap.get? ds p).isSome || (GoMap.get? fs p).isSome
  filepathJoin := fun a b => a ++ "/" ++ b
  sha256 := digest
  base64 := hexEncodeToString
  pemDecode := fun b => if b = publicKeyPem then some b else none
  parsePKIXPublicKey := fun b => .ok (.ecdsa b)
  asn1Unmarshal := asn1Unmarshal
  ecdsaVerify := fun _ _ r s => .ok (decide (r = 1 ∧ s = 1))
  unmarshalManager := fun b m =>
    if b = managerXml then .ok { m with ID := "s", URL := "https://example.org/s", XMLVersion := 7 }
    else .error "XML syntax error"
  unmarshalIssuer := fun b _ =>
    if b = issuerXml then .ok ⟨"i", "s", 4⟩ else .error "XML syntax error"
  unmarshalCredential := fun b _ =>
    if b = credentialXml "i" then .ok ⟨"c", "i", "s", 4⟩
    else if b = credentialXml "j" then .ok ⟨"c", "j", "s", 4⟩
    else .error "XML syntax error"

/-- The folder in which every description names the folder it is in. -/
def env : Env := mkEnv dirs (files "i" signature)

/-- The folder in which the description of credential type `c`, in the folder of issuer
`i`, names issuer `j`. -/
def envForeignIssuer : Env := mkEnv dirs (files "j" signature)

/-- The folder whose signature file holds three INTEGERs. -/
def envThreeIntegers : Env := mkEnv dirs (files "i" signatureOfThree)

/-- The folder whose signature file is not ASN.1 at all. -/
def envGarbageSignature : Env := mkEnv dirs (files "i" (stringToBytes "garbage"))

/-- An empty folder `conf`. -/
def envEmpty : Env := mkEnv [("conf", [])] []

/-- A folder `conf` with a scheme folder `s` that has no index file. -/
def envNoIndex : Env := mkEnv [("conf", ["s"]), ("conf/s", [])] []

/-- The manager of scheme `s` as `ParseFolder` builds it. -/
def manager : SchemeManager :=
  ⟨"s", "https://example.org/s", 7, index "i"⟩

/-- The description of a credential type `name` of issuer `i` of scheme `s`. -/
def credentialXmlNamed (name : String) : Bytes :=
  stringToBytes ("<IssueSpecification>s.i." ++ name ++ "</IssueSpecification>")

/-- The index of scheme `s` for the digest `sha256`, with the descriptions of the
credential types `x` and `y` in the folders `a` and `b`. -/
def indexCollision (sha256 : Bytes → Bytes) (x y : String) : SchemeManagerIndex :=
  [("s/description.xml", sha256 managerXml),
   ("s/i/description.xml", sha256 issuerXml),
   ("s/i/Issues/a/description.xml", sha256 (credentialXmlNamed x)),
   ("s/i/Issues/b/description.xml", sha256 (credentialXmlNamed y))]

/-- The folder `conf` with scheme `s`, issuer `i` and the folders `a` and `b` of two
credential types, which their descriptions name `x` and `y`; the digest is `sha256` and
the encoder `base64`, the index lists the digests of the descriptions. -/
def envCollision (sha256 : Bytes → Bytes) (base64 : Bytes → String) (x y : String) : Env :=
  { mkEnv
      [("conf", ["s"]),
       ("conf/s", ["description.xml", "i", "index", "index.sig", "pk.pem"]),
       ("conf/s/i", ["Issues", "description.xml"]),
       ("conf/s/i/Issues", ["a", "b"]),
       ("conf/s/i/Issues/", ["a", "b"]),
       ("conf/s/i/Issues/a", ["description.xml"]),
       ("conf/s/i/Issues/b", ["description.xml"])]
      [("conf/s/index", stringToBytes (SchemeManagerIndex.String (indexCollision sha256 x y))),
       ("conf/s/index.sig", signature),
       ("conf/s/pk.pem", publicKeyPem),
       ("conf/s/description.xml", managerXml),
       ("conf/s/i/description.xml", issuerXml),
       ("conf/s/i/Issues/a/description.xml", credentialXmlNamed x),
       ("conf/s/i/Issues/b/description.xml", credentialXmlNamed y)] with
    sha256 := sha256
    base64 := base64
    unmarshalCredential := fun b _ =>
      if b = credentialXmlNamed x then .ok ⟨x, "i", "s", 4⟩
      else if b = credentialXmlNamed y then .ok ⟨y, "i", "s", 4⟩
      else .error "XML syntax error" }

/-- The name made of `n + 1` letters `c`. -/
def nameOfLength (n : Nat) : String :=
  String.mk (List.replicate (n + 1) 'c')

/-- Whether path `p` is `dir` or lies below it. -/
def under (dir p : String) : Bool :=
  p = dir || (dir ++ "/").data.isPrefixOf p.data

/-- The folder part and the name part of a path, cut at its last separator. -/
def cutLast (p : String) : String × String :=
  let name := (p.data.reverse.takeWhile (fun c => c ≠ '/')).reverse
  (String.mk (p.data.take (p.length - name.length - 1)), String.mk name)

/-- The names of a folder with `name` among them. -/
def withName (names : Except Error (List String)) (name : String) :
    Except Error (List String) :=
  match names with
  | .ok ns => .ok (if name ∈ ns then ns else ns ++ [name])
  | .error e => .error e

/-- The file system with file `dest` holding `b`, listed in its folder, which is made and
listed in the folder above it if it is not there. -/
def writeFile (env : Env) (dest : String) (b : Bytes) : Env :=
  let folder := (cutLast dest).1
  { env with
    readFile := fun p => if p = dest then .ok b else env.readFile p
    pathExists := fun p => p = dest || p = folder || env.pathExists p
    stat := fun p =>
      if p = dest then .ok false else if p = folder then .ok true else env.stat p
    globNames := fun d =>
      if d = folder then withName (env.globNames d) (cutLast dest).2
      else if d = (cutLast folder).1 then withName (env.globNames d) (cutLast folder).2
      else env.globNames d }

/-- The file system without `path` and what lies below it. -/
def removeTree (env : Env) (path : String) : Env :=
  { env with
    readFile := fun p => if under path p then .error "open: no such file or directory"
      else env.readFile p
    pathExists := fun p => !under path p && env.pathExists p
    stat := fun p => if under path p then .error "stat: no such file or directory"
      else env.stat p
    globNames := fun d =>
      if under path d then .ok []
      else if d = (cutLast path).1 then
        match env.globNames d with
        | .ok names => .ok (names.filter fun n => n ≠ (cutLast path).2)
        | .error e => .error e
      else env.globNames d }

/-- The description of issuer `k` of scheme `s`, as the server of the scheme holds it. -/
def issuerXmlOf (name : String) : Bytes :=
  stringToBytes ("<Issuer>s." ++ name ++ "</Issuer>")

/-- A public key file. -/
def keyXml : Bytes := stringToBytes "<IssuerPublicKey>0</IssuerPublicKey>"

/-- The index of scheme `s` as the server of the scheme holds it, with the issuers `k` and
`l` beside what the example folder holds. -/
def indexRemote : SchemeManagerIndex :=
  index "i" ++
    [("s/k/description.xml", digest (issuerXmlOf "k")),
     ("s/l/description.xml", digest (issuerXmlOf "l"))]

/-- What the server of scheme `s` serves: its index and the signature of the index, the
description of issuer `k`, but no logo for it, and the description and logo of issuer
`l`. -/
def remote : List (String × Bytes) :=
  [("https://example.org/s/index", stringToBytes (SchemeManagerIndex.String indexRemote)),
   ("https://example.org/s/index.sig", signature),
   ("https://example.org/s/k/description.xml", issuerXmlOf "k"),
   ("https://example.org/s/l/description.xml", issuerXmlOf "l"),
   ("https://example.org/s/l/logo.png", [137, 80, 78, 71])]

/-- Stand-ins for the effects: a server that serves `remote`, files written and removed
in the file system, folders that can always be made, and a key decoder that recognises
`keyXml`. -/
def effects : Effects where
  removeAll := fun env path => (none, removeTree env path)
  getFile := fun env url dest =>
    match GoMap.get? remote url with
    | none => (some "404 Not Found", env)
    | some b => (none, writeFile env dest b)
  ensureDirectoryExists := fun env _ => (none, env)
  newPublicKeyFromBytes := fun b =>
    if b = keyXml then .ok ⟨"", b⟩ else .error "XML syntax error"

/-- The example folder with a public key file `0.xml` of issuer `i` that the index of the
scheme does not list. -/
def envUnlistedKey : Env :=
  mkEnv
    [("conf", ["s"]),
     ("conf/s", ["description.xml", "i", "index", "index.sig", "pk.pem"]),
     ("conf/s/i", ["Issues", "PublicKeys", "description.xml"]),
     ("conf/s/i/Issues", ["c"]),
     ("conf/s/i/Issues/", ["c"]),
     ("conf/s/i/Issues/c", ["description.xml"]),
     ("conf/s/i/PublicKeys", ["0.xml"])]
    (files "i" signature ++ [("conf/s/i/PublicKeys/0.xml", keyXml)])

/-- The configuration that `ParseFolder` builds from the example folder. -/
def parsed : Configuration :=
  (ParseFolder env (newConfiguration "conf")).2.conf

/-- The configuration that `ParseFolder` builds from the folder with the unlisted key. -/
def parsedUnlistedKey : Configuration :=
  (ParseFolder envUnlistedKey (newConfiguration "conf")).2.conf

/-- The configuration after a first call of `PublicKey` for issuer `s.i` and counter 0
over the folder with the unlisted key. -/
def afterFirstPublicKey : Configuration :=
  match ConfigurationPublicKey effects envUnlistedKey parsedUnlistedKey ["s", "i"] 0 with
  | .ok r => r.2
  | .error _ => parsedUnlistedKey

/-- The example folder, read with a decoder that knows the descriptions of the issuers
`i`, `k` and `l`. -/
def envIssuers : Env :=
  { env with
    unmarshalIssuer := fun b _ =>
      if b = issuerXml then .ok ⟨"i", "s", 4⟩
      else if b = issuerXmlOf "k" then .ok ⟨"k", "s", 4⟩
      else if b = issuerXmlOf "l" then .ok ⟨"l", "s", 4⟩
      else .error "XML syntax error" }

/-- A request to download issuer `k` of scheme `s`. -/
def wantIssuerK : IrmaIdentifierSet :=
  ⟨[(["s"], ())], [(["s", "k"], ())], [], []⟩

/-- A request to download issuer `l` of scheme `s`. -/
def wantIssuerL : IrmaIdentifierSet :=
  ⟨[(["s"], ())], [(["s", "l"], ())], [], []⟩

/-- A session object that is not in use. -/
def blankSession : Server.Session :=
  ⟨.disclosing, "", "", ⟨⟨"", false, none, none⟩, false, 0⟩, .initialized, .initialized, false,
    0, ⟨false, "", .disclosing, .initialized⟩⟩

/-- A store without sessions. -/
def noSessions : Server.MemorySessionStore :=
  Server.emptyStore (fun _ => blankSession)

/-- A disclosure request that asks for its return address to be augmented. -/
def requestReturning (url : String) : Server.RequestorRequest :=
  ⟨⟨url, true, none, none⟩, false, 0⟩

/-- A session with the given tokens, status, client timeout in seconds and instant of
last activity. -/
def sessionWith (token clientToken : String) (status : Server.Status)
    (clientTimeout lastActive : Int) : Server.Session :=
  { blankSession with
    token := token
    clientToken := clientToken
    status := status
    rrequest := { blankSession.rrequest with ClientTimeout := clientTimeout }
    lastActive := lastActive }

/-- The store after `add` of one new session object, at address `0`. -/
def storeOf (session : Server.Session) : Server.MemorySessionStore :=
  Server.add { noSessions with sessions := Function.update noSessions.sessions 0 session } 0

/-- The index of the folder `evil`: it lists a copy of the description of scheme `s` and
the description of an issuer `x`. -/
def indexEvil : SchemeManagerIndex :=
  [("evil/description.xml", digest managerXml),
   ("evil/x/description.xml", digest (issuerXmlOf "x"))]

/-- The example folder beside a folder `evil` that nobody signed: its `index.sig` and
`pk.pem` are not a signature and not a key, its `description.xml` is a copy of the
description of scheme `s`, and it holds the description of an issuer `x` of scheme `s`. -/
def envEvil : Env :=
  { mkEnv
      ([("conf", ["evil", "s"]),
        ("conf/evil", ["description.xml", "index", "index.sig", "pk.pem", "x"]),
        ("conf/evil/x", ["description.xml"])] ++ dirs)
      ([("conf/evil/index", stringToBytes (SchemeManagerIndex.String indexEvil)),
        ("conf/evil/index.sig", stringToBytes "garbage"),
        ("conf/evil/pk.pem", stringToBytes "garbage"),
        ("conf/evil/description.xml", managerXml),
        ("conf/evil/x/description.xml", issuerXmlOf "x")] ++ files "i" signature) with
    unmarshalIssuer := fun b _ =>
      if b = issuerXml then .ok ⟨"i", "s", 4⟩
      else if b = issuerXmlOf "x" then .ok ⟨"x", "s", 4⟩
      else .error "XML syntax error" }

end Demo

/-! # Properties -/

namespace Irma

/-! ## Reading authenticated files -/

/-- C3 (amended): every panic raised in the body of `VerifySignature` is recovered into
`valid = false` with an error, and whenever `pk.pem` is not a PEM block holding a
PKIX-encoded ECDSA key, or `index.sig` does not decode to an ASN.1 SEQUENCE of at least two
INTEGERs, `VerifySignature` returns `valid = false` together with an error. -/
theorem VerifySignature_malformed (env : Env) (conf : Configuration) (id : Identifier) :
    (∀ r, VerifySignatureBody env conf id = .panic r →
      ∃ e, VerifySignature env conf id = (false, some e)) ∧
    (((∀ pkbts, env.readFile (env.filepathJoin conf.path id.String ++ "/pk.pem") = .ok pkbts →
        ¬ pemHoldsEcdsaKey env pkbts) ∨
      (∀ sig, env.readFile (env.filepathJoin conf.path id.String ++ "/index.sig") = .ok sig →
        (signatureIntegers env sig).length < 2)) →
      ∃ e, VerifySignature env conf id = (false, some e)) := by
  constructor
  · intro r hr
    unfold VerifySignature
    rw [hr]
    cases r with
    | err e => exact ⟨_, rfl⟩
    | other => exact ⟨_, rfl⟩
  · intro hbad
    unfold VerifySignature VerifySignatureBody
    simp only []
    split
    · exact ⟨_, rfl⟩
    · split
      · exact ⟨_, rfl⟩
      · split
        · exact ⟨_, rfl⟩
        · rename_i pkbts hpk
          split
          · exact ⟨_, rfl⟩
          · rename_i blk hblk
            split
            · exact ⟨_, rfl⟩
            · exact ⟨_, rfl⟩
            · rename_i key hkey
              split
              · exact ⟨_, rfl⟩
              · rename_i sig hsig
                split
                · rename_i r s tl hints
                  exfalso
                  rcases hbad with h | h
                  · exact h pkbts hpk ⟨blk, key, hblk, hkey⟩
                  · have := h sig hsig
                    rw [hints] at this
                    simp at this
                    omega
                · exact ⟨_, rfl⟩


/-- C3 (amended), at the example folder whose signature file holds the text `garbage`. -/
theorem VerifySignature_malformed_witness :
    ∃ e, VerifySignature Demo.envGarbageSignature (newConfiguration "conf") ["s"] =
      (false, some e) :=
  (VerifySignature_malformed Demo.envGarbageSignature (newConfiguration "conf") ["s"]).2
    (Or.inr (by
      intro sig h
      have h2 : (Except.ok (stringToBytes "garbage") : Except Error Bytes) = Except.ok sig := h
      injection h2 with h3
      subst h3
      decide))

/-- C3 as stated fails: the signature file of this folder is a SEQUENCE of three INTEGERs,
not of exactly two, and `VerifySignature` returns `valid = true` with a nil error. -/
theorem VerifySignature_three_integers :
    Demo.envThreeIntegers.readFile "conf/s/index.sig" = .ok Demo.signatureOfThree ∧
    Demo.envThreeIntegers.asn1Unmarshal Demo.signatureOfThree = .ok [1, 1, 7] ∧
    VerifySignature Demo.envThreeIntegers (newConfiguration "conf") ["s"] = (true, none) := by
  refine ⟨rfl, rfl, ?_⟩
  decide

/-! ## Go maps -/

namespace GoMap

variable {κ ν : Type} [DecidableEq κ]

theorem get?_filter_ne (m : GoMap κ ν) (k q : κ) (h : k ≠ q) :
    get? (m.filter (fun e => e.1 ≠ k)) q = get? m q := by
  induction m with
  | nil => rfl
  | cons e m ih =>
    obtain ⟨k', v⟩ := e
    by_cases hk : k' = k
    · have hq : k' ≠ q := by rw [hk]; exact h
      rw [List.filter_cons_of_neg (by simp [hk]), ih]
      simp [get?, hq]
    · rw [List.filter_cons_of_pos (by simp [hk])]
      by_cases hq : k' = q
      · simp [get?, hq]
      · simp only [get?, hq, ↓reduceIte]
        exact ih

theorem get?_set (m : GoMap κ ν) (k q : κ) (v : ν) :
    get? (set m k v) q = if k = q then some v else get? m q := by
  unfold set
  by_cases h : k = q
  · simp [get?, h]
  · simp only [get?, h, if_false]
    exact get?_filter_ne m k q h

theorem get?_isSome_iff_mem_keys (m : GoMap κ ν) (q : κ) :
    (get? m q).isSome = true ↔ q ∈ keys m := by
  unfold keys
  rw [List.mem_dedup]
  induction m with
  | nil => simp [get?]
  | cons e m ih =>
    obtain ⟨k', v⟩ := e
    by_cases hq : k' = q
    · simp [get?, hq]
    · simp only [get?, hq, if_false, List.map_cons, List.mem_cons]
      rw [ih]
      constructor
      · intro h; exact Or.inr h
      · rintro (h | h)
        · exact absurd h.symm hq
        · exact h

/-- Assigning, for each key of a list, the value a function gives it. -/
theorem get?_foldl_set (f : κ → ν) (ks : List κ) (m : GoMap κ ν) (q : κ) :
    get? (ks.foldl (fun acc k => set acc k (f k)) m) q =
      if q ∈ ks then some (f q) else get? m q := by
  induction ks generalizing m with
  | nil => simp
  | cons k ks ih =>
    rw [List.foldl_cons, ih]
    by_cases hq : q ∈ ks
    · simp [hq]
    · simp only [hq, if_false, List.mem_cons, or_false]
      rw [get?_set]
      by_cases hk : k = q
      · simp [hk]
      · have : ¬ q = k := fun h => hk h.symm
        simp [hk, this]

end GoMap

/-! ## Hexadecimal text -/

theorem fromHexChar_hexDigit : ∀ n : Fin 16, fromHexChar (hexDigit n) = some n := by decide

theorem hexDigit_ne_space : ∀ n : Fin 16, hexDigit n ≠ ' ' := by decide

theorem hexDigit_ne_newline : ∀ n : Fin 16, hexDigit n ≠ '\n' := by decide

theorem hexDecodeChars_hexEncodeChars (bs : Bytes) :
    hexDecodeChars (hexEncodeChars bs) = .ok bs := by
  induction bs with
  | nil => rfl
  | cons b bs ih =>
    simp only [hexEncodeChars, hexDecodeChars, fromHexChar_hexDigit, ih]
    congr 2
    apply Fin.ext
    simp only
    omega

theorem space_not_mem_hexEncodeChars (bs : Bytes) : ' ' ∉ hexEncodeChars bs := by
  induction bs with
  | nil => simp [hexEncodeChars]
  | cons b bs ih =>
    simp only [hexEncodeChars, List.mem_cons, not_or]
    exact ⟨(hexDigit_ne_space _).symm, (hexDigit_ne_space _).symm, ih⟩

theorem newline_not_mem_hexEncodeChars (bs : Bytes) : '\n' ∉ hexEncodeChars bs := by
  induction bs with
  | nil => simp [hexEncodeChars]
  | cons b bs ih =>
    simp only [hexEncodeChars, List.mem_cons, not_or]
    exact ⟨(hexDigit_ne_newline _).symm, (hexDigit_ne_newline _).symm, ih⟩

/-! ## Splitting -/

theorem splitChars_ne_nil (sep : Char) (l : List Char) : splitChars sep l ≠ [] := by
  cases l with
  | nil => simp [splitChars]
  | cons c cs =>
    unfold splitChars
    split
    · simp
    · split <;> simp

theorem splitChars_of_not_mem (sep : Char) (l : List Char) (h : sep ∉ l) :
    splitChars sep l = [l] := by
  induction l with
  | nil => rfl
  | cons c cs ih =>
    have hc : c ≠ sep := fun e => h (by simp [e])
    have hcs : sep ∉ cs := fun e => h (by simp [e])
    simp [splitChars, hc, ih hcs]

theorem splitChars_append_sep (sep : Char) (l rest : List Char) (h : sep ∉ l) :
    splitChars sep (l ++ sep :: rest) = l :: splitChars sep rest := by
  induction l with
  | nil => simp [splitChars]
  | cons c cs ih =>
    have hc : c ≠ sep := fun e => h (by simp [e])
    have hcs : sep ∉ cs := fun e => h (by simp [e])
    simp [splitChars, hc, ih hcs]

theorem length_splitChars (sep : Char) (l : List Char) :
    (splitChars sep l).length = l.count sep + 1 := by
  induction l with
  | nil => rfl
  | cons c cs ih =>
    by_cases hc : c = sep
    · simp [splitChars, hc, ih]
    · have hcount : (c :: cs).count sep = cs.count sep := by
        rw [List.count_cons]
        simp [hc]
      rw [hcount, ← ih]
      simp only [splitChars, hc, if_false]
      cases hs : splitChars sep cs with
      | nil => exact absurd hs (splitChars_ne_nil sep cs)
      | cons p ps => rfl

/-! ## Index files -/

theorem string_length_eq_zero_iff (s : String) : s.length = 0 ↔ s = "" := by
  constructor
  · intro h
    apply String.ext
    exact List.length_eq_zero.mp h
  · intro h; subst h; rfl

/-- A line of the index that is not empty and does not split at spaces into two parts ends
the loop with an error, as does a first part that is not hexadecimal; the error does
not depend on the line number. -/
theorem fromStringLines_isSome_congr (ls : List String) (i : SchemeManagerIndex) (j j' : Nat) :
    (fromStringLines i j ls).1 = (fromStringLines i j' ls).1 ∧
    (fromStringLines i j ls).2.isSome = (fromStringLines i j' ls).2.isSome := by
  induction ls generalizing i j j' with
  | nil => exact ⟨rfl, rfl⟩
  | cons line rest ih =>
    unfold fromStringLines
    split
    · exact ih i (j + 1) (j' + 1)
    · split
      · split
        · exact ⟨rfl, rfl⟩
        · exact ih _ (j + 1) (j' + 1)
      · exact ⟨rfl, rfl⟩

theorem fromStringLines_filter (ls : List String) (i : SchemeManagerIndex) (j : Nat) :
    (fromStringLines i j ls).1 = (fromStringLines i j (ls.filter (fun l => l ≠ ""))).1 ∧
    (fromStringLines i j ls).2.isSome =
      (fromStringLines i j (ls.filter (fun l => l ≠ ""))).2.isSome := by
  induction ls generalizing i j with
  | nil => exact ⟨rfl, rfl⟩
  | cons line rest ih =>
    by_cases hl : line = ""
    · rw [List.filter_cons_of_neg (by simp [hl])]
      have h0 : line.length = 0 := (string_length_eq_zero_iff line).mpr hl
      rw [fromStringLines, if_pos h0]
      have h1 := ih i (j + 1)
      have h2 := fromStringLines_isSome_congr (rest.filter (fun l => l ≠ "")) i (j + 1) j
      exact ⟨h1.1.trans h2.1, h1.2.trans h2.2⟩
    · rw [List.filter_cons_of_pos (by simp [hl])]
      have h0 : ¬ line.length = 0 := fun h => hl ((string_length_eq_zero_iff line).mp h)
      rw [fromStringLines, fromStringLines, if_neg h0, if_neg h0]
      split
      · split
        · exact ⟨rfl, rfl⟩
        · exact ih _ (j + 1)
      · exact ⟨rfl, rfl⟩

theorem fromStringLines_all_empty (ls : List String) (i : SchemeManagerIndex) (j : Nat)
    (h : ∀ line ∈ ls, line = "") : fromStringLines i j ls = (i, none) := by
  induction ls generalizing j with
  | nil => rfl
  | cons line rest ih =>
    have h0 : line.length = 0 :=
      (string_length_eq_zero_iff line).mpr (h line (List.mem_cons_self _ _))
    rw [fromStringLines, if_pos h0]
    exact ih (j + 1) (fun l hl => h l (List.mem_cons_of_mem _ hl))

theorem fromStringLines_error (ls : List String) (i : SchemeManagerIndex) (j : Nat)
    (h : ∃ line ∈ ls, line ≠ "" ∧ line.data.count ' ' ≠ 1) :
    (fromStringLines i j ls).2.isSome = true := by
  induction ls generalizing i j with
  | nil => obtain ⟨line, hm, _⟩ := h; cases hm
  | cons line rest ih =>
    unfold fromStringLines
    split
    · rename_i h0
      apply ih
      obtain ⟨l, hm, hne, hc⟩ := h
      rcases List.mem_cons.mp hm with e | e
      · exact absurd ((string_length_eq_zero_iff line).mp h0) (e ▸ hne)
      · exact ⟨l, e, hne, hc⟩
    · split
      · rename_i p0 p1 hsplit
        split
        · rfl
        · apply ih
          obtain ⟨l, hm, hne, hc⟩ := h
          rcases List.mem_cons.mp hm with e | e
          · exfalso
            subst e
            have hlen : (stringsSplit l ' ').length = 2 := by rw [hsplit]; rfl
            unfold stringsSplit at hlen
            rw [List.length_map, length_splitChars] at hlen
            omega
          · exact ⟨l, e, hne, hc⟩
      · rfl

/-- C8 (amended): `FromString` skips empty lines, which add no entry and cause no error
(the map it leaves and whether it fails are those for the text without its empty lines,
and a text of empty lines only leaves the map as it is, without error), and it returns an
error whenever some non-empty line does not hold exactly one space character, that is,
does not split at single spaces into exactly two parts. -/
theorem FromString_blank_and_malformed (i : SchemeManagerIndex) (s : String) :
    ((SchemeManagerIndex.FromString i s).1 =
        (fromStringLines i 0 ((stringsSplit s '\n').filter (fun l => l ≠ ""))).1 ∧
      (SchemeManagerIndex.FromString i s).2.isSome =
        (fromStringLines i 0 ((stringsSplit s '\n').filter (fun l => l ≠ ""))).2.isSome) ∧
    ((∀ line ∈ stringsSplit s '\n', line = "") →
      SchemeManagerIndex.FromString i s = (i, none)) ∧
    ((∃ line ∈ stringsSplit s '\n', line ≠ "" ∧ line.data.count ' ' ≠ 1) →
      (SchemeManagerIndex.FromString i s).2.isSome = true) :=
  ⟨fromStringLines_filter _ i 0, fromStringLines_all_empty _ i 0, fromStringLines_error _ i 0⟩

/-- C8 (amended), at a text whose second line has three parts. -/
theorem FromString_blank_and_malformed_witness :
    (SchemeManagerIndex.FromString [] "ab s/x\n\ncd s/y z\n").2.isSome = true :=
  (FromString_blank_and_malformed [] "ab s/x\n\ncd s/y z\n").2.2
    ⟨"cd s/y z", by decide, by decide, by decide⟩

/-- C8 as stated fails: the line `ab ` holds one white-space-separated token, and
`FromString` accepts it, binding the empty path, without error. -/
theorem FromString_accepts_one_token :
    tokens "ab " = ["ab"] ∧
    SchemeManagerIndex.FromString [] "ab " = ([("", [171])], none) := by
  decide

/-- The characters of the line that `String` writes for `path`, without its line feed. -/
theorem index_String_data_aux (i : SchemeManagerIndex) (ks : List String) (acc : String) :
    (ks.foldl
      (fun b path =>
        b ++ hexEncodeToString ((GoMap.get? i path).getD []) ++ " " ++ path ++ "\n") acc).data =
      acc.data ++ ks.flatMap (fun p =>
        (hexEncodeChars ((GoMap.get? i p).getD []) ++ ' ' :: p.data) ++ ['\n']) := by
  induction ks generalizing acc with
  | nil => simp
  | cons k ks ih =>
    rw [List.foldl_cons, ih]
    simp only [String.data_append, hexEncodeToString, List.flatMap_cons, List.append_assoc]
    rfl

theorem splitChars_lines (f : String → List Char) (ks : List String)
    (h : ∀ p ∈ ks, '\n' ∉ f p) :
    splitChars '\n' (ks.flatMap (fun p => f p ++ ['\n'])) = ks.map f ++ [[]] := by
  induction ks with
  | nil => rfl
  | cons k ks ih =>
    rw [List.flatMap_cons, List.append_assoc]
    have : ['\n'] ++ ks.flatMap (fun p => f p ++ ['\n']) =
        '\n' :: ks.flatMap (fun p => f p ++ ['\n']) := rfl
    rw [this, splitChars_append_sep _ _ _ (h k (List.mem_cons_self _ _)),
      ih (fun p hp => h p (List.mem_cons_of_mem _ hp))]
    rfl

theorem fromStringLines_written (m : SchemeManagerIndex) (ks : List String)
    (h : ∀ p ∈ ks, ' ' ∉ p.data) (i : SchemeManagerIndex) (j : Nat) :
    fromStringLines i j
        ((ks.map (fun p => hexEncodeChars ((GoMap.get? m p).getD []) ++ ' ' :: p.data)
          ++ [[]]).map String.mk) =
      (ks.foldl (fun acc p => GoMap.set acc p ((GoMap.get? m p).getD [])) i, none) := by
  induction ks generalizing i j with
  | nil =>
    simp only [List.map_nil, List.nil_append, List.map_cons, List.foldl_nil]
    have h0 : (String.mk []).length = 0 := rfl
    rw [fromStringLines, if_pos h0]
    rfl
  | cons k ks ih =>
    simp only [List.map_cons, List.cons_append, List.foldl_cons]
    have hk : ' ' ∉ k.data := h k (List.mem_cons_self _ _)
    have hlen : ¬ (String.mk (hexEncodeChars ((GoMap.get? m k).getD []) ++ ' ' :: k.data)).length
        = 0 := by
      show ¬ (hexEncodeChars ((GoMap.get? m k).getD []) ++ ' ' :: k.data).length = 0
      rw [List.length_append, List.length_cons]
      omega
    have hsplit : stringsSplit
        (String.mk (hexEncodeChars ((GoMap.get? m k).getD []) ++ ' ' :: k.data)) ' ' =
        [hexEncodeToString ((GoMap.get? m k).getD []), k] := by
      unfold stringsSplit
      simp only []
      rw [splitChars_append_sep _ _ _ (space_not_mem_hexEncodeChars _),
        splitChars_of_not_mem _ _ hk]
      rfl
    have hdec : hexDecodeString (hexEncodeToString ((GoMap.get? m k).getD [])) =
        .ok ((GoMap.get? m k).getD []) := hexDecodeChars_hexEncodeChars _
    rw [fromStringLines, if_neg hlen, hsplit]
    simp only [hdec]
    have := ih (fun p hp => h p (List.mem_cons_of_mem _ hp))
      (GoMap.set i k ((GoMap.get? m k).getD [])) (j + 1)
    simp only [List.map_append, List.map_map, List.map_cons, List.map_nil] at this ⊢
    exact this

/-- C7 (amended): for every index whose paths hold neither a space nor a line feed,
`FromString` on an empty index with the text of `String()` succeeds and yields an index
with the same paths and the same hash bytes. -/
theorem FromString_String (m : SchemeManagerIndex)
    (h : ∀ p ∈ GoMap.keys m, ' ' ∉ p.data ∧ '\n' ∉ p.data) :
    (SchemeManagerIndex.FromString [] (SchemeManagerIndex.String m)).2 = none ∧
    ∀ path, GoMap.get? (SchemeManagerIndex.FromString [] (SchemeManagerIndex.String m)).1 path =
      GoMap.get? m path := by
  have hmem : ∀ p, p ∈ sortStrings (GoMap.keys m) ↔ p ∈ GoMap.keys m := fun p =>
    List.mem_insertionSort _
  have hlines : stringsSplit (SchemeManagerIndex.String m) '\n' =
      ((sortStrings (GoMap.keys m)).map
        (fun p => hexEncodeChars ((GoMap.get? m p).getD []) ++ ' ' :: p.data)
        ++ [[]]).map String.mk := by
    unfold stringsSplit SchemeManagerIndex.String
    rw [index_String_data_aux]
    have hempty : ("" : String).data = [] := rfl
    rw [hempty, List.nil_append]
    rw [splitChars_lines (fun p => hexEncodeChars ((GoMap.get? m p).getD []) ++ ' ' :: p.data)]
    intro p hp
    have hp' := (h p ((hmem p).mp hp)).2
    simp only [List.mem_append, List.mem_cons, not_or]
    exact ⟨newline_not_mem_hexEncodeChars _, by decide, hp'⟩
  have hrun := fromStringLines_written m (sortStrings (GoMap.keys m))
    (fun p hp => (h p ((hmem p).mp hp)).1) [] 0
  unfold SchemeManagerIndex.FromString
  rw [hlines, hrun]
  refine ⟨rfl, ?_⟩
  intro path
  simp only []
  rw [GoMap.get?_foldl_set (fun p => (GoMap.get? m p).getD [])]
  by_cases hp : path ∈ sortStrings (GoMap.keys m)
  · rw [if_pos hp]
    have hs := (GoMap.get?_isSome_iff_mem_keys m path).mpr ((hmem path).mp hp)
    cases hg : GoMap.get? m path with
    | none => rw [hg] at hs; cases hs
    | some v => rfl
  · rw [if_neg hp]
    have hs : ¬ (GoMap.get? m path).isSome = true := fun e =>
      hp ((hmem path).mpr ((GoMap.get?_isSome_iff_mem_keys m path).mp e))
    cases hg : GoMap.get? m path with
    | none => rfl
    | some v => rw [hg] at hs; exact absurd rfl hs

/-- C7 (amended), at the index of the example folder. -/
theorem FromString_String_witness :
    (SchemeManagerIndex.FromString [] (SchemeManagerIndex.String (Demo.index "i"))).2 = none ∧
    ∀ path,
      GoMap.get? (SchemeManagerIndex.FromString [] (SchemeManagerIndex.String (Demo.index "i"))).1
        path = GoMap.get? (Demo.index "i") path :=
  FromString_String (Demo.index "i") (by decide)

/-- C7 as stated fails: the index that binds the path `a b` is written as the line
`01 a b`, which `FromString` rejects. -/
theorem index_with_space_not_reparsed :
    SchemeManagerIndex.String [("a b", [1])] = "01 a b\n" ∧
    (SchemeManagerIndex.FromString [] (SchemeManagerIndex.String [("a b", [1])])).2 =
      some "Scheme manager index line 0 has incorrect amount of parts" := by
  decide

/-! ## Parsing the folder: what every iteration keeps -/

theorem iterateDirs_inv (env : Env) (handler : String → Run → Option Error × Run)
    (P : Run → Prop) (dirs : List String)
    (hh : ∀ dir ∈ dirs, ∀ r, P r → P (handler dir r).2) (r : Run) (h : P r) :
    P (iterateDirs env handler dirs r).2 := by
  induction dirs generalizing r with
  | nil => exact h
  | cons dir dirs ih =>
    have ih' := ih (fun d hd => hh d (List.mem_cons_of_mem _ hd))
    unfold iterateDirs
    split
    · exact h
    · split
      · exact ih' r h
      · split
        · exact ih' r h
        · have hd := hh dir (List.mem_cons_self _ _) r h
          split
          · rename_i e r' heq
            rw [heq] at hd
            exact hd
          · rename_i r' heq
            rw [heq] at hd
            exact ih' r' hd

theorem iterateSubfolders_inv (env : Env) (path : String)
    (handler : String → Run → Option Error × Run) (P : Run → Prop)
    (hh : ∀ dirs, Glob env path = .ok dirs → ∀ dir ∈ dirs, ∀ r, P r → P (handler dir r).2)
    (r : Run) (h : P r) : P (iterateSubfolders env path handler r).2 := by
  unfold iterateSubfolders
  split
  · exact h
  · rename_i dirs hg
    exact iterateDirs_inv env handler P dirs (hh dirs hg) r h

/-! ## The initialized flag -/

theorem credentialHandler_initialized (env : Env) (manager : SchemeManager) (dir : String)
    (b : Bool) (r : Run) (h : r.conf.initialized = b) :
    (credentialHandler env manager dir r).2.conf.initialized = b := by
  unfold credentialHandler
  simp only []
  split
  · exact h
  · exact h
  · split
    · exact h
    · exact h

theorem issuerHandler_initialized (env : Env) (manager : SchemeManager) (dir : String)
    (b : Bool) (r : Run) (h : r.conf.initialized = b) :
    (issuerHandler env manager dir r).2.conf.initialized = b := by
  unfold issuerHandler
  simp only []
  split
  · exact h
  · exact h
  · split
    · exact h
    · exact iterateSubfolders_inv env _ _ (fun r => r.conf.initialized = b)
        (fun _ _ d _ r' hr' => credentialHandler_initialized env manager d b r' hr') _ h

theorem schemeHandler_initialized (env : Env) (dir : String) (b : Bool) (r : Run)
    (h : r.conf.initialized = b) : (schemeHandler env dir r).2.conf.initialized = b := by
  unfold schemeHandler
  simp only []
  split
  · exact h
  · split
    · exact h
    · exact h
    · split
      · exact h
      · split
        · exact h
        · split
          · exact h
          · exact iterateSubfolders_inv env _ _ (fun r => r.conf.initialized = b)
              (fun _ _ d _ r' hr' => issuerHandler_initialized env _ d b r' hr') _ h

/-- C9 (amended): after a call of `ParseFolder` that returned nil, `IsInitialized()` is
true; after a call that returned an error, `IsInitialized()` is what it was before the
call, so it is false for a configuration that was not initialized before and stays true
for one that was. -/
theorem ParseFolder_initialized (env : Env) (conf : Configuration) :
    ((ParseFolder env conf).1 = none → IsInitialized (ParseFolder env conf).2.conf = true) ∧
    ((ParseFolder env conf).1 ≠ none →
      IsInitialized (ParseFolder env conf).2.conf = IsInitialized conf) := by
  have hinv := iterateSubfolders_inv env conf.path (schemeHandler env)
    (fun r => r.conf.initialized = conf.initialized)
    (fun _ _ d _ r' hr' => schemeHandler_initialized env d _ r' hr')
    ⟨{ conf with
        SchemeManagers := [], Issuers := [], CredentialTypes := [], publicKeys := [],
        reverseHashes := [] }, []⟩ rfl
  unfold ParseFolder IsInitialized
  simp only [] at hinv ⊢
  split
  · rename_i e r heq
    rw [heq] at hinv
    exact ⟨fun h => (by cases h), fun _ => hinv⟩
  · rename_i r heq
    exact ⟨fun _ => rfl, fun h => absurd rfl h⟩

/-- C9 (amended), at the example folder with a configuration that was not initialized. -/
theorem ParseFolder_initialized_witness :
    IsInitialized (ParseFolder Demo.env (newConfiguration "conf")).2.conf = true ∧
    IsInitialized (ParseFolder Demo.envNoIndex (newConfiguration "conf")).2.conf =
      IsInitialized (newConfiguration "conf") :=
  ⟨(ParseFolder_initialized Demo.env (newConfiguration "conf")).1 (by decide),
   (ParseFolder_initialized Demo.envNoIndex (newConfiguration "conf")).2 (by decide)⟩

/-- C9 as stated fails: a configuration parsed with success over an empty folder is
parsed again after a scheme folder without index file has appeared; this call returns an
error and `IsInitialized()` is still true. -/
theorem ParseFolder_failed_keeps_initialized :
    (ParseFolder Demo.envEmpty (newConfiguration "conf")).1 = none ∧
    (ParseFolder Demo.envNoIndex (ParseFolder Demo.envEmpty (newConfiguration "conf")).2.conf).1 =
      some "Missing scheme manager index file" ∧
    IsInitialized
      (ParseFolder Demo.envNoIndex
        (ParseFolder Demo.envEmpty (newConfiguration "conf")).2.conf).2.conf = true := by
  decide

/-! ## Loaded credential types and their parents -/

theorem GoMap.isSome_get?_set_self {κ ν : Type} [DecidableEq κ] (m : GoMap κ ν) (k : κ) (v : ν) :
    (GoMap.get? (GoMap.set m k v) k).isSome = true := by
  rw [GoMap.get?_set]; simp

theorem GoMap.isSome_get?_set_of_isSome {κ ν : Type} [DecidableEq κ] (m : GoMap κ ν) (k q : κ)
    (v : ν) (h : (GoMap.get? m q).isSome = true) :
    (GoMap.get? (GoMap.set m k v) q).isSome = true := by
  rw [GoMap.get?_set]
  by_cases hk : k = q
  · simp [hk]
  · simp [hk, h]

theorem ReadAuthenticatedFile_path_congr (env : Env) (conf conf' : Configuration)
    (h : conf.path = conf'.path) (manager : SchemeManager) (path : String) :
    ReadAuthenticatedFile env conf manager path = ReadAuthenticatedFile env conf' manager path := by
  unfold ReadAuthenticatedFile
  rw [h]

theorem pathToDescription_path_congr {δ : Type} (env : Env) (conf conf' : Configuration)
    (h : conf.path = conf'.path) (kind : DescriptionKind) (manager : SchemeManager)
    (path : String) (unmarshal : Bytes → Except Error δ) :
    pathToDescription env conf kind manager path unmarshal =
      pathToDescription env conf' kind manager path unmarshal := by
  unfold pathToDescription
  simp only [ReadAuthenticatedFile_path_congr env conf conf' h, h]

theorem mem_globbed (env : Env) (path : String) (dirs : List String)
    (h : Glob env path = .ok dirs) (dir : String) (hd : dir ∈ dirs) : dir ∈ globbed env path := by
  unfold globbed
  rw [h]
  exact hd

theorem credentialHandler_contained (env : Env) (root : Configuration) (manager : SchemeManager)
    (issuer : Issuer) (dir : String)
    (hdir : ∀ c, (pathToDescription env root .credential manager (dir ++ "/description.xml")
      (fun bts => env.unmarshalCredential bts CredentialType.zero)).1 = .parsed c →
      c.SchemeManagerID = manager.ID ∧ c.IssuerID = issuer.ID)
    (r : Run)
    (h : r.conf.path = root.path ∧ AllContained r.conf ∧
      (GoMap.get? r.conf.SchemeManagers [manager.ID]).isSome = true ∧
      (GoMap.get? r.conf.Issuers [manager.ID, issuer.ID]).isSome = true) :
    (credentialHandler env manager dir r).2.conf.path = root.path ∧
    AllContained (credentialHandler env manager dir r).2.conf ∧
    (GoMap.get? (credentialHandler env manager dir r).2.conf.SchemeManagers
      [manager.ID]).isSome = true ∧
    (GoMap.get? (credentialHandler env manager dir r).2.conf.Issuers
      [manager.ID, issuer.ID]).isSome = true := by
  obtain ⟨hp, hall, hsm, hiss⟩ := h
  unfold credentialHandler
  simp only []
  rw [pathToDescription_path_congr env r.conf root hp]
  split
  · exact ⟨hp, hall, hsm, hiss⟩
  · exact ⟨hp, hall, hsm, hiss⟩
  · rename_i cred hcred
    split
    · exact ⟨hp, hall, hsm, hiss⟩
    · obtain ⟨h1, h2⟩ := hdir cred hcred
      refine ⟨hp, ?_, hsm, hiss⟩
      intro c hc
      unfold Contains
      simp only [addReverseHash, Run.log] at hc ⊢
      by_cases hcc : cred.Identifier = c
      · subst hcc
        have e1 : (CredentialType.Identifier cred).parent = [manager.ID, issuer.ID] := by
          simp [CredentialType.Identifier, Identifier.parent, h1, h2]
        have e2 : ((CredentialType.Identifier cred).parent).parent = [manager.ID] := by
          rw [e1]; rfl
        rw [e2, e1, hsm, hiss, GoMap.isSome_get?_set_self]
        rfl
      · have hold : (GoMap.get? r.conf.CredentialTypes c).isSome = true := by
          rw [GoMap.get?_set, if_neg hcc] at hc
          exact hc
        have := hall c hold
        unfold Contains at this
        simp only [Bool.and_eq_true] at this ⊢
        exact ⟨this.1, GoMap.isSome_get?_set_of_isSome _ _ _ _ hold⟩

theorem issuerHandler_contained (env : Env) (root : Configuration) (manager : SchemeManager)
    (dir : String)
    (hdir : ∀ iss, (pathToDescription env root .issuer manager (dir ++ "/description.xml")
      (fun bts => env.unmarshalIssuer bts Issuer.zero)).1 = .parsed iss →
      iss.SchemeManagerID = manager.ID ∧
      ∀ cdir ∈ globbed env (dir ++ "/Issues/"), ∀ c,
        (pathToDescription env root .credential manager (cdir ++ "/description.xml")
          (fun bts => env.unmarshalCredential bts CredentialType.zero)).1 = .parsed c →
        c.SchemeManagerID = manager.ID ∧ c.IssuerID = iss.ID)
    (r : Run)
    (h : r.conf.path = root.path ∧ AllContained r.conf ∧
      (GoMap.get? r.conf.SchemeManagers [manager.ID]).isSome = true) :
    (issuerHandler env manager dir r).2.conf.path = root.path ∧
    AllContained (issuerHandler env manager dir r).2.conf ∧
    (GoMap.get? (issuerHandler env manager dir r).2.conf.SchemeManagers
      [manager.ID]).isSome = true := by
  obtain ⟨hp, hall, hsm⟩ := h
  unfold issuerHandler
  simp only []
  rw [pathToDescription_path_congr env r.conf root hp]
  split
  · exact ⟨hp, hall, hsm⟩
  · exact ⟨hp, hall, hsm⟩
  · rename_i issuer hissuer
    split
    · exact ⟨hp, hall, hsm⟩
    · obtain ⟨h1, h2⟩ := hdir issuer hissuer
      have key := iterateSubfolders_inv env (dir ++ "/Issues/") (credentialHandler env manager)
        (fun r => r.conf.path = root.path ∧ AllContained r.conf ∧
          (GoMap.get? r.conf.SchemeManagers [manager.ID]).isSome = true ∧
          (GoMap.get? r.conf.Issuers [manager.ID, issuer.ID]).isSome = true)
        (fun dirs hg d hd r' hr' =>
          credentialHandler_contained env root manager issuer d
            (h2 d (mem_globbed env _ dirs hg d hd)) r' hr')
        { conf := { (r.log (pathToDescription env root .issuer manager (dir ++ "/description.xml")
              (fun bts => env.unmarshalIssuer bts Issuer.zero)).2).conf with
            Issuers := GoMap.set r.conf.Issuers issuer.Identifier issuer },
          trace := (r.log (pathToDescription env root .issuer manager (dir ++ "/description.xml")
              (fun bts => env.unmarshalIssuer bts Issuer.zero)).2).trace }
        (by
          simp only [Run.log]
          refine ⟨hp, ?_, hsm, ?_⟩
          · intro c hc
            have := hall c hc
            unfold Contains at this ⊢
            simp only [Bool.and_eq_true] at this ⊢
            exact ⟨⟨this.1.1, GoMap.isSome_get?_set_of_isSome _ _ _ _ this.1.2⟩, this.2⟩
          · have e : issuer.Identifier = [manager.ID, issuer.ID] := by
              simp [Issuer.Identifier, h1]
            rw [← e]
            exact GoMap.isSome_get?_set_self _ _ _)
      exact ⟨key.1, key.2.1, key.2.2.1⟩

theorem descriptionsNameFolders_spec (env : Env) (root : Configuration)
    (h : descriptionsNameFolders env root = true) :
    ∀ sdir ∈ globbed env root.path, ∀ m, loadedManager env root sdir = some m →
      ∀ idir ∈ globbed env sdir, ∀ iss,
        (pathToDescription env root .issuer m (idir ++ "/description.xml")
          (fun bts => env.unmarshalIssuer bts Issuer.zero)).1 = .parsed iss →
        iss.SchemeManagerID = m.ID ∧
        ∀ cdir ∈ globbed env (idir ++ "/Issues/"), ∀ c,
          (pathToDescription env root .credential m (cdir ++ "/description.xml")
            (fun bts => env.unmarshalCredential bts CredentialType.zero)).1 = .parsed c →
          c.SchemeManagerID = m.ID ∧ c.IssuerID = iss.ID := by
  intro sdir hs m hm idir hi iss hiss
  unfold descriptionsNameFolders at h
  rw [List.all_eq_true] at h
  have h1 := h sdir hs
  rw [hm] at h1
  simp only [] at h1
  rw [List.all_eq_true] at h1
  have h2 := h1 idir hi
  rw [hiss] at h2
  simp only [Bool.and_eq_true, decide_eq_true_eq] at h2
  refine ⟨h2.1, ?_⟩
  intro cdir hc c hcred
  have h3 := h2.2
  rw [List.all_eq_true] at h3
  have h4 := h3 cdir hc
  rw [hcred] at h4
  simpa using h4

theorem schemeHandler_contained (env : Env) (root : Configuration) (dir : String)
    (hdir : ∀ m, loadedManager env root dir = some m →
      ∀ idir ∈ globbed env dir, ∀ iss,
        (pathToDescription env root .issuer m (idir ++ "/description.xml")
          (fun bts => env.unmarshalIssuer bts Issuer.zero)).1 = .parsed iss →
        iss.SchemeManagerID = m.ID ∧
        ∀ cdir ∈ globbed env (idir ++ "/Issues/"), ∀ c,
          (pathToDescription env root .credential m (cdir ++ "/description.xml")
            (fun bts => env.unmarshalCredential bts CredentialType.zero)).1 = .parsed c →
          c.SchemeManagerID = m.ID ∧ c.IssuerID = iss.ID)
    (r : Run) (h : r.conf.path = root.path ∧ AllContained r.conf) :
    (schemeHandler env dir r).2.conf.path = root.path ∧
    AllContained (schemeHandler env dir r).2.conf := by
  obtain ⟨hp, hall⟩ := h
  unfold schemeHandler
  simp only []
  split
  · exact ⟨hp, hall⟩
  · rename_i hpi
    have hp' : (r.log [Event.parseIndex dir]).conf.path = root.path := hp
    rw [pathToDescription_path_congr env (r.log [Event.parseIndex dir]).conf root hp']
    split
    · exact ⟨hp, hall⟩
    · exact ⟨hp, hall⟩
    · rename_i manager hmanager
      have hloaded : loadedManager env root dir = some manager := by
        unfold loadedManager
        simp only [hpi, hmanager]
      split
      · exact ⟨hp, hall⟩
      · split
        · exact ⟨hp, hall⟩
        · split
          · exact ⟨hp, hall⟩
          · have key := iterateSubfolders_inv env dir (issuerHandler env manager)
              (fun r => r.conf.path = root.path ∧ AllContained r.conf ∧
                (GoMap.get? r.conf.SchemeManagers [manager.ID]).isSome = true)
              (fun dirs hg d hd r' hr' =>
                issuerHandler_contained env root manager d
                  (hdir manager hloaded d (mem_globbed env _ dirs hg d hd)) r' hr')
            refine ⟨(key _ ?_).1, (key _ ?_).2.1⟩
            all_goals
              simp only [Run.log]
              refine ⟨hp, ?_, GoMap.isSome_get?_set_self _ _ _⟩
              intro c hc
              have := hall c hc
              unfold Contains at this ⊢
              simp only [Bool.and_eq_true] at this ⊢
              exact ⟨⟨GoMap.isSome_get?_set_of_isSome _ _ _ _ this.1.1, this.1.2⟩, this.2⟩

/-- C10 (amended): after every `ParseFolder` over a folder in which every description
names the folder it lies in (an issuer description names the scheme manager of its scheme
folder, a credential type description names that scheme manager and the issuer of its
issuer folder), every credential type identifier `c` that is a key of `CredentialTypes`
has `Contains(c)` true: its parent is a key of `Issuers` and the parent of that a key of
`SchemeManagers`. -/
theorem ParseFolder_contains (env : Env) (conf : Configuration)
    (hnames : descriptionsNameFolders env conf = true) (c : Identifier)
    (hc : c ∈ GoMap.keys (ParseFolder env conf).2.conf.CredentialTypes) :
    Contains (ParseFolder env conf).2.conf c = true ∧
    c.parent ∈ GoMap.keys (ParseFolder env conf).2.conf.Issuers ∧
    c.parent.parent ∈ GoMap.keys (ParseFolder env conf).2.conf.SchemeManagers := by
  have hspec := descriptionsNameFolders_spec env conf hnames
  have hinv := iterateSubfolders_inv env conf.path (schemeHandler env)
    (fun r => r.conf.path = conf.path ∧ AllContained r.conf)
    (fun dirs hg d hd r' hr' =>
      schemeHandler_contained env conf d (hspec d (mem_globbed env _ dirs hg d hd)) r' hr')
    ⟨{ conf with
        SchemeManagers := [], Issuers := [], CredentialTypes := [], publicKeys := [],
        reverseHashes := [] }, []⟩
    ⟨rfl, fun c hc => by simp [GoMap.get?] at hc⟩
  have hall : AllContained (ParseFolder env conf).2.conf := by
    unfold ParseFolder
    simp only [] at hinv ⊢
    split
    · rename_i e r heq
      rw [heq] at hinv
      exact hinv.2
    · rename_i r heq
      rw [heq] at hinv
      exact hinv.2
  have hcont := hall c ((GoMap.get?_isSome_iff_mem_keys _ c).mpr hc)
  refine ⟨hcont, ?_, ?_⟩
  · unfold Contains at hcont
    simp only [Bool.and_eq_true] at hcont
    exact (GoMap.get?_isSome_iff_mem_keys _ _).mp hcont.1.2
  · unfold Contains at hcont
    simp only [Bool.and_eq_true] at hcont
    exact (GoMap.get?_isSome_iff_mem_keys _ _).mp hcont.1.1

/-- C10 (amended), at the example folder and its credential type `s.i.c`. -/
theorem ParseFolder_contains_witness :
    Contains (ParseFolder Demo.env (newConfiguration "conf")).2.conf ["s", "i", "c"] = true ∧
    Identifier.parent ["s", "i", "c"] ∈
      GoMap.keys (ParseFolder Demo.env (newConfiguration "conf")).2.conf.Issuers ∧
    Identifier.parent (Identifier.parent ["s", "i", "c"]) ∈
      GoMap.keys (ParseFolder Demo.env (newConfiguration "conf")).2.conf.SchemeManagers :=
  ParseFolder_contains Demo.env (newConfiguration "conf") (by decide) ["s", "i", "c"] (by decide)

/-- C10 as stated fails: in this folder the description of credential type `c`, in the
folder of issuer `i`, names issuer `j`; `ParseFolder` succeeds, `s.j.c` is a key of
`CredentialTypes`, its parent `s.j` is not a key of `Issuers`, and `Contains` is false. -/
theorem ParseFolder_foreign_issuer_not_contained :
    (ParseFolder Demo.envForeignIssuer (newConfiguration "conf")).1 = none ∧
    ["s", "j", "c"] ∈
      GoMap.keys (ParseFolder Demo.envForeignIssuer (newConfiguration "conf")).2.conf.CredentialTypes ∧
    Identifier.parent ["s", "j", "c"] ∉
      GoMap.keys (ParseFolder Demo.envForeignIssuer (newConfiguration "conf")).2.conf.Issuers ∧
    Contains (ParseFolder Demo.envForeignIssuer (newConfiguration "conf")).2.conf
      ["s", "j", "c"] = false := by
  decide

/-! ## The order of the events -/

/-- C2 fails on the code.  The folder `conf` holds the signed scheme `s` and a folder
`evil` whose `index.sig` and `pk.pem` are garbage, so that `VerifySignature` does not
return valid for `evil`; the description in `evil` is a copy of that of `s`.  The run of
`ParseFolder` succeeds.  It reads and decodes the description of each scheme folder
before it calls `VerifySignature`, and it calls `VerifySignature` for the identifier that
the description names, here `s` both times, never for `evil`; it then reads and decodes the
description of issuer `x` in `evil`, and loads it as issuer `s.x`. -/
theorem ParseFolder_reads_unverified_folder :
    VerifySignature Demo.envEvil (newConfiguration "conf") ["evil"] =
      (false, some ("Scheme manager index signature failed to verify: " ++
        "runtime error: invalid memory address or nil pointer dereference")) ∧
    (ParseFolder Demo.envEvil (newConfiguration "conf")).1 = none ∧
    (ParseFolder Demo.envEvil (newConfiguration "conf")).2.trace =
      [.parseIndex "conf/evil",
       .readAuthenticated .scheme [""] "evil/description.xml",
       .xmlUnmarshal .scheme [""] "evil/description.xml",
       .verifySignature ["s"] true,
       .readAuthenticated .issuer ["s"] "evil/x/description.xml",
       .xmlUnmarshal .issuer ["s"] "evil/x/description.xml",
       .parseIndex "conf/s",
       .readAuthenticated .scheme [""] "s/description.xml",
       .xmlUnmarshal .scheme [""] "s/description.xml",
       .verifySignature ["s"] true,
       .readAuthenticated .issuer ["s"] "s/i/description.xml",
       .xmlUnmarshal .issuer ["s"] "s/i/description.xml",
       .readAuthenticated .credential ["s"] "s/i/Issues/c/description.xml",
       .xmlUnmarshal .credential ["s"] "s/i/Issues/c/description.xml"] ∧
    GoMap.get? (ParseFolder Demo.envEvil (newConfiguration "conf")).2.conf.Issuers ["s", "x"] =
      some ⟨"x", "s", 4⟩ := by
  decide

end Irma

namespace Keyshare

/-! ## The PIN check reservation -/

theorem int64_of_range (x : Int) (h0 : -(2 ^ 63) ≤ x) (h1 : x < 2 ^ 63) : int64 x = x := by
  unfold int64
  norm_num at h0 h1 ⊢
  omega

theorem excessBits_of_small (fuel n : Nat) (h : n < 2 ^ 53) : excessBits fuel n = 0 := by
  cases fuel with
  | zero => rfl
  | succ f => rw [excessBits, if_pos h]

theorem excessBits_le (fuel n : Nat) (h : 2 ^ 53 ≤ n) : 2 ^ excessBits fuel n * 2 ^ 52 ≤ n := by
  induction fuel generalizing n with
  | zero =>
    rw [excessBits]
    norm_num at h ⊢
    omega
  | succ f ih =>
    rw [excessBits, if_neg (by omega)]
    by_cases h2 : 2 ^ 53 ≤ n / 2
    · have := ih (n / 2) h2
      rw [pow_succ]
      omega
    · rw [excessBits_of_small f (n / 2) (by omega)]
      norm_num at h ⊢
      omega

theorem roundFloat8_of_small (n : Nat) (h : n < 2 ^ 53) : roundFloat8 n = n := by
  unfold roundFloat8
  rw [excessBits_of_small n n h]
  simp [Nat.mod_one]

theorem toFloat8_of_small (x : Int) (h0 : -(2 ^ 53) < x) (h1 : x < 2 ^ 53) : toFloat8 x = x := by
  unfold toFloat8
  have hn : x.natAbs < 2 ^ 53 := by
    norm_num at h0 h1 ⊢
    omega
  rw [roundFloat8_of_small _ hn]
  split
  · omega
  · omega

/-- Rounding to double precision loses less than half of a natural number. -/
theorem le_two_mul_roundFloat8 (n : Nat) : n ≤ 2 * roundFloat8 n := by
  by_cases h : n < 2 ^ 53
  · rw [roundFloat8_of_small n h]
    omega
  · unfold roundFloat8
    have hpow := excessBits_le n n (Nat.le_of_not_lt h)
    simp only []
    generalize excessBits n n = e at hpow
    have hdiv := Nat.div_add_mod n (2 ^ e)
    have hmod : n % 2 ^ e < 2 ^ e := Nat.mod_lt _ (by positivity)
    have hq : 2 ^ 52 ≤ n / 2 ^ e := by
      rw [Nat.le_div_iff_mul_le (by positivity)]
      rw [Nat.mul_comm]
      exact hpow
    have hbig : 2 ^ e ≤ 2 ^ e * (n / 2 ^ e) := by
      calc 2 ^ e = 2 ^ e * 1 := by ring
        _ ≤ 2 ^ e * (n / 2 ^ e) := Nat.mul_le_mul_left _ (by omega)
    split
    · nlinarith
    · nlinarith

theorem holds_int64 (t : IntType) (x : Int) (h : t.holds x = true) :
    -(2 ^ 63) ≤ x ∧ x < 2 ^ 63 := by
  unfold IntType.holds at h
  have h' := of_decide_eq_true h
  cases t <;> simp only [IntType.bits] at h' <;> norm_num at h' ⊢ <;> omega

theorem holds_of_le (t : IntType) (x y : Int) (h : t.holds y = true) (h0 : -1 ≤ x)
    (h1 : x ≤ y) : t.holds x = true := by
  unfold IntType.holds at h ⊢
  have h' := of_decide_eq_true h
  apply decide_eq_true
  cases t <;> simp only [IntType.bits] at h' ⊢ <;> norm_num at h' ⊢ <;> omega

theorem holds_one (t : IntType) : t.holds 1 = true := by
  cases t <;> decide

theorem toFloat8_nonneg (x : Int) (h : 0 ≤ x) : 0 ≤ toFloat8 x := by
  unfold toFloat8
  rw [if_neg (by omega)]
  exact Int.natCast_nonneg _

theorem le_two_mul_toFloat8 (x : Int) (h : 0 ≤ x) : x ≤ 2 * toFloat8 x := by
  unfold toFloat8
  rw [if_neg (by omega)]
  have := le_two_mul_roundFloat8 x.natAbs
  omega

theorem pow_lt_of_lt (e : Nat) (h : (2 : Int) ^ e < 2 ^ 60) : e < 60 := by
  by_contra hge
  have h1 : (2 : Int) ^ 60 ≤ 2 ^ e := pow_le_pow_right₀ (by norm_num) (by omega)
  omega

/-- The allowed branch of `ReservePincheck`, with the exponent named. -/
theorem reserve_open (schema : Schema) (db : Users) (username : String) (id c b : Int)
    (clock : Clock) (e : Nat) (hrow : db id = some ⟨c, b⟩) (hle : b ≤ clock.atGuard)
    (hclock : clock.InRange) (hc : 0 ≤ c) (he : (max 0 (c - 1)).toNat = e)
    (hcount : schema.pinCounter.holds (c + 1) = true)
    (hguard : schema.pinBlockDate.holds clock.atGuard = true)
    (hdate : schema.pinBlockDate.holds (toFloat8 (clock.atBase - 31 + 30 * 2 ^ e)) = true) :
    ReservePincheck schema db DriverFaults.none clock (.postgres username id) =
      ((true, (if 3 - (c + 1) < 0 then 0 else 3 - (c + 1)),
        toFloat8 (clock.atBase - 31 + 30 * 2 ^ e) - clock.atReturn, none),
       Function.update db id (some ⟨c + 1, toFloat8 (clock.atBase - 31 + 30 * 2 ^ e)⟩)) := by
  obtain ⟨⟨hb0, hb1⟩, ⟨hg0, hg1⟩, ⟨hr0, hr1⟩⟩ := hclock
  norm_num at hb1 hg1 hr1
  have hpow : (0 : Int) < 2 ^ e := by positivity
  have hB0 : -1 ≤ clock.atBase - 31 + 30 * 2 ^ e := by omega
  have hF := holds_int64 _ _ hdate
  norm_num at hF
  have hFge : -1 ≤ toFloat8 (clock.atBase - 31 + 30 * 2 ^ e) := by
    by_cases hneg : clock.atBase - 31 + 30 * 2 ^ e < 0
    · have : clock.atBase - 31 + 30 * 2 ^ e = -1 := by omega
      rw [this]
      decide
    · have := toFloat8_nonneg _ (not_lt.mp hneg)
      omega
  have he60 : e < 60 := by
    apply pow_lt_of_lt
    by_cases hneg : clock.atBase - 31 + 30 * 2 ^ e < 0
    · norm_num
      omega
    · have := le_two_mul_toFloat8 _ (not_lt.mp hneg)
      norm_num
      omega
  have hpow60 : (2 : Int) ^ e < 2 ^ 60 := pow_lt_pow_right₀ (by norm_num) he60
  norm_num at hpow60
  have h2 : MAX_PIN_TRIES - 2 = 1 := by decide
  have hp1 : int64 (clock.atBase - 1 - BACKOFF_START) = clock.atBase - 31 := by
    unfold BACKOFF_START
    rw [int64_of_range _ (by norm_num; omega) (by norm_num; omega)]
    omega
  have hf1 : toFloat8 (clock.atBase - 31) = clock.atBase - 31 :=
    toFloat8_of_small _ (by norm_num; omega) (by norm_num; omega)
  have hf2 : toFloat8 BACKOFF_START = BACKOFF_START := by decide
  have henc : encodeArguments schema (clock.atBase - 31) BACKOFF_START 1 clock.atGuard =
      Option.none := by
    unfold encodeArguments
    rw [if_neg (by rw [hf1]; exact fun h => h rfl), if_neg (by rw [hf2]; exact fun h => h rfl),
      holds_one, hguard]
    rfl
  have hcnt : newCounter schema c = .ok (c + 1) := by
    unfold newCounter
    rw [hcount]
    rfl
  have hdat : newBlockDate schema (clock.atBase - 31) BACKOFF_START 1 c =
      .ok (toFloat8 (clock.atBase - 31 + 30 * 2 ^ e)) := by
    unfold newBlockDate
    rw [holds_of_le _ (c - 1) (c + 1) hcount (by omega) (by omega)]
    simp only [Bool.true_eq_false, if_false, he, hf2, Nat.cast_pow, Nat.cast_ofNat]
    have h30 : BACKOFF_START = 30 := rfl
    rw [h30]
    rw [if_neg (by omega)]
    have habs : |(30 : Int) * 2 ^ e| = 30 * 2 ^ e := abs_of_nonneg (by positivity)
    rw [if_neg (by rw [habs]; unfold maxFloat8; rw [Nat.shiftLeft_eq]; norm_num; omega)]
    have habs2 : |toFloat8 (clock.atBase - 31 + 30 * 2 ^ e)| < 2 ^ 63 := by
      rw [abs_lt]
      norm_num
      omega
    rw [if_neg (by
      unfold maxFloat8
      rw [Nat.shiftLeft_eq]
      norm_num at habs2 ⊢
      omega)]
    rw [hdate]
    rfl
  have hupd : updateReserve schema db (clock.atBase - 31) BACKOFF_START 1 id clock.atGuard =
      .ok (Function.update db id (some ⟨c + 1, toFloat8 (clock.atBase - 31 + 30 * 2 ^ e)⟩),
        some (c + 1, toFloat8 (clock.atBase - 31 + 30 * 2 ^ e))) := by
    unfold updateReserve
    rw [hrow]
    simp only [hle, if_true, hcnt, hdat]
  have htries : int64 (MAX_PIN_TRIES - (c + 1)) = 3 - (c + 1) := by
    have hC := holds_int64 _ _ hcount
    norm_num at hC
    have h3 : MAX_PIN_TRIES = 3 := rfl
    rw [h3]
    exact int64_of_range _ (by norm_num; omega) (by norm_num; omega)
  have hwait : int64 (toFloat8 (clock.atBase - 31 + 30 * 2 ^ e) - clock.atReturn) =
      toFloat8 (clock.atBase - 31 + 30 * 2 ^ e) - clock.atReturn :=
    int64_of_range _ (by norm_num; omega) (by norm_num; omega)
  unfold ReservePincheck
  simp only [DriverFaults.none, hp1, h2, henc, hupd, htries, hwait]

/-- The refusing branch of `ReservePincheck`. -/
theorem reserve_blocked (schema : Schema) (db : Users) (username : String) (id c b : Int)
    (clock : Clock) (hrow : db id = some ⟨c, b⟩) (hgt : clock.atGuard < b)
    (hclock : clock.InRange) (hguard : schema.pinBlockDate.holds clock.atGuard = true)
    (hb : schema.pinBlockDate.holds b = true) :
    ReservePincheck schema db DriverFaults.none clock (.postgres username id) =
      ((false, 0, b - clock.atReturn, none), db) := by
  obtain ⟨⟨hb0, hb1⟩, ⟨hg0, hg1⟩, ⟨hr0, hr1⟩⟩ := hclock
  norm_num at hb1 hg1 hr1
  have hB := holds_int64 _ _ hb
  norm_num at hB
  have h2 : MAX_PIN_TRIES - 2 = 1 := by decide
  have hp1 : int64 (clock.atBase - 1 - BACKOFF_START) = clock.atBase - 31 := by
    unfold BACKOFF_START
    rw [int64_of_range _ (by norm_num; omega) (by norm_num; omega)]
    omega
  have hf1 : toFloat8 (clock.atBase - 31) = clock.atBase - 31 :=
    toFloat8_of_small _ (by norm_num; omega) (by norm_num; omega)
  have hf2 : toFloat8 BACKOFF_START = BACKOFF_START := by decide
  have henc : encodeArguments schema (clock.atBase - 31) BACKOFF_START 1 clock.atGuard =
      Option.none := by
    unfold encodeArguments
    rw [if_neg (by rw [hf1]; exact fun h => h rfl), if_neg (by rw [hf2]; exact fun h => h rfl),
      holds_one, hguard]
    rfl
  have hle : ¬ b ≤ clock.atGuard := not_le.mpr hgt
  have hupd : updateReserve schema db (clock.atBase - 31) BACKOFF_START 1 id clock.atGuard =
      .ok (db, Option.none) := by
    unfold updateReserve
    rw [hrow]
    simp only [hle, if_false]
  have hwait : int64 (b - clock.atReturn) = b - clock.atReturn :=
    int64_of_range _ (by norm_num; omega) (by norm_num; omega)
  unfold ReservePincheck
  simp only [DriverFaults.none, hp1, h2, henc, hupd, requestWait, selectBlockDate, hrow,
    Option.map, hwait]

/-- C4 (amended): for a record with `pin_counter ≥ 0` and `pin_block_date ≤ now₂`, where
`now₁`, `now₂` and `now₃` are the clock readings that the call takes for the block date, for
the guard of the `UPDATE` and for the returned wait, each from 0 to below `2^53`:
`ReservePincheck` increments `pin_counter` by one, sets `pin_block_date` to the double
precision value of `(now₁ − 1 − 30) + 30·2^max(0, c − 2)`, where `c` is the incremented
counter (the exponent reads the counter as it was before the statement), and returns
`(true, max(0, 3 − c), pin_block_date − now₃)` without error, provided `now₂` and the new
values are in the range of their columns.  Below `2^53` the double precision value is the
number itself. -/
theorem ReservePincheck_allowed (schema : Schema) (db : Users) (username : String) (id : Int)
    (row : UserRow) (clock : Clock) (blockDate : Int)
    (hrow : db id = some row) (hle : row.pinBlockDate ≤ clock.atGuard)
    (hclock : clock.InRange) (hc : 0 ≤ row.pinCounter)
    (hdate : blockDate = toFloat8 ((clock.atBase - 1 - BACKOFF_START) +
      BACKOFF_START * 2 ^ (max 0 (row.pinCounter + 1 - 2)).toNat))
    (hcount : schema.pinCounter.holds (row.pinCounter + 1) = true)
    (hguard : schema.pinBlockDate.holds clock.atGuard = true)
    (hfits : schema.pinBlockDate.holds blockDate = true) :
    ReservePincheck schema db DriverFaults.none clock (.postgres username id) =
      ((true, max 0 (MAX_PIN_TRIES - (row.pinCounter + 1)), blockDate - clock.atReturn, none),
       Function.update db id (some ⟨row.pinCounter + 1, blockDate⟩)) ∧
    ((clock.atBase - 1 - BACKOFF_START) +
        BACKOFF_START * 2 ^ (max 0 (row.pinCounter + 1 - 2)).toNat < 2 ^ 53 →
      blockDate = (clock.atBase - 1 - BACKOFF_START) +
        BACKOFF_START * 2 ^ (max 0 (row.pinCounter + 1 - 2)).toNat) := by
  have hexp : row.pinCounter + 1 - 2 = row.pinCounter - 1 := by omega
  have hb : BACKOFF_START = 30 := rfl
  have hm : MAX_PIN_TRIES = 3 := rfl
  have h3 : ∀ x : Int, clock.atBase - 1 - 30 + x = clock.atBase - 31 + x := fun x => by omega
  rw [hexp, hb, h3] at hdate
  rw [hexp, hb, h3]
  constructor
  · subst hdate
    rw [reserve_open schema db username id row.pinCounter row.pinBlockDate clock _ hrow hle
      hclock hc rfl hcount hguard hfits, hm]
    by_cases hlt : (3 : Int) - (row.pinCounter + 1) < 0
    · rw [if_pos hlt, max_eq_left (le_of_lt hlt)]
    · rw [if_neg hlt, max_eq_right (not_lt.mp hlt)]
  · intro hsmall
    rw [hdate]
    have hpow : (0 : Int) < 2 ^ (max 0 (row.pinCounter - 1)).toNat := by positivity
    have h0 := hclock.1.1
    exact toFloat8_of_small _ (by norm_num; omega) hsmall

set_option maxRecDepth 100000 in
/-- C4 (amended), at the record of user 1 of the example table (two tries used, not
blocked), with the clock at second 1000 for the block date, at 1001 for the guard and at
1002 for the wait. -/
theorem ReservePincheck_allowed_witness :
    ReservePincheck demoSchema demoUsers DriverFaults.none ⟨1000, 1001, 1002⟩
        (.postgres "alice" 1) =
      ((true, max 0 (MAX_PIN_TRIES - (2 + 1)), 1029 - 1002, none),
       Function.update demoUsers 1 (some ⟨2 + 1, 1029⟩)) ∧
    ((1000 - 1 - BACKOFF_START) + BACKOFF_START * 2 ^ (max 0 ((2 : Int) + 1 - 2)).toNat < 2 ^ 53 →
      (1029 : Int) =
        (1000 - 1 - BACKOFF_START) + BACKOFF_START * 2 ^ (max 0 ((2 : Int) + 1 - 2)).toNat) :=
  ReservePincheck_allowed demoSchema demoUsers "alice" 1 ⟨2, 0⟩ ⟨1000, 1001, 1002⟩ 1029 rfl
    (by decide) (by unfold Clock.InRange; decide) (by decide) (by decide) (by decide)
    (by decide) (by decide)

set_option maxRecDepth 100000 in
/-- C4 as stated fails.  User 2 of the example table has `pin_counter = 1` and is not
blocked; at second 1000 the call sets the counter to `c = 2` and the block date to 999,
where `(now − 1 − 30) + 30·2^max(0, c − 1)` is 1029.  For user 1 a call that reads the
clock at second 1000 and, for the wait, at second 1001 returns the wait 28, which is the
new block date minus neither of the two.  For user 6, with a hundred tries used, the new
block date is beyond the integer types and the check is not allowed, however the
driver reports the error of the engine. -/
theorem ReservePincheck_exponent_reads_old_counter :
    (ReservePincheck demoSchema demoUsers DriverFaults.none ⟨1000, 1000, 1000⟩
      (.postgres "bob" 2)).1 = (true, 1, -1, none) ∧
    (ReservePincheck demoSchema demoUsers DriverFaults.none ⟨1000, 1000, 1000⟩
      (.postgres "bob" 2)).2 2 = some ⟨2, 999⟩ ∧
    ((1000 - 1 - 30) + 30 * 2 ^ (max 0 ((2 : Int) - 1)).toNat : Int) = 1029 ∧
    (ReservePincheck demoSchema demoUsers DriverFaults.none ⟨1000, 1000, 1001⟩
      (.postgres "alice" 1)).1 = (true, 0, 28, none) ∧
    (ReservePincheck demoSchema demoUsers DriverFaults.none ⟨1000, 1000, 1001⟩
      (.postgres "alice" 1)).2 1 = some ⟨3, 1029⟩ ∧
    (∀ schema atNext,
      (ReservePincheck schema demoUsers ⟨none, none, none, none, atNext⟩ ⟨1000, 1000, 1000⟩
        (.postgres "frank" 6)).1.1 = false ∧
      (ReservePincheck schema demoUsers ⟨none, none, none, none, atNext⟩ ⟨1000, 1000, 1000⟩
        (.postgres "frank" 6)).2 6 = some ⟨100, 0⟩) := by
  refine ⟨by decide, by decide, by decide, by decide, by decide, ?_⟩
  rintro ⟨c, b⟩ atNext
  cases c <;> cases b <;> cases atNext <;> decide

/-- C5 (amended): from a cleared record, three calls at the same clock second `now` return
`(true, 2, −1)`, `(true, 1, −1)` and `(true, 0, 29)`, and a fourth call that reads the
clock before the block date `now + 29` for the guard of its `UPDATE` returns
`(false, 0, w4)` with `w4 = now + 29 − now₃`, where `now₃` is its clock reading for the
wait: `w4 > 0` exactly when that reading is before the block date as well.  The clock
readings are from 0 to below `2^53` and the block date is in the range of its column. -/
theorem ReservePincheck_backoff (schema : Schema) (db : Users) (username : String) (id : Int)
    (now : Int) (later : Clock)
    (hclear : db id = some ⟨0, 0⟩) (hnow : 0 ≤ now) (hsmall : now + 29 < 2 ^ 53)
    (hfits : schema.pinBlockDate.holds (now + 29) = true)
    (hclock : later.InRange) (hlater : later.atGuard < now + 29) :
    (reserveAt schema db now (.postgres username id)).1 = (true, 2, -1, none) ∧
    (reserveAt schema (reserveAt schema db now (.postgres username id)).2 now
      (.postgres username id)).1 = (true, 1, -1, none) ∧
    (reserveAt schema (reserveAt schema (reserveAt schema db now (.postgres username id)).2 now
      (.postgres username id)).2 now (.postgres username id)).1 = (true, 0, 29, none) ∧
    (ReservePincheck schema (reserveAt schema (reserveAt schema (reserveAt schema db now
      (.postgres username id)).2 now (.postgres username id)).2 now (.postgres username id)).2
      DriverFaults.none later (.postgres username id)).1 =
      (false, 0, now + 29 - later.atReturn, none) ∧
    (0 < now + 29 - later.atReturn ↔ later.atReturn < now + 29) := by
  norm_num at hsmall
  have hck : Clock.InRange ⟨now, now, now⟩ := by
    unfold Clock.InRange
    norm_num
    omega
  have hholds : ∀ x : Int, -1 ≤ x → x ≤ now + 29 → schema.pinBlockDate.holds x = true :=
    fun x h0 h1 => holds_of_le _ x (now + 29) hfits h0 h1
  have hcnt : ∀ x : Int, -1 ≤ x → x ≤ 3 → schema.pinCounter.holds x = true := by
    intro x h0 h1
    unfold IntType.holds
    apply decide_eq_true
    cases schema.pinCounter <;> simp only [IntType.bits] <;> norm_num <;> omega
  have hf : ∀ x : Int, -1 ≤ x → x ≤ now + 29 → toFloat8 x = x :=
    fun x h0 h1 => toFloat8_of_small x (by norm_num; omega) (by norm_num; omega)
  have f0 : toFloat8 (now - 31 + 30 * 2 ^ 0) = now - 1 := by
    rw [hf _ (by omega) (by omega)]
    omega
  have f1 : toFloat8 (now - 31 + 30 * 2 ^ 1) = now + 29 := by
    rw [hf _ (by omega) (by omega)]
    omega
  have e1 := reserve_open schema db username id 0 0 ⟨now, now, now⟩ 0 hclear hnow hck
    (by omega) (by decide) (hcnt _ (by omega) (by omega)) (hholds now (by omega) (by omega))
    (by rw [f0]; exact hholds _ (by omega) (by omega))
  have e2 := reserve_open schema
    (Function.update db id (some ⟨0 + 1, toFloat8 (now - 31 + 30 * 2 ^ 0)⟩))
    username id (0 + 1) (toFloat8 (now - 31 + 30 * 2 ^ 0)) ⟨now, now, now⟩ 0 (by simp)
    (by rw [f0]; show now - 1 ≤ now; omega) hck
    (by omega) (by decide) (hcnt _ (by omega) (by omega)) (hholds now (by omega) (by omega))
    (by rw [f0]; exact hholds _ (by omega) (by omega))
  have e3 := reserve_open schema
    (Function.update (Function.update db id
      (some ⟨0 + 1, toFloat8 (now - 31 + 30 * 2 ^ 0)⟩)) id
      (some ⟨0 + 1 + 1, toFloat8 (now - 31 + 30 * 2 ^ 0)⟩))
    username id (0 + 1 + 1) (toFloat8 (now - 31 + 30 * 2 ^ 0)) ⟨now, now, now⟩ 1 (by simp)
    (by rw [f0]; show now - 1 ≤ now; omega) hck
    (by omega) (by decide) (hcnt _ (by omega) (by omega)) (hholds now (by omega) (by omega))
    (by rw [f1]; exact hholds _ (by omega) (by omega))
  have e4 := reserve_blocked schema
    (Function.update (Function.update (Function.update db id
      (some ⟨0 + 1, toFloat8 (now - 31 + 30 * 2 ^ 0)⟩)) id
      (some ⟨0 + 1 + 1, toFloat8 (now - 31 + 30 * 2 ^ 0)⟩)) id
      (some ⟨0 + 1 + 1 + 1, toFloat8 (now - 31 + 30 * 2 ^ 1)⟩))
    username id (0 + 1 + 1 + 1) (toFloat8 (now - 31 + 30 * 2 ^ 1)) later (by simp)
    (by rw [f1]; exact hlater) hclock
    (hholds _ (by have := hclock.2.1.1; omega) (by omega))
    (by rw [f1]; exact hfits)
  unfold reserveAt
  rw [e1, e2, e3, e4, f0, f1]
  refine ⟨?_, ?_, ?_, rfl, by omega⟩
  · simp
  · simp
  · simp

set_option maxRecDepth 100000 in
/-- C5 (amended), for user 3 of the example table at second 1000, the fourth call reading
the clock at second 1010 for its `UPDATE` and at second 1011 for the wait. -/
theorem ReservePincheck_backoff_witness :
    (reserveAt demoSchema demoUsers 1000 (.postgres "carol" 3)).1 = (true, 2, -1, none) ∧
    (reserveAt demoSchema (reserveAt demoSchema demoUsers 1000 (.postgres "carol" 3)).2 1000
      (.postgres "carol" 3)).1 = (true, 1, -1, none) ∧
    (reserveAt demoSchema (reserveAt demoSchema (reserveAt demoSchema demoUsers 1000
      (.postgres "carol" 3)).2 1000 (.postgres "carol" 3)).2 1000
      (.postgres "carol" 3)).1 = (true, 0, 29, none) ∧
    (ReservePincheck demoSchema (reserveAt demoSchema (reserveAt demoSchema (reserveAt demoSchema
      demoUsers 1000 (.postgres "carol" 3)).2 1000 (.postgres "carol" 3)).2 1000
      (.postgres "carol" 3)).2 DriverFaults.none ⟨1010, 1010, 1011⟩ (.postgres "carol" 3)).1 =
      (false, 0, 1000 + 29 - 1011, none) ∧
    ((0 : Int) < 1000 + 29 - 1011 ↔ (1011 : Int) < 1000 + 29) :=
  ReservePincheck_backoff demoSchema demoUsers "carol" 3 1000 ⟨1010, 1010, 1011⟩ rfl
    (by decide) (by decide) (by decide) (by unfold Clock.InRange; decide) (by decide)

set_option maxRecDepth 100000 in
/-- C5 as stated fails: the third call at the same second returns the wait 29, which is
below 30; and a fourth call that reads the clock at second 1028 for its `UPDATE`, before
the block date 1029, and at second 1029 for the wait returns the wait 0. -/
theorem ReservePincheck_third_wait :
    (reserveAt demoSchema (reserveAt demoSchema (reserveAt demoSchema demoUsers 1000
      (.postgres "carol" 3)).2 1000 (.postgres "carol" 3)).2 1000
      (.postgres "carol" 3)).1 = (true, 0, 29, none) ∧
    ¬ ((30 : Int) ≤ 29) ∧
    (ReservePincheck demoSchema (reserveAt demoSchema (reserveAt demoSchema (reserveAt demoSchema
      demoUsers 1000 (.postgres "carol" 3)).2 1000 (.postgres "carol" 3)).2 1000
      (.postgres "carol" 3)).2 DriverFaults.none ⟨1028, 1028, 1029⟩ (.postgres "carol" 3)).1 =
      (false, 0, 0, none) := by
  decide

/-- C6 (amended): for an existing record with `pin_block_date > now₂`, where `now₂` is the
clock reading that the call takes for the guard of the `UPDATE` and `now₃` the one it takes
for the wait (each from 0 to below `2^53`, the block date in the range of its column),
`ReservePincheck` returns `allow = false`, `tries = 0`, `wait = pin_block_date − now₃` and
no error, and leaves the table, hence `pin_counter` and `pin_block_date`, unchanged;
`wait ≥ 0` exactly when `now₃` is not after the block date, and `wait > 0` when the clock
has not moved between the two readings. -/
theorem ReservePincheck_blocked (schema : Schema) (db : Users) (username : String) (id : Int)
    (row : UserRow) (clock : Clock) (hrow : db id = some row)
    (hgt : clock.atGuard < row.pinBlockDate) (hclock : clock.InRange)
    (hfits : schema.pinBlockDate.holds row.pinBlockDate = true) :
    ReservePincheck schema db DriverFaults.none clock (.postgres username id) =
      ((false, 0, row.pinBlockDate - clock.atReturn, none), db) ∧
    (0 ≤ row.pinBlockDate - clock.atReturn ↔ clock.atReturn ≤ row.pinBlockDate) ∧
    (clock.atReturn = clock.atGuard → 0 < row.pinBlockDate - clock.atReturn) := by
  refine ⟨?_, by omega, by omega⟩
  exact reserve_blocked schema db username id row.pinCounter row.pinBlockDate clock hrow hgt
    hclock (holds_of_le _ _ _ hfits (by have := hclock.2.1.1; omega) (by omega)) hfits

set_option maxRecDepth 100000 in
/-- C6 (amended), for user 4 of the example table, blocked until second 5000, with the
clock at second 1000 for the `UPDATE` and at second 1002 for the wait. -/
theorem ReservePincheck_blocked_witness :
    ReservePincheck demoSchema demoUsers DriverFaults.none ⟨1000, 1000, 1002⟩
        (.postgres "dave" 4) =
      ((false, 0, 5000 - 1002, none), demoUsers) ∧
    ((0 : Int) ≤ 5000 - 1002 ↔ (1002 : Int) ≤ 5000) ∧
    ((1002 : Int) = 1000 → (0 : Int) < 5000 - 1002) :=
  ReservePincheck_blocked demoSchema demoUsers "dave" 4 ⟨3, 5000⟩ ⟨1000, 1000, 1002⟩ rfl
    (by decide) (by unfold Clock.InRange; decide) (by decide)

set_option maxRecDepth 100000 in
/-- C6 as stated fails: user 5 of the example table is blocked until second 1001; a call
that reads the clock at second 1000 for its `UPDATE` and at second 1002 for the wait is
refused and returns the wait `−1`. -/
theorem ReservePincheck_blocked_negative_wait :
    demoUsers 5 = some ⟨3, 1001⟩ ∧
    (ReservePincheck demoSchema demoUsers DriverFaults.none ⟨1000, 1000, 1002⟩
      (.postgres "erin" 5)).1 = (false, 0, -1, none) ∧
    ¬ ((0 : Int) ≤ -1) := by
  decide

end Keyshare

namespace Irma

/-! ## Reverse hashes -/

theorem credentialHandler_reverseHashes (env : Env) (manager : SchemeManager) (dir : String)
    (r : Run) (h : ReverseHashesSound env r.conf) :
    ReverseHashesSound env (credentialHandler env manager dir r).2.conf := by
  unfold credentialHandler
  simp only []
  split
  · exact h
  · exact h
  · rename_i cred _
    split
    · exact h
    · obtain ⟨h1, h2⟩ := h
      have hkey : env.base64 ((env.sha256 (stringToBytes (Identifier.String cred.Identifier))).take 16)
          = reverseHashOf env cred.Identifier := rfl
      simp only [addReverseHash, Run.log, hkey]
      constructor
      · intro k c hk
        rw [GoMap.get?_set] at hk
        by_cases hc : reverseHashOf env cred.Identifier = k
        · rw [if_pos hc] at hk
          injection hk with hk
          subst hk
          exact ⟨hc.symm, GoMap.isSome_get?_set_self _ _ _⟩
        · rw [if_neg hc] at hk
          exact ⟨(h1 k c hk).1, GoMap.isSome_get?_set_of_isSome _ _ _ _ (h1 k c hk).2⟩
      · intro c hc
        rw [GoMap.get?_set]
        by_cases hk : reverseHashOf env cred.Identifier = reverseHashOf env c
        · rw [if_pos hk]; rfl
        · rw [if_neg hk]
          apply h2
          rw [GoMap.get?_set] at hc
          by_cases hcc : cred.Identifier = c
          · exact absurd (by rw [hcc]) hk
          · rw [if_neg hcc] at hc
            exact hc

theorem issuerHandler_reverseHashes (env : Env) (manager : SchemeManager) (dir : String)
    (r : Run) (h : ReverseHashesSound env r.conf) :
    ReverseHashesSound env (issuerHandler env manager dir r).2.conf := by
  unfold issuerHandler
  simp only []
  split
  · exact h
  · exact h
  · split
    · exact h
    · exact iterateSubfolders_inv env _ _ (fun r => ReverseHashesSound env r.conf)
        (fun _ _ d _ r' hr' => credentialHandler_reverseHashes env manager d r' hr') _ h

theorem schemeHandler_reverseHashes (env : Env) (dir : String) (r : Run)
    (h : ReverseHashesSound env r.conf) :
    ReverseHashesSound env (schemeHandler env dir r).2.conf := by
  unfold schemeHandler
  simp only []
  split
  · exact h
  · split
    · exact h
    · exact h
    · split
      · exact h
      · split
        · exact h
        · split
          · exact h
          · exact iterateSubfolders_inv env _ _ (fun r => ReverseHashesSound env r.conf)
              (fun _ _ d _ r' hr' => issuerHandler_reverseHashes env _ d r' hr') _ h

theorem ParseFolder_reverseHashesSound (env : Env) (conf : Configuration) :
    ReverseHashesSound env (ParseFolder env conf).2.conf := by
  have hinv := iterateSubfolders_inv env conf.path (schemeHandler env)
    (fun r => ReverseHashesSound env r.conf)
    (fun _ _ d _ r' hr' => schemeHandler_reverseHashes env d r' hr')
    ⟨{ conf with
        SchemeManagers := [], Issuers := [], CredentialTypes := [], publicKeys := [],
        reverseHashes := [] }, []⟩
    ⟨fun h c hh => by simp [GoMap.get?] at hh, fun c hc => by simp [GoMap.get?] at hc⟩
  unfold ParseFolder
  simp only [] at hinv ⊢
  split
  · rename_i e r heq
    rw [heq] at hinv
    exact hinv
  · rename_i r heq
    rw [heq] at hinv
    exact hinv

/-- C11 (amended): after every `ParseFolder`, every entry `(h, c)` of the reverse-hash map
has `h = base64(first 16 bytes of SHA-256(c.String()))` and `c` is a loaded credential
type; `hashToCredentialType` applied to the 16-byte hash prefix of a loaded credential
type `c` returns the `CredentialType` of a loaded credential type with the same reverse
hash, which is `c`'s own whenever no other loaded credential type has the same reverse
hash.  A collision is not detected: two loaded credential types that share a reverse
hash are both looked up as the same one of them. -/
theorem ParseFolder_reverseHashes (env : Env) (conf : Configuration) :
    (∀ h c, GoMap.get? (ParseFolder env conf).2.conf.reverseHashes h = some c →
      h = env.base64 ((env.sha256 (stringToBytes c.String)).take 16) ∧
      c ∈ GoMap.keys (ParseFolder env conf).2.conf.CredentialTypes) ∧
    (∀ c ct, GoMap.get? (ParseFolder env conf).2.conf.CredentialTypes c = some ct →
      (∀ c', c' ∈ GoMap.keys (ParseFolder env conf).2.conf.CredentialTypes →
        reverseHashOf env c' = reverseHashOf env c → c' = c) →
      hashToCredentialType env (ParseFolder env conf).2.conf
        ((env.sha256 (stringToBytes c.String)).take 16) = some ct) ∧
    (∀ c, c ∈ GoMap.keys (ParseFolder env conf).2.conf.CredentialTypes →
      ∃ c', c' ∈ GoMap.keys (ParseFolder env conf).2.conf.CredentialTypes ∧
        reverseHashOf env c' = reverseHashOf env c ∧
        ∀ d, d ∈ GoMap.keys (ParseFolder env conf).2.conf.CredentialTypes →
          reverseHashOf env d = reverseHashOf env c →
          hashToCredentialType env (ParseFolder env conf).2.conf
            ((env.sha256 (stringToBytes d.String)).take 16) =
            GoMap.get? (ParseFolder env conf).2.conf.CredentialTypes c') := by
  obtain ⟨h1, h2⟩ := ParseFolder_reverseHashesSound env conf
  have hkey : ∀ c : Identifier, env.base64 ((env.sha256 (stringToBytes c.String)).take 16) =
      reverseHashOf env c := fun _ => rfl
  refine ⟨?_, ?_, ?_⟩
  · intro h c hc
    exact ⟨(h1 h c hc).1, (GoMap.get?_isSome_iff_mem_keys _ _).mp (h1 h c hc).2⟩
  · intro c ct hc huniq
    have hsome : (GoMap.get? (ParseFolder env conf).2.conf.CredentialTypes c).isSome = true := by
      rw [hc]; rfl
    have hentry := h2 c hsome
    unfold hashToCredentialType
    rw [hkey]
    cases hr : GoMap.get? (ParseFolder env conf).2.conf.reverseHashes (reverseHashOf env c) with
    | none => rw [hr] at hentry; cases hentry
    | some c' =>
      simp only []
      have h3 := h1 _ c' hr
      have hc' : c' = c :=
        huniq c' ((GoMap.get?_isSome_iff_mem_keys _ _).mp h3.2) h3.1.symm
      rw [hc', hc]
  · intro c hc
    have hentry := h2 c ((GoMap.get?_isSome_iff_mem_keys _ _).mpr hc)
    cases hr : GoMap.get? (ParseFolder env conf).2.conf.reverseHashes (reverseHashOf env c) with
    | none => rw [hr] at hentry; cases hentry
    | some c' =>
      have h3 := h1 _ c' hr
      refine ⟨c', (GoMap.get?_isSome_iff_mem_keys _ _).mp h3.2, h3.1.symm, ?_⟩
      intro d _ hd
      unfold hashToCredentialType
      rw [hkey, hd, hr]

/-- C11 (amended), at the example folder and its only credential type `s.i.c`. -/
theorem ParseFolder_reverseHashes_witness :
    hashToCredentialType Demo.env (ParseFolder Demo.env (newConfiguration "conf")).2.conf
      ((Demo.env.sha256 (stringToBytes (Identifier.String ["s", "i", "c"]))).take 16) =
      some ⟨"c", "i", "s", 4⟩ :=
  (ParseFolder_reverseHashes Demo.env (newConfiguration "conf")).2.1 ["s", "i", "c"]
    ⟨"c", "i", "s", 4⟩ (by decide)
    (by
      have e : GoMap.keys (ParseFolder Demo.env (newConfiguration "conf")).2.conf.CredentialTypes
          = [["s", "i", "c"]] := by decide
      intro c' hc' _
      rw [e] at hc'
      simpa using hc')

/-! ### A collision, whatever the digest -/

theorem bytesToString_stringToBytes (s : String) (h : ∀ c ∈ s.data, c.toNat < 256) :
    bytesToString (stringToBytes s) = s := by
  unfold bytesToString stringToBytes
  apply String.ext
  simp only [List.map_map]
  conv_rhs => rw [← List.map_id s.data]
  apply List.map_congr_left
  intro c hc
  have h1 := h c hc
  simp only [Function.comp, id]
  have : (Fin.ofNat c.toNat : Fin 256).val = c.toNat := by
    show c.toNat % 256 = c.toNat
    omega
  rw [this]
  exact Char.ofNat_toNat c

/-- The text that `String` writes for an index whose paths hold neither a space nor a
line feed is read back by `FromString` as the same index. -/
theorem FromString_written (m : SchemeManagerIndex)
    (h : ∀ p ∈ GoMap.keys m, ' ' ∉ p.data ∧ '\n' ∉ p.data) :
    (SchemeManagerIndex.FromString [] (SchemeManagerIndex.String m)).2 = none ∧
    ∀ path, GoMap.get? (SchemeManagerIndex.FromString [] (SchemeManagerIndex.String m)).1 path =
      GoMap.get? m path := by
  have hmem : ∀ p, p ∈ sortStrings (GoMap.keys m) ↔ p ∈ GoMap.keys m := fun p =>
    List.mem_insertionSort _
  have hlines : stringsSplit (SchemeManagerIndex.String m) '\n' =
      ((sortStrings (GoMap.keys m)).map
        (fun p => hexEncodeChars ((GoMap.get? m p).getD []) ++ ' ' :: p.data)
        ++ [[]]).map String.mk := by
    unfold stringsSplit SchemeManagerIndex.String
    rw [index_String_data_aux]
    have hempty : ("" : String).data = [] := rfl
    rw [hempty, List.nil_append]
    rw [splitChars_lines (fun p => hexEncodeChars ((GoMap.get? m p).getD []) ++ ' ' :: p.data)]
    intro p hp
    have hp' := (h p ((hmem p).mp hp)).2
    simp only [List.mem_append, List.mem_cons, not_or]
    exact ⟨newline_not_mem_hexEncodeChars _, by decide, hp'⟩
  have hrun := fromStringLines_written m (sortStrings (GoMap.keys m))
    (fun p hp => (h p ((hmem p).mp hp)).1) [] 0
  unfold SchemeManagerIndex.FromString
  rw [hlines, hrun]
  refine ⟨rfl, ?_⟩
  intro path
  simp only []
  rw [GoMap.get?_foldl_set (fun p => (GoMap.get? m p).getD [])]
  by_cases hp : path ∈ sortStrings (GoMap.keys m)
  · rw [if_pos hp]
    have hs := (GoMap.get?_isSome_iff_mem_keys m path).mpr ((hmem path).mp hp)
    cases hg : GoMap.get? m path with
    | none => rw [hg] at hs; cases hs
    | some v => rfl
  · rw [if_neg hp]
    have hs : ¬ (GoMap.get? m path).isSome = true := fun e =>
      hp ((hmem path).mpr ((GoMap.get?_isSome_iff_mem_keys m path).mp e))
    cases hg : GoMap.get? m path with
    | none => rfl
    | some v => rw [hg] at hs; exact absurd rfl hs

theorem hexEncodeChars_ascii (b : Bytes) : ∀ c ∈ hexEncodeChars b, c.toNat < 256 := by
  have hd : ∀ n : Fin 16, (hexDigit n).toNat < 256 := by decide
  induction b with
  | nil => intro c hc; cases hc
  | cons x xs ih =>
    intro c hc
    simp only [hexEncodeChars, List.mem_cons] at hc
    rcases hc with e | e | e
    · rw [e]; exact hd _
    · rw [e]; exact hd _
    · exact ih c e

/-- The text of an index whose paths are made of bytes is made of bytes. -/
theorem index_String_ascii (m : SchemeManagerIndex)
    (h : ∀ p ∈ GoMap.keys m, ∀ c ∈ p.data, c.toNat < 256) :
    ∀ c ∈ (SchemeManagerIndex.String m).data, c.toNat < 256 := by
  have hmem : ∀ p, p ∈ sortStrings (GoMap.keys m) ↔ p ∈ GoMap.keys m := fun p =>
    List.mem_insertionSort _
  unfold SchemeManagerIndex.String
  rw [index_String_data_aux]
  intro c hc
  simp only [List.mem_append, List.mem_flatMap, List.mem_cons] at hc
  rcases hc with hc | ⟨p, hp, hc⟩
  · cases hc
  · rcases hc with (hc | hc | hc) | hc
    · exact hexEncodeChars_ascii _ c hc
    · rw [hc]; decide
    · exact h p ((hmem p).mp hp) c hc
    · rcases hc with hc | hc
      · rw [hc]; decide
      · cases hc

theorem keys_indexCollision (sha256 : Bytes → Bytes) (x y : String) :
    GoMap.keys (Demo.indexCollision sha256 x y) =
      ["s/description.xml", "s/i/description.xml", "s/i/Issues/a/description.xml",
       "s/i/Issues/b/description.xml"] := by
  unfold GoMap.keys Demo.indexCollision
  simp only [List.map_cons, List.map_nil]
  decide

/-- The index file of the folder is read back as the index it was written from. -/
theorem ParseIndex_envCollision (sha256 : Bytes → Bytes) (base64 : Bytes → String)
    (x y : String) :
    ∃ I, ParseIndex (Demo.envCollision sha256 base64 x y) SchemeManager.zero "conf/s" =
        (none, { SchemeManager.zero with Index := I }) ∧
      ∀ path, GoMap.get? I path = GoMap.get? (Demo.indexCollision sha256 x y) path := by
  have hkeys := keys_indexCollision sha256 x y
  have hw := FromString_written (Demo.indexCollision sha256 x y) (by
    rw [hkeys]
    decide)
  have hascii := index_String_ascii (Demo.indexCollision sha256 x y) (by
    rw [hkeys]
    decide)
  refine ⟨(SchemeManagerIndex.FromString []
    (SchemeManagerIndex.String (Demo.indexCollision sha256 x y))).1, ?_, hw.2⟩
  have hexists : (Demo.envCollision sha256 base64 x y).pathExists ("conf/s" ++ "/index") = true := by
    rfl
  have hread : (Demo.envCollision sha256 base64 x y).readFile ("conf/s" ++ "/index") =
      .ok (stringToBytes (SchemeManagerIndex.String (Demo.indexCollision sha256 x y))) := by
    rfl
  unfold ParseIndex
  rw [hexists, hread]
  simp only [Bool.true_eq_false, if_false]
  rw [bytesToString_stringToBytes _ hascii, hw.1]


/-! ### Runs that load what they find -/

theorem ReadAuthenticatedFile_ok (env : Env) (conf : Configuration) (manager : SchemeManager)
    (path : String) (bts : Bytes)
    (hidx : GoMap.get? manager.Index path = some (env.sha256 bts))
    (hread : env.readFile (env.filepathJoin conf.path path) = .ok bts) :
    ReadAuthenticatedFile env conf manager path = (some bts, none) := by
  unfold ReadAuthenticatedFile
  rw [hidx]
  simp only [hread, ne_eq, not_true_eq_false, if_false]

theorem pathToDescription_parsed {δ : Type} (env : Env) (conf : Configuration)
    (kind : DescriptionKind) (manager : SchemeManager) (path : String)
    (unmarshal : Bytes → Except Error δ) (isDir : Bool) (bts : Bytes) (v : δ)
    (hstat : env.stat path = .ok isDir)
    (hidx : GoMap.get? manager.Index (relativePath conf.path path) = some (env.sha256 bts))
    (hread : env.readFile (env.filepathJoin conf.path (relativePath conf.path path)) = .ok bts)
    (hx : unmarshal bts = .ok v) :
    pathToDescription env conf kind manager path unmarshal =
      (.parsed v, [.readAuthenticated kind manager.Identifier (relativePath conf.path path),
        .xmlUnmarshal kind manager.Identifier (relativePath conf.path path)]) := by
  unfold pathToDescription
  rw [hstat]
  simp only [ReadAuthenticatedFile_ok env conf manager _ bts hidx hread, Option.getD, hx]

theorem iterateDirs_dir (env : Env) (handler : String → Run → Option Error × Run)
    (dir : String) (dirs : List String) (r r' : Run)
    (hstat : env.stat dir = .ok true) (hgit : HasSuffix dir "/.git" = false)
    (hh : handler dir r = (none, r')) :
    iterateDirs env handler (dir :: dirs) r = iterateDirs env handler dirs r' := by
  rw [iterateDirs, hstat]
  simp only [Bool.true_eq_false, Bool.false_eq_true, if_false, hgit, hh]

theorem iterateDirs_file (env : Env) (handler : String → Run → Option Error × Run)
    (dir : String) (dirs : List String) (r : Run) (hstat : env.stat dir = .ok false) :
    iterateDirs env handler (dir :: dirs) r = iterateDirs env handler dirs r := by
  rw [iterateDirs, hstat]
  simp only [if_true]

theorem credentialHandler_loads (env : Env) (manager : SchemeManager) (dir : String) (r : Run)
    (isDir : Bool) (bts : Bytes) (cred : CredentialType)
    (hstat : env.stat (dir ++ "/description.xml") = .ok isDir)
    (hidx : GoMap.get? manager.Index (relativePath r.conf.path (dir ++ "/description.xml")) =
      some (env.sha256 bts))
    (hread : env.readFile (env.filepathJoin r.conf.path
      (relativePath r.conf.path (dir ++ "/description.xml"))) = .ok bts)
    (hx : env.unmarshalCredential bts CredentialType.zero = .ok cred)
    (hversion : ¬ cred.XMLVersion < 4) :
    credentialHandler env manager dir r =
      (none,
        ⟨addReverseHash env
          { r.conf with
            CredentialTypes := GoMap.set r.conf.CredentialTypes cred.Identifier cred }
          cred.Identifier,
          r.trace ++
            [.readAuthenticated .credential manager.Identifier
              (relativePath r.conf.path (dir ++ "/description.xml")),
             .xmlUnmarshal .credential manager.Identifier
              (relativePath r.conf.path (dir ++ "/description.xml"))]⟩) := by
  have hp := pathToDescription_parsed env r.conf .credential manager (dir ++ "/description.xml")
    (fun bts => env.unmarshalCredential bts CredentialType.zero) isDir bts cred hstat hidx hread hx
  unfold credentialHandler
  simp only [hp, hversion, if_false, Run.log]

theorem issuerHandler_loads (env : Env) (manager : SchemeManager) (dir : String) (r : Run)
    (isDir : Bool) (bts : Bytes) (issuer : Issuer)
    (hstat : env.stat (dir ++ "/description.xml") = .ok isDir)
    (hidx : GoMap.get? manager.Index (relativePath r.conf.path (dir ++ "/description.xml")) =
      some (env.sha256 bts))
    (hread : env.readFile (env.filepathJoin r.conf.path
      (relativePath r.conf.path (dir ++ "/description.xml"))) = .ok bts)
    (hx : env.unmarshalIssuer bts Issuer.zero = .ok issuer)
    (hversion : ¬ issuer.XMLVersion < 4) :
    issuerHandler env manager dir r =
      parseCredentialsFolder env manager (dir ++ "/Issues/")
        ⟨{ r.conf with Issuers := GoMap.set r.conf.Issuers issuer.Identifier issuer },
          r.trace ++
            [.readAuthenticated .issuer manager.Identifier
              (relativePath r.conf.path (dir ++ "/description.xml")),
             .xmlUnmarshal .issuer manager.Identifier
              (relativePath r.conf.path (dir ++ "/description.xml"))]⟩ := by
  have hp := pathToDescription_parsed env r.conf .issuer manager (dir ++ "/description.xml")
    (fun bts => env.unmarshalIssuer bts Issuer.zero) isDir bts issuer hstat hidx hread hx
  unfold issuerHandler
  simp only [hp, hversion, if_false, Run.log]

theorem schemeHandler_loads (env : Env) (dir : String) (r : Run) (m0 manager : SchemeManager)
    (isDir : Bool) (bts : Bytes)
    (hindex : ParseIndex env SchemeManager.zero dir = (none, m0))
    (hstat : env.stat (dir ++ "/description.xml") = .ok isDir)
    (hidx : GoMap.get? m0.Index (relativePath r.conf.path (dir ++ "/description.xml")) =
      some (env.sha256 bts))
    (hread : env.readFile (env.filepathJoin r.conf.path
      (relativePath r.conf.path (dir ++ "/description.xml"))) = .ok bts)
    (hx : env.unmarshalManager bts m0 = .ok manager)
    (hversion : ¬ manager.XMLVersion < 7)
    (hvalid : VerifySignature env r.conf manager.Identifier = (true, none)) :
    schemeHandler env dir r =
      parseIssuerFolders env manager dir
        ⟨{ r.conf with
            SchemeManagers := GoMap.set r.conf.SchemeManagers manager.Identifier manager },
          r.trace ++ [.parseIndex dir] ++
            [.readAuthenticated .scheme m0.Identifier
              (relativePath r.conf.path (dir ++ "/description.xml")),
             .xmlUnmarshal .scheme m0.Identifier
              (relativePath r.conf.path (dir ++ "/description.xml"))] ++
            [.verifySignature manager.Identifier true]⟩ := by
  unfold schemeHandler
  have hconf : (r.log [.parseIndex dir]).conf = r.conf := rfl
  have hconf2 : ∀ es, ((r.log [.parseIndex dir]).log es).conf = r.conf := fun _ => rfl
  have hp := pathToDescription_parsed env r.conf .scheme m0 (dir ++ "/description.xml")
    (fun bts => env.unmarshalManager bts m0) isDir bts manager hstat hidx hread hx
  simp only [hindex, hconf, hconf2, hp, hversion, if_false, hvalid, Run.log, Bool.true_eq_false]


theorem iterateSubfolders_ok (env : Env) (path : String)
    (handler : String → Run → Option Error × Run) (r : Run) (dirs : List String)
    (h : Glob env path = .ok dirs) :
    iterateSubfolders env path handler r = iterateDirs env handler dirs r := by
  unfold iterateSubfolders
  rw [h]

/-- What `parseCredentialsFolder` does with a credential type it loads. -/
theorem credentialHandler_envCollision (sha256 : Bytes → Bytes) (base64 : Bytes → String)
    (x y : String) (hne : Demo.credentialXmlNamed y ≠ Demo.credentialXmlNamed x)
    (M : SchemeManager)
    (hM : ∀ path, GoMap.get? M.Index path = GoMap.get? (Demo.indexCollision sha256 x y) path)
    (r : Run) (hpath : r.conf.path = "conf") :
    (∃ r', credentialHandler (Demo.envCollision sha256 base64 x y) M "conf/s/i/Issues/a" r =
        (none, r') ∧
      r'.conf = addReverseHash (Demo.envCollision sha256 base64 x y)
        { r.conf with
          CredentialTypes := GoMap.set r.conf.CredentialTypes ["s", "i", x] ⟨x, "i", "s", 4⟩ }
        ["s", "i", x]) ∧
    (∃ r', credentialHandler (Demo.envCollision sha256 base64 x y) M "conf/s/i/Issues/b" r =
        (none, r') ∧
      r'.conf = addReverseHash (Demo.envCollision sha256 base64 x y)
        { r.conf with
          CredentialTypes := GoMap.set r.conf.CredentialTypes ["s", "i", y] ⟨y, "i", "s", 4⟩ }
        ["s", "i", y]) := by
  have hy : (Demo.envCollision sha256 base64 x y).unmarshalCredential
      (Demo.credentialXmlNamed y) CredentialType.zero = .ok ⟨y, "i", "s", 4⟩ := by
    show (if Demo.credentialXmlNamed y = Demo.credentialXmlNamed x then _ else _) = _
    rw [if_neg hne, if_pos rfl]
  have hx : (Demo.envCollision sha256 base64 x y).unmarshalCredential
      (Demo.credentialXmlNamed x) CredentialType.zero = .ok ⟨x, "i", "s", 4⟩ := by
    show (if Demo.credentialXmlNamed x = Demo.credentialXmlNamed x then _ else _) = _
    rw [if_pos rfl]
  have h4 : ∀ n : String, ¬ (CredentialType.mk n "i" "s" 4).XMLVersion < 4 := fun _ => by
    show ¬ ((4 : Int) < 4)
    decide
  constructor
  · exact ⟨_, credentialHandler_loads _ M "conf/s/i/Issues/a" r false
      (Demo.credentialXmlNamed x) ⟨x, "i", "s", 4⟩ rfl
      (by rw [hpath]; exact (hM _).trans rfl) (by rw [hpath]; rfl) hx (h4 x), rfl⟩
  · exact ⟨_, credentialHandler_loads _ M "conf/s/i/Issues/b" r false
      (Demo.credentialXmlNamed y) ⟨y, "i", "s", 4⟩ rfl
      (by rw [hpath]; exact (hM _).trans rfl) (by rw [hpath]; rfl) hy (h4 y), rfl⟩


theorem addReverseHash_path (env : Env) (conf : Configuration) (c : Identifier) :
    (addReverseHash env conf c).path = conf.path := rfl

/-- The configuration after loading the credential types `x` and then `y` of issuer
`s.i`. -/
theorem parseCredentialsFolder_envCollision (sha256 : Bytes → Bytes) (base64 : Bytes → String)
    (x y : String) (hne : Demo.credentialXmlNamed y ≠ Demo.credentialXmlNamed x)
    (M : SchemeManager)
    (hM : ∀ path, GoMap.get? M.Index path = GoMap.get? (Demo.indexCollision sha256 x y) path)
    (r : Run) (hpath : r.conf.path = "conf") :
    ∃ r', parseCredentialsFolder (Demo.envCollision sha256 base64 x y) M "conf/s/i/Issues/" r =
        (none, r') ∧
      r'.conf = addReverseHash (Demo.envCollision sha256 base64 x y)
        { (addReverseHash (Demo.envCollision sha256 base64 x y)
            { r.conf with
              CredentialTypes :=
                GoMap.set r.conf.CredentialTypes ["s", "i", x] ⟨x, "i", "s", 4⟩ }
            ["s", "i", x]) with
          CredentialTypes :=
            GoMap.set (GoMap.set r.conf.CredentialTypes ["s", "i", x] ⟨x, "i", "s", 4⟩)
              ["s", "i", y] ⟨y, "i", "s", 4⟩ }
        ["s", "i", y] := by
  obtain ⟨ra, ha, hca⟩ := (credentialHandler_envCollision sha256 base64 x y hne M hM r hpath).1
  have hpa : ra.conf.path = "conf" := by rw [hca]; exact hpath
  obtain ⟨rb, hb, hcb⟩ := (credentialHandler_envCollision sha256 base64 x y hne M hM ra hpa).2
  refine ⟨rb, ?_, ?_⟩
  · unfold parseCredentialsFolder
    rw [iterateSubfolders_ok (Demo.envCollision sha256 base64 x y) "conf/s/i/Issues/" _ r
      ["conf/s/i/Issues/a", "conf/s/i/Issues/b"] rfl]
    rw [iterateDirs_dir (Demo.envCollision sha256 base64 x y) _ "conf/s/i/Issues/a" _ r ra
      rfl rfl ha]
    rw [iterateDirs_dir (Demo.envCollision sha256 base64 x y) _ "conf/s/i/Issues/b" _ ra rb
      rfl rfl hb]
    rfl
  · rw [hcb, hca]
    rfl

/-- The configuration after loading issuer `s.i` and its credential types. -/
theorem parseIssuerFolders_envCollision (sha256 : Bytes → Bytes) (base64 : Bytes → String)
    (x y : String) (hne : Demo.credentialXmlNamed y ≠ Demo.credentialXmlNamed x)
    (M : SchemeManager)
    (hM : ∀ path, GoMap.get? M.Index path = GoMap.get? (Demo.indexCollision sha256 x y) path)
    (r : Run) (hpath : r.conf.path = "conf") :
    ∃ r', parseIssuerFolders (Demo.envCollision sha256 base64 x y) M "conf/s" r = (none, r') ∧
      r'.conf.CredentialTypes =
        GoMap.set (GoMap.set r.conf.CredentialTypes ["s", "i", x] ⟨x, "i", "s", 4⟩)
          ["s", "i", y] ⟨y, "i", "s", 4⟩ ∧
      r'.conf.reverseHashes =
        GoMap.set
          (GoMap.set r.conf.reverseHashes
            (reverseHashOf (Demo.envCollision sha256 base64 x y) ["s", "i", x]) ["s", "i", x])
          (reverseHashOf (Demo.envCollision sha256 base64 x y) ["s", "i", y]) ["s", "i", y] := by
  have hi := issuerHandler_loads (Demo.envCollision sha256 base64 x y) M "conf/s/i" r false
    Demo.issuerXml ⟨"i", "s", 4⟩ rfl (by rw [hpath]; exact (hM _).trans rfl)
    (by rw [hpath]; rfl) rfl (by decide)
  obtain ⟨r', hr', hc'⟩ := parseCredentialsFolder_envCollision sha256 base64 x y hne M hM
    ⟨{ r.conf with
        Issuers := GoMap.set r.conf.Issuers (Issuer.mk "i" "s" 4).Identifier (Issuer.mk "i" "s" 4) },
      r.trace ++
        [.readAuthenticated .issuer M.Identifier
          (relativePath r.conf.path ("conf/s/i" ++ "/description.xml")),
         .xmlUnmarshal .issuer M.Identifier
          (relativePath r.conf.path ("conf/s/i" ++ "/description.xml"))]⟩ hpath
  have hi := hi.trans hr'
  refine ⟨r', ?_, ?_, ?_⟩
  · unfold parseIssuerFolders
    rw [iterateSubfolders_ok (Demo.envCollision sha256 base64 x y) "conf/s" _ r
      ["conf/s/description.xml", "conf/s/i", "conf/s/index", "conf/s/index.sig",
        "conf/s/pk.pem"] rfl]
    rw [iterateDirs_file (Demo.envCollision sha256 base64 x y) _ "conf/s/description.xml" _ r rfl]
    rw [iterateDirs_dir (Demo.envCollision sha256 base64 x y) _ "conf/s/i" _ r r' rfl rfl hi]
    rw [iterateDirs_file (Demo.envCollision sha256 base64 x y) _ "conf/s/index" _ r' rfl]
    rw [iterateDirs_file (Demo.envCollision sha256 base64 x y) _ "conf/s/index.sig" _ r' rfl]
    rw [iterateDirs_file (Demo.envCollision sha256 base64 x y) _ "conf/s/pk.pem" _ r' rfl]
    rfl
  · rw [hc']
    rfl
  · rw [hc']
    rfl

/-- The run of `ParseFolder` over the folder with two credential types, for any digest:
it succeeds and loads both, the second after the first. -/
theorem ParseFolder_envCollision (sha256 : Bytes → Bytes) (base64 : Bytes → String)
    (x y : String) (hne : Demo.credentialXmlNamed y ≠ Demo.credentialXmlNamed x) :
    ∃ r : Run,
      ParseFolder (Demo.envCollision sha256 base64 x y) (newConfiguration "conf") = (none, r) ∧
      r.conf.CredentialTypes =
        GoMap.set (GoMap.set [] ["s", "i", x] ⟨x, "i", "s", 4⟩) ["s", "i", y] ⟨y, "i", "s", 4⟩ ∧
      r.conf.reverseHashes =
        GoMap.set
          (GoMap.set [] (reverseHashOf (Demo.envCollision sha256 base64 x y) ["s", "i", x])
            ["s", "i", x])
          (reverseHashOf (Demo.envCollision sha256 base64 x y) ["s", "i", y]) ["s", "i", y] := by
  obtain ⟨I, hpi, hI⟩ := ParseIndex_envCollision sha256 base64 x y
  have hs := schemeHandler_loads (Demo.envCollision sha256 base64 x y) "conf/s"
    ⟨newConfiguration "conf", []⟩ { SchemeManager.zero with Index := I }
    ⟨"s", "https://example.org/s", 7, I⟩ false Demo.managerXml hpi rfl ((hI _).trans rfl) rfl rfl
    (by show ¬ ((7 : Int) < 7); decide) rfl
  obtain ⟨r', hr', hct, hrh⟩ := parseIssuerFolders_envCollision sha256 base64 x y hne
    ⟨"s", "https://example.org/s", 7, I⟩ hI
    ⟨{ newConfiguration "conf" with
        SchemeManagers := GoMap.set (newConfiguration "conf").SchemeManagers
          (SchemeManager.mk "s" "https://example.org/s" 7 I).Identifier
          (SchemeManager.mk "s" "https://example.org/s" 7 I) },
      ([] : List Event) ++ [.parseIndex "conf/s"] ++
        [.readAuthenticated .scheme (SchemeManager.Identifier { SchemeManager.zero with Index := I })
          (relativePath (newConfiguration "conf").path ("conf/s" ++ "/description.xml")),
         .xmlUnmarshal .scheme (SchemeManager.Identifier { SchemeManager.zero with Index := I })
          (relativePath (newConfiguration "conf").path ("conf/s" ++ "/description.xml"))] ++
        [.verifySignature (SchemeManager.Identifier ⟨"s", "https://example.org/s", 7, I⟩) true]⟩
    rfl
  have hs := hs.trans hr'
  refine ⟨{ r' with conf := { r'.conf with initialized := true } }, ?_, hct, hrh⟩
  unfold ParseFolder
  simp only []
  have hsub : iterateSubfolders (Demo.envCollision sha256 base64 x y) "conf"
      (schemeHandler (Demo.envCollision sha256 base64 x y)) ⟨newConfiguration "conf", []⟩ =
      (none, r') := by
    rw [iterateSubfolders_ok (Demo.envCollision sha256 base64 x y) "conf" _ _ ["conf/s"] rfl]
    rw [iterateDirs_dir (Demo.envCollision sha256 base64 x y) _ "conf/s" _ _ r' rfl rfl hs]
    rfl
  exact (by
    have : iterateSubfolders (Demo.envCollision sha256 base64 x y)
        ({ newConfiguration "conf" with
            SchemeManagers := [], Issuers := [], CredentialTypes := [], publicKeys := [],
            reverseHashes := [] } : Configuration).path
        (schemeHandler (Demo.envCollision sha256 base64 x y))
        ⟨{ newConfiguration "conf" with
            SchemeManagers := [], Issuers := [], CredentialTypes := [], publicKeys := [],
            reverseHashes := [] }, []⟩ = (none, r') := hsub
    rw [this])

/-- Two names of different lengths have the same reverse hash, whatever the digest and
the encoder are: there are more names than values of sixteen bytes. -/
theorem reverse_hash_collision_exists (sha256 : Bytes → Bytes) :
    ∃ n m : Nat, n ≠ m ∧
      (sha256 (stringToBytes (Identifier.String ["s", "i", Demo.nameOfLength n]))).take 16 =
      (sha256 (stringToBytes (Identifier.String ["s", "i", Demo.nameOfLength m]))).take 16 := by
  obtain ⟨n, -, m, -, hne, h⟩ := Set.Infinite.exists_ne_map_eq_of_mapsTo
    (f := fun n : Nat =>
      (sha256 (stringToBytes (Identifier.String ["s", "i", Demo.nameOfLength n]))).take 16)
    Set.infinite_univ
    (fun n _ => show _ ∈ {l : List (Fin 256) | l.length ≤ 16} from List.length_take_le _ _)
    (List.finite_length_le (Fin 256) 16)
  exact ⟨n, m, hne, h⟩

theorem nameOfLength_ne (n m : Nat) (h : n ≠ m) : Demo.nameOfLength n ≠ Demo.nameOfLength m := by
  intro e
  have := congrArg String.length e
  simp only [Demo.nameOfLength, String.length, List.length_replicate] at this
  omega

theorem credentialXmlNamed_ne (n m : Nat) (h : n ≠ m) :
    Demo.credentialXmlNamed (Demo.nameOfLength n) ≠
      Demo.credentialXmlNamed (Demo.nameOfLength m) := by
  intro e
  have := congrArg List.length e
  simp only [Demo.credentialXmlNamed, stringToBytes, List.length_map, String.data_append,
    List.length_append, Demo.nameOfLength, List.length_replicate] at this
  omega

set_option maxRecDepth 100000 in
/-- C11 as stated fails, whatever the digest and the encoder are: there are two names
`x ≠ y` such that in the folder `conf` with the credential types `s.i.x` and `s.i.y`, both
are loaded by a run of `ParseFolder` that succeeds, both have the same reverse hash, and
`hashToCredentialType` applied to the hash prefix of `s.i.x` returns the credential type
`s.i.y`.  The same folder worked out with the byte sum for a digest and hexadecimal for the
encoder, where the names `ab` and `ba` collide: the run succeeds, loads `s.i.ab` and
`s.i.ba`, leaves the one entry `(fb, s.i.ba)` in the reverse-hash map, and the hash prefix
of `s.i.ab` is looked up as `s.i.ba`. -/
theorem ParseFolder_reverse_hash_collision :
    (∀ (sha256 : Bytes → Bytes) (base64 : Bytes → String), ∃ x y : String, x ≠ y ∧
      (Demo.envCollision sha256 base64 x y).sha256 = sha256 ∧
      (Demo.envCollision sha256 base64 x y).base64 = base64 ∧
      (ParseFolder (Demo.envCollision sha256 base64 x y) (newConfiguration "conf")).1 = none ∧
      GoMap.get? (ParseFolder (Demo.envCollision sha256 base64 x y)
        (newConfiguration "conf")).2.conf.CredentialTypes ["s", "i", x] = some ⟨x, "i", "s", 4⟩ ∧
      GoMap.get? (ParseFolder (Demo.envCollision sha256 base64 x y)
        (newConfiguration "conf")).2.conf.CredentialTypes ["s", "i", y] = some ⟨y, "i", "s", 4⟩ ∧
      base64 ((sha256 (stringToBytes (Identifier.String ["s", "i", x]))).take 16) =
        base64 ((sha256 (stringToBytes (Identifier.String ["s", "i", y]))).take 16) ∧
      hashToCredentialType (Demo.envCollision sha256 base64 x y)
        (ParseFolder (Demo.envCollision sha256 base64 x y) (newConfiguration "conf")).2.conf
        ((sha256 (stringToBytes (Identifier.String ["s", "i", x]))).take 16) =
        some ⟨y, "i", "s", 4⟩) ∧
    ((ParseFolder (Demo.envCollision Demo.digest hexEncodeToString "ab" "ba")
        (newConfiguration "conf")).1 = none ∧
      (ParseFolder (Demo.envCollision Demo.digest hexEncodeToString "ab" "ba")
        (newConfiguration "conf")).2.conf.CredentialTypes =
        [(["s", "i", "ba"], ⟨"ba", "i", "s", 4⟩), (["s", "i", "ab"], ⟨"ab", "i", "s", 4⟩)] ∧
      (ParseFolder (Demo.envCollision Demo.digest hexEncodeToString "ab" "ba")
        (newConfiguration "conf")).2.conf.reverseHashes = [("fb", ["s", "i", "ba"])] ∧
      hexEncodeToString ((Demo.digest (stringToBytes (Identifier.String ["s", "i", "ab"]))).take 16) =
        "fb" ∧
      hashToCredentialType (Demo.envCollision Demo.digest hexEncodeToString "ab" "ba")
        (ParseFolder (Demo.envCollision Demo.digest hexEncodeToString "ab" "ba")
          (newConfiguration "conf")).2.conf
        ((Demo.digest (stringToBytes (Identifier.String ["s", "i", "ab"]))).take 16) =
        some ⟨"ba", "i", "s", 4⟩) := by
  refine ⟨fun sha256 base64 => ?_, by decide⟩
  obtain ⟨n, m, hnm, hcol⟩ := reverse_hash_collision_exists sha256
  have hxy := nameOfLength_ne n m hnm
  obtain ⟨r, hr, hct, hrh⟩ := ParseFolder_envCollision sha256 base64 (Demo.nameOfLength n)
    (Demo.nameOfLength m) (credentialXmlNamed_ne m n (fun e => hnm e.symm))
  have hkeys : ¬ (["s", "i", Demo.nameOfLength m] : Identifier) = ["s", "i", Demo.nameOfLength n] := by
    intro e
    simp only [List.cons.injEq, and_true, true_and] at e
    exact hxy e.symm
  refine ⟨Demo.nameOfLength n, Demo.nameOfLength m, hxy, rfl, rfl, ?_, ?_, ?_, ?_, ?_⟩
  · rw [hr]
  · rw [hr]
    simp only []
    rw [hct, GoMap.get?_set, if_neg hkeys, GoMap.get?_set, if_pos rfl]
  · rw [hr]
    simp only []
    rw [hct, GoMap.get?_set, if_pos rfl]
  · rw [hcol]
  · rw [hr]
    unfold hashToCredentialType
    simp only []
    have hkey : (Demo.envCollision sha256 base64 (Demo.nameOfLength n) (Demo.nameOfLength m)).base64
        ((sha256 (stringToBytes (Identifier.String ["s", "i", Demo.nameOfLength n]))).take 16) =
        reverseHashOf (Demo.envCollision sha256 base64 (Demo.nameOfLength n) (Demo.nameOfLength m))
          ["s", "i", Demo.nameOfLength m] := by
      rw [hcol]
      rfl
    rw [hkey, hrh, GoMap.get?_set, if_pos rfl]
    simp only []
    rw [hct, GoMap.get?_set, if_pos rfl]

/-! ## Removing a scheme manager -/

theorem GoMap.get?_delete {κ ν : Type} [DecidableEq κ] (m : GoMap κ ν) (k q : κ) :
    GoMap.get? (GoMap.delete m k) q = if k = q then none else GoMap.get? m q := by
  unfold GoMap.delete
  by_cases h : k = q
  · rw [if_pos h]
    subst h
    induction m with
    | nil => rfl
    | cons e m ih =>
      obtain ⟨k', v⟩ := e
      by_cases hk : k' = k
      · rw [List.filter_cons_of_neg (by simp [hk])]
        exact ih
      · rw [List.filter_cons_of_pos (by simp [hk])]
        simp only [GoMap.get?, hk, ↓reduceIte]
        exact ih
  · rw [if_neg h]
    exact GoMap.get?_filter_ne m k q h

theorem root_parent (k : Identifier) (hlen : 2 ≤ k.length) :
    rootOf (Identifier.parent k) = rootOf k := by
  match k, hlen with
  | a :: b :: rest, _ => rfl

/-- Once the map of an issuer's keys exists, `PublicKey` answers from it without looking
at the folder and without error. -/
theorem ConfigurationPublicKey_cached (fx : Effects) (env : Env) (conf : Configuration)
    (id : Identifier) (counter : Int) (keys : GoMap Int PublicKey)
    (h : GoMap.get? conf.publicKeys id = some keys) :
    ConfigurationPublicKey fx env conf id counter = .ok ((GoMap.get? keys counter, none), conf) := by
  unfold ConfigurationPublicKey
  rw [h]

theorem parseKeyFiles_keeps_entry (fx : Effects) (env : Env) (manager : Option SchemeManager)
    (issuerid : Identifier) (dir : String) (files : List String) (conf : Configuration)
    (h : (GoMap.get? conf.publicKeys issuerid).isSome = true) (e : Option Error)
    (conf' : Configuration)
    (hr : parseKeyFiles fx env manager issuerid dir files conf = .ok (e, conf')) :
    (GoMap.get? conf'.publicKeys issuerid).isSome = true := by
  induction files generalizing conf manager with
  | nil =>
    simp only [parseKeyFiles, Except.ok.injEq, Prod.mk.injEq] at hr
    rw [← hr.2]; exact h
  | cons f files ih =>
    unfold parseKeyFiles at hr
    simp only [] at hr
    split at hr
    · exact ih _ conf h hr
    · split at hr
      · cases hr
      · split at hr
        · simp only [Except.ok.injEq, Prod.mk.injEq] at hr
          rw [← hr.2]; exact h
        · split at hr
          · simp only [Except.ok.injEq, Prod.mk.injEq] at hr
            rw [← hr.2]; exact h
          · split at hr
            · cases hr
            · exact ih _ _ (GoMap.isSome_get?_set_self _ _ _) hr

/-- Whatever a first call of `PublicKey` for an issuer returns, a second call for the same
issuer returns without error. -/
theorem ConfigurationPublicKey_second_call (fx : Effects) (env : Env) (conf : Configuration)
    (id : Identifier) (counter counter' : Int) (r : Option PublicKey × Option Error)
    (conf' : Configuration)
    (h : ConfigurationPublicKey fx env conf id counter = .ok (r, conf')) :
    ∃ pk, ConfigurationPublicKey fx env conf' id counter' = .ok ((pk, none), conf') := by
  have hentry : (GoMap.get? conf'.publicKeys id).isSome = true := by
    unfold ConfigurationPublicKey at h
    split at h
    · rename_i hnone
      simp only [] at h
      unfold parseKeysFolder at h
      simp only [] at h
      split at h
      · cases h
      · rename_i e c heq
        simp only [Except.ok.injEq, Prod.mk.injEq] at h
        rw [← h.2]
        split at heq
        · simp only [Except.ok.injEq, Prod.mk.injEq] at heq
          rw [← heq.2]
          exact GoMap.isSome_get?_set_self _ _ _
        · exact parseKeyFiles_keeps_entry fx env _ id _ _ _
            (GoMap.isSome_get?_set_self _ _ _) _ _ heq
      · rename_i c heq
        simp only [Except.ok.injEq, Prod.mk.injEq] at h
        rw [← h.2]
        split at heq
        · simp only [Except.ok.injEq, Prod.mk.injEq] at heq
          rw [← heq.2]
          exact GoMap.isSome_get?_set_self _ _ _
        · exact parseKeyFiles_keeps_entry fx env _ id _ _ _
            (GoMap.isSome_get?_set_self _ _ _) _ _ heq
    · rename_i keys hk
      simp only [Except.ok.injEq, Prod.mk.injEq] at h
      rw [← h.2, hk]; rfl
  cases hk : GoMap.get? conf'.publicKeys id with
  | none => rw [hk] at hentry; cases hentry
  | some keys => exact ⟨_, ConfigurationPublicKey_cached fx env conf' id counter' keys hk⟩

/-- C13 fails on the code: in this folder the file `PublicKeys/0.xml` of issuer `s.i` has
a decimal stem and is absent from the index of the scheme.  The first call of
`PublicKey(s.i, 0)` returns the error of the authenticated read; the second call, on the
configuration the first one left, returns `(nil, nil)`. -/
theorem PublicKey_failure_masked_on_second_call :
    (ParseFolder Demo.envUnlistedKey (newConfiguration "conf")).1 = none ∧
    Atoi "0" = some 0 ∧
    (GoMap.get? Demo.parsedUnlistedKey.SchemeManagers ["s"]).map
      (fun m => GoMap.get? m.Index "s/i/PublicKeys/0.xml") = some none ∧
    (ConfigurationPublicKey Demo.effects Demo.envUnlistedKey Demo.parsedUnlistedKey
      ["s", "i"] 0).toOption.map (fun r => r.1) =
      some (none, some "File not present in scheme manager index") ∧
    (ConfigurationPublicKey Demo.effects Demo.envUnlistedKey Demo.afterFirstPublicKey
      ["s", "i"] 0).toOption.map (fun r => r.1) = some (none, none) := by
  decide

/-! ## Download -/

theorem unknownManager_none (conf : Configuration) (l : List Identifier)
    (h : ∀ m ∈ l, (GoMap.get? conf.SchemeManagers m).isSome = true) :
    unknownManager conf l = none := by
  induction l with
  | nil => rfl
  | cons m l ih =>
    unfold unknownManager
    have hm := h m (List.mem_cons_self _ _)
    cases hg : GoMap.get? conf.SchemeManagers m with
    | none => rw [hg] at hm; cases hm
    | some v => exact ih (fun x hx => h x (List.mem_cons_of_mem _ hx))

/-- The loop over the issuers returns an error when it holds an unknown issuer whose logo
cannot be fetched. -/
theorem downloadIssuers_logo_fails (fx : Effects) (conf : Configuration) (iss : Identifier)
    (hunknown : GoMap.get? conf.Issuers iss = none)
    (hlogo : ∀ env' m, GoMap.get? conf.SchemeManagers iss.parent = some m →
      (fx.getFile env' (m.URL ++ "/" ++ Name iss ++ "/logo.png")
        (conf.path ++ "/" ++ iss.parent.String ++ "/" ++ Name iss ++ "/logo.png")).1 ≠ none)
    (l : List Identifier) (hmem : iss ∈ l)
    (hmanagers : ∀ i ∈ l, (GoMap.get? conf.SchemeManagers i.parent).isSome = true)
    (d : Downloading) (hd : d.conf = conf) :
    ∃ e d', downloadIssuers fx l d = .ok (some e, d') := by
  induction l generalizing d with
  | nil => cases hmem
  | cons i l ih =>
    have hrest : ∀ d', d'.conf = conf → iss ∈ l → ∃ e d'', downloadIssuers fx l d' = .ok (some e, d'') :=
      fun d' hd' hm => ih hm (fun x hx => hmanagers x (List.mem_cons_of_mem _ hx)) d' hd'
    have hi := hmanagers i (List.mem_cons_self _ _)
    unfold downloadIssuers
    rw [hd]
    cases hknown : GoMap.get? conf.Issuers i with
    | some v =>
      simp only []
      rcases List.mem_cons.mp hmem with e | e
      · rw [e, hknown] at hunknown; cases hunknown
      · exact hrest d hd e
    | none =>
      simp only []
      cases hm : GoMap.get? conf.SchemeManagers i.parent with
      | none => rw [hm] at hi; cases hi
      | some m =>
        simp only []
        split
        · exact ⟨_, _, rfl⟩
        · split
          · exact ⟨_, _, rfl⟩
          · rename_i hlogoOk
            rcases List.mem_cons.mp hmem with e | e
            · subst e
              exact absurd hlogoOk (hlogo _ m hm)
            · exact hrest _ rfl e

/-- For every identifier set whose scheme managers, and those of its issuers, are known
locally: if the set holds an unknown issuer whose `logo.png` cannot be fetched, `Download`
returns an error and no set, whatever else the set asks for. -/
theorem Download_issuer_logo_required (fx : Effects) (env : Env) (conf : Configuration)
    (set : IrmaIdentifierSet) (iss : Identifier)
    (hknown : ∀ m ∈ GoMap.keys set.SchemeManagers, (GoMap.get? conf.SchemeManagers m).isSome = true)
    (hmanagers : ∀ i ∈ GoMap.keys set.Issuers,
      (GoMap.get? conf.SchemeManagers i.parent).isSome = true)
    (hmem : iss ∈ GoMap.keys set.Issuers)
    (hunknown : GoMap.get? conf.Issuers iss = none)
    (hlogo : ∀ env' m, GoMap.get? conf.SchemeManagers iss.parent = some m →
      (fx.getFile env' (m.URL ++ "/" ++ Name iss ++ "/logo.png")
        (conf.path ++ "/" ++ iss.parent.String ++ "/" ++ Name iss ++ "/logo.png")).1 ≠ none) :
    ∃ e conf' env', Download fx env conf set = .ok ⟨none, some e, conf', env'⟩ := by
  obtain ⟨e, d', hloop⟩ := downloadIssuers_logo_fails fx conf iss hunknown hlogo
    (GoMap.keys set.Issuers) hmem hmanagers ⟨conf, env, ⟨[], [], [], []⟩, []⟩ rfl
  unfold Download
  simp only []
  rw [unknownManager_none conf _ hknown]
  simp only []
  rw [hloop]
  exact ⟨e, _, _, rfl⟩

/-- C14 fails on the code.  The configuration parsed from the example folder knows scheme
`s` but neither issuer `s.k` nor issuer `s.l`.  The server of the scheme serves its index,
the signature of the index and the descriptions of both issuers, and a logo for `s.l`
only.  `Download` of the set with issuer `s.k` returns the error of the logo fetch and no
set, where `Download` of the set with issuer `s.l` returns the set with `s.l` and no
error, and has loaded `s.l`. -/
theorem Download_issuer_logo_not_ignored :
    (Demo.effects.getFile Demo.envIssuers "https://example.org/s/k/description.xml"
      "conf/s/k/description.xml").1 = none ∧
    (Demo.effects.getFile Demo.envIssuers "https://example.org/s/index" "conf/s/index").1 = none ∧
    (Demo.effects.getFile Demo.envIssuers "https://example.org/s/index.sig"
      "conf/s/index.sig").1 = none ∧
    (Demo.effects.getFile Demo.envIssuers "https://example.org/s/k/logo.png"
      "conf/s/k/logo.png").1 = some "404 Not Found" ∧
    (Download Demo.effects Demo.envIssuers Demo.parsed Demo.wantIssuerK).toOption.map
      (fun d => (d.set, d.err)) = some (none, some "404 Not Found") ∧
    (Download Demo.effects Demo.envIssuers Demo.parsed Demo.wantIssuerL).toOption.map
      (fun d => (d.set, d.err, GoMap.get? d.conf.Issuers ["s", "l"])) =
      some (some ⟨[], [(["s", "l"], ())], [], []⟩, none, some ⟨"l", "s", 4⟩) := by
  decide

end Irma

namespace Server

open Irma

/-! ## The expiry sweep -/

theorem timedOut_finished (now : Int) (S : Session) :
    (timedOut now S).status.Finished = true := rfl

theorem timedOut_not_expired (now : Int) (S : Session) :
    isExpired now (timedOut now S) = false := by
  unfold isExpired sessionTimeout timedOut setStatus markAlive maxSessionLifetime second
  simp

theorem timedOut_token (now : Int) (S : Session) : (timedOut now S).token = S.token := rfl

theorem timedOut_clientToken (now : Int) (S : Session) :
    (timedOut now S).clientToken = S.clientToken := rfl

/-- The session objects after the first loop. -/
theorem sweep_sessions (now : Int) (req : GoMap String Ptr) (ks : List String)
    (acc : (Ptr → Session) × List String) (q : Ptr) :
    (ks.foldl (sweepStep now req) acc).1 q =
      if pointsTo req ks q = true ∧ isExpired now (acc.1 q) = true ∧
          (acc.1 q).status.Finished = false
      then timedOut now (acc.1 q) else acc.1 q := by
  induction ks generalizing acc with
  | nil => simp [pointsTo]
  | cons t ks ih =>
    rw [List.foldl_cons, ih]
    have hpt : pointsTo req (t :: ks) q =
        (decide (GoMap.get? req t = some q) || pointsTo req ks q) := by
      simp [pointsTo]
    rw [hpt]
    unfold sweepStep
    cases hg : GoMap.get? req t with
    | none => simp
    | some p =>
      simp only []
      by_cases hexp : isExpired now (acc.1 p) = true
      · by_cases hfin : (acc.1 p).status.Finished = false
        · rw [if_pos hexp, if_pos hfin]
          by_cases hq : q = p
          · subst hq
            simp only [Function.update_same]
            rw [if_neg, if_pos]
            · rfl
            · exact ⟨by simp, hexp, hfin⟩
            · rintro ⟨_, _, h3⟩
              cases h3
          · have hne : ¬ (some p = some q) := fun e => hq (Option.some.inj e).symm
            simp only [Function.update_noteq hq, hne, decide_False, Bool.false_or]
        · rw [if_pos hexp, if_neg hfin]
          simp only []
          by_cases hq : q = p
          · subst hq
            rw [if_neg, if_neg]
            · rintro ⟨_, _, h3⟩; exact hfin h3
            · rintro ⟨_, _, h3⟩; exact hfin h3
          · have hne : ¬ (some p = some q) := fun e => hq (Option.some.inj e).symm
            simp only [hne, decide_False, Bool.false_or]
      · rw [if_neg hexp]
        by_cases hq : q = p
        · subst hq
          rw [if_neg, if_neg]
          · rintro ⟨_, h2, _⟩; exact hexp h2
          · rintro ⟨_, h2, _⟩; exact hexp h2
        · have hne : ¬ (some p = some q) := fun e => hq (Option.some.inj e).symm
          simp only [hne, decide_False, Bool.false_or]

/-- The tokens that the first loop collects. -/
theorem sweep_tokens (now : Int) (req : GoMap String Ptr) (ks : List String)
    (acc : (Ptr → Session) × List String) :
    (ks.foldl (sweepStep now req) acc).2 = acc.2 ++ ks.filter (isCollected now acc.1 req) := by
  induction ks generalizing acc with
  | nil => simp
  | cons t ks ih =>
    rw [List.foldl_cons, ih]
    unfold sweepStep
    cases hg : GoMap.get? req t with
    | none =>
      simp only []
      rw [List.filter_cons_of_neg (by simp [isCollected, hg])]
    | some p =>
      simp only []
      by_cases hexp : isExpired now (acc.1 p) = true
      · by_cases hfin : (acc.1 p).status.Finished = false
        · rw [if_pos hexp, if_pos hfin]
          simp only []
          rw [List.filter_cons_of_neg (by simp [isCollected, hg, hfin])]
          congr 1
          apply List.filter_congr
          intro t' _
          unfold isCollected
          cases hg' : GoMap.get? req t' with
          | none => rfl
          | some p' =>
            simp only []
            by_cases hp : p' = p
            · subst hp
              have hnot : isExpired now (setStatus (markAlive now (acc.1 p')) Status.timeout) = false :=
                timedOut_not_expired now _
              simp only [Function.update_same, hnot, hfin]
              simp
            · simp only [Function.update_noteq hp]
        · rw [if_pos hexp, if_neg hfin]
          simp only []
          have hfin' : (acc.1 p).status.Finished = true := by
            cases h : (acc.1 p).status.Finished with
            | true => rfl
            | false => exact absurd h hfin
          rw [List.filter_cons_of_pos (by simp [isCollected, hg, hexp, hfin']), List.append_assoc]
          rfl
      · rw [if_neg hexp]
        rw [List.filter_cons_of_neg (by simp [isCollected, hg, hexp])]

theorem clientTokenOf_iff (s : MemorySessionStore) (tokens : List String) (c : String) :
    clientTokenOf s tokens c = true ↔
      ∃ t ∈ tokens, ∃ p, GoMap.get? s.requestor t = some p ∧ (s.sessions p).clientToken = c := by
  unfold clientTokenOf
  rw [List.any_eq_true]
  constructor
  · rintro ⟨t, ht, h⟩
    cases hg : GoMap.get? s.requestor t with
    | none => rw [hg] at h; cases h
    | some p =>
      rw [hg] at h
      exact ⟨t, ht, p, hg, of_decide_eq_true h⟩
  · rintro ⟨t, ht, p, hg, h⟩
    refine ⟨t, ht, ?_⟩
    rw [hg]
    exact decide_eq_true h

theorem clientTokenOf_congr (s s' : MemorySessionStore) (tokens : List String) (c : String)
    (hreq : ∀ t ∈ tokens, GoMap.get? s.requestor t = GoMap.get? s'.requestor t)
    (hses : ∀ p, (s.sessions p).clientToken = (s'.sessions p).clientToken) :
    clientTokenOf s tokens c = clientTokenOf s' tokens c := by
  rw [Bool.eq_iff_iff, clientTokenOf_iff, clientTokenOf_iff]
  constructor
  · rintro ⟨t, ht, p, hg, h⟩
    exact ⟨t, ht, p, (hreq t ht) ▸ hg, (hses p) ▸ h⟩
  · rintro ⟨t, ht, p, hg, h⟩
    exact ⟨t, ht, p, (hreq t ht).symm ▸ hg, (hses p).symm ▸ h⟩

/-- The second loop, over distinct tokens that are keys of the requestor map, does not
panic; it leaves the session objects alone, removes the tokens from the requestor map and
the client tokens of their sessions from the client map. -/
theorem deleteTokens_spec (tokens : List String) (s : MemorySessionStore)
    (hnodup : tokens.Nodup)
    (hkeys : ∀ t ∈ tokens, (GoMap.get? s.requestor t).isSome = true) :
    ∃ s', deleteTokens tokens s = .ok s' ∧ s'.sessions = s.sessions ∧
      (∀ q, GoMap.get? s'.requestor q = if q ∈ tokens then none else GoMap.get? s.requestor q) ∧
      (∀ c, GoMap.get? s'.client c =
        if clientTokenOf s tokens c = true then none else GoMap.get? s.client c) := by
  induction tokens generalizing s with
  | nil =>
    refine ⟨s, rfl, rfl, fun q => by simp, fun c => by simp [clientTokenOf]⟩
  | cons t tokens ih =>
    have ht := hkeys t (List.mem_cons_self _ _)
    have hnot : t ∉ tokens := (List.nodup_cons.mp hnodup).1
    cases hg : GoMap.get? s.requestor t with
    | none => rw [hg] at ht; cases ht
    | some p =>
      have hne : ∀ t' ∈ tokens, ¬ t = t' := fun t' ht' e => hnot (e ▸ ht')
      obtain ⟨s1, hs1⟩ : ∃ s1 : MemorySessionStore, s1 =
          { s with
            closed :=
              if (s.sessions p).sse then
                s.closed ++ ["session/" ++ (s.sessions p).token,
                  "session/" ++ (s.sessions p).clientToken]
              else s.closed
            client := GoMap.delete s.client (s.sessions p).clientToken
            requestor := GoMap.delete s.requestor t } := ⟨_, rfl⟩
      have h1s : s1.sessions = s.sessions := by rw [hs1]
      have h1r : s1.requestor = GoMap.delete s.requestor t := by rw [hs1]
      have h1c : s1.client = GoMap.delete s.client (s.sessions p).clientToken := by rw [hs1]
      have hrest : ∀ t' ∈ tokens, (GoMap.get? s1.requestor t').isSome = true := by
        intro t' ht'
        rw [h1r, GoMap.get?_delete, if_neg (hne t' ht')]
        exact hkeys t' (List.mem_cons_of_mem _ ht')
      obtain ⟨s', hs', hsess, hreq, hcli⟩ := ih s1 (List.nodup_cons.mp hnodup).2 hrest
      refine ⟨s', ?_, hsess.trans h1s, ?_, ?_⟩
      · unfold deleteTokens
        rw [hg]
        simp only []
        rw [← hs1]
        exact hs'
      · intro q
        rw [hreq q, h1r]
        simp only [GoMap.get?_delete, List.mem_cons]
        by_cases hq : q ∈ tokens
        · simp [hq]
        · by_cases htq : t = q
          · simp [htq]
          · have : ¬ q = t := fun e => htq e.symm
            simp [hq, htq, this]
      · intro c
        have hsame : clientTokenOf s1 tokens c = clientTokenOf s tokens c :=
          clientTokenOf_congr s1 s tokens c
            (fun t' ht' => by rw [h1r, GoMap.get?_delete, if_neg (hne t' ht')])
            (fun q => by rw [h1s])
        have hcons : clientTokenOf s (t :: tokens) c =
            (decide ((s.sessions p).clientToken = c) || clientTokenOf s tokens c) := by
          simp [clientTokenOf, hg]
        rw [hcli c, hsame, hcons, h1c]
        simp only [GoMap.get?_delete]
        by_cases h1 : clientTokenOf s tokens c = true
        · simp [h1]
        · by_cases h2 : (s.sessions p).clientToken = c
          · simp [h1, h2]
          · simp [h1, h2]

theorem isCollected_iff (now : Int) (s : MemorySessionStore) (t : String) :
    isCollected now s.sessions s.requestor t = true ↔
      ∃ p, GoMap.get? s.requestor t = some p ∧ isExpired now (s.sessions p) = true ∧
        (s.sessions p).status.Finished = true := by
  unfold isCollected
  cases hg : GoMap.get? s.requestor t with
  | none => simp
  | some p => simp

/-- What `deleteExpired` leaves, in any store: it does not panic; a session that some key
of the requestor map points to, that has expired and is not finished, is timed out and the
other session objects are left alone; the keys of the requestor map whose session has
expired and is finished are deleted, and so are the client tokens of those sessions. -/
theorem deleteExpired_spec (now : Int) (s : MemorySessionStore) :
    ∃ s', deleteExpired now s = .ok s' ∧
      (∀ q, s'.sessions q =
        if pointsTo s.requestor (GoMap.keys s.requestor) q = true ∧
            isExpired now (s.sessions q) = true ∧ (s.sessions q).status.Finished = false
        then timedOut now (s.sessions q) else s.sessions q) ∧
      (∀ t, GoMap.get? s'.requestor t =
        if isCollected now s.sessions s.requestor t = true then none
        else GoMap.get? s.requestor t) ∧
      (∀ c, GoMap.get? s'.client c =
        if clientTokenOf s
            ((GoMap.keys s.requestor).filter (isCollected now s.sessions s.requestor)) c = true
        then none else GoMap.get? s.client c) := by
  have hsess := sweep_sessions now s.requestor (GoMap.keys s.requestor) (s.sessions, [])
  have htok := sweep_tokens now s.requestor (GoMap.keys s.requestor) (s.sessions, [])
  simp only [List.nil_append] at htok hsess
  obtain ⟨s1, hs1⟩ : ∃ s1 : MemorySessionStore, s1 =
      { s with
        sessions :=
          ((GoMap.keys s.requestor).foldl (sweepStep now s.requestor) (s.sessions, [])).1 } :=
    ⟨_, rfl⟩
  have h1s : s1.sessions =
      ((GoMap.keys s.requestor).foldl (sweepStep now s.requestor) (s.sessions, [])).1 := by
    rw [hs1]
  have h1r : s1.requestor = s.requestor := by rw [hs1]
  have h1c : s1.client = s.client := by rw [hs1]
  have hmem : ∀ t, t ∈ (GoMap.keys s.requestor).filter (isCollected now s.sessions s.requestor) ↔
      isCollected now s.sessions s.requestor t = true := by
    intro t
    rw [List.mem_filter]
    constructor
    · exact fun h => h.2
    · intro h
      refine ⟨?_, h⟩
      rw [← GoMap.get?_isSome_iff_mem_keys]
      obtain ⟨p, hp, _⟩ := (isCollected_iff now s t).mp h
      rw [hp]
      rfl
  obtain ⟨s', hs', hsame, hreq, hcli⟩ := deleteTokens_spec
    ((GoMap.keys s.requestor).filter (isCollected now s.sessions s.requestor)) s1
    (List.Nodup.filter _ (List.nodup_dedup _))
    (fun t ht => by
      rw [h1r, GoMap.get?_isSome_iff_mem_keys]
      exact (List.mem_filter.mp ht).1)
  refine ⟨s', ?_, ?_, ?_, ?_⟩
  · unfold deleteExpired
    simp only []
    rw [htok, ← hs1]
    exact hs'
  · intro q
    rw [hsame, h1s, hsess q]
  · intro t
    rw [hreq t, h1r]
    by_cases h : isCollected now s.sessions s.requestor t = true
    · rw [if_pos ((hmem t).mpr h), if_pos h]
    · rw [if_neg (fun h' => h ((hmem t).mp h')), if_neg h]
  · intro c
    rw [hcli c, h1c]
    rw [clientTokenOf_congr s1 s _ c (fun t _ => by rw [h1r])
      (fun q => by
        rw [h1s, hsess q]
        split
        · rfl
        · rfl)]

/-! ## The two maps of the session store -/

theorem inStep_empty (sessions : Ptr → Session) : InStep (emptyStore sessions) := by
  unfold InStep
  exact ⟨fun _ _ h => (by cases h), fun _ _ h => (by cases h)⟩

theorem inStep_add (s : MemorySessionStore) (p : Ptr) (session : Session) (h : InStep s)
    (hreq : ∀ t, GoMap.get? s.requestor t ≠ some p)
    (hcli : ∀ c, GoMap.get? s.client c ≠ some p)
    (htoken : GoMap.get? s.requestor session.token = none)
    (hclient : GoMap.get? s.client session.clientToken = none) :
    InStep (add { s with sessions := Function.update s.sessions p session } p) := by
  unfold InStep add
  simp only [Function.update_same]
  constructor
  · intro t q hq
    rw [GoMap.get?_set] at hq
    by_cases ht : session.token = t
    · rw [if_pos ht] at hq
      cases hq
      simp only [Function.update_same]
      exact ⟨ht, by rw [GoMap.get?_set, if_pos rfl]⟩
    · rw [if_neg ht] at hq
      have hqp : q ≠ p := fun e => hreq t (e ▸ hq)
      simp only [Function.update_noteq hqp]
      obtain ⟨h1, h2⟩ := h.1 t q hq
      refine ⟨h1, ?_⟩
      rw [GoMap.get?_set, if_neg, h2]
      intro e
      rw [← e, hclient] at h2
      cases h2
  · intro c q hq
    rw [GoMap.get?_set] at hq
    by_cases hc : session.clientToken = c
    · rw [if_pos hc] at hq
      cases hq
      simp only [Function.update_same]
      exact ⟨hc, by rw [GoMap.get?_set, if_pos rfl]⟩
    · rw [if_neg hc] at hq
      have hqp : q ≠ p := fun e => hcli c (e ▸ hq)
      simp only [Function.update_noteq hqp]
      obtain ⟨h1, h2⟩ := h.2 c q hq
      refine ⟨h1, ?_⟩
      rw [GoMap.get?_set, if_neg, h2]
      intro e
      rw [← e, htoken] at h2
      cases h2

theorem sweep_token (now : Int) (s s' : MemorySessionStore) (q : Ptr)
    (h : s'.sessions q =
      if pointsTo s.requestor (GoMap.keys s.requestor) q = true ∧
          isExpired now (s.sessions q) = true ∧ (s.sessions q).status.Finished = false
      then timedOut now (s.sessions q) else s.sessions q) :
    (s'.sessions q).token = (s.sessions q).token ∧
      (s'.sessions q).clientToken = (s.sessions q).clientToken := by
  rw [h]
  split
  · exact ⟨rfl, rfl⟩
  · exact ⟨rfl, rfl⟩

theorem inStep_deleteExpired (now : Int) (s s' : MemorySessionStore) (h : InStep s)
    (hs' : deleteExpired now s = .ok s') : InStep s' := by
  obtain ⟨s'', hs'', hses, hreq, hcli⟩ := deleteExpired_spec now s
  rw [hs'] at hs''
  cases hs''
  have htok := fun q => sweep_token now s s' q (hses q)
  constructor
  · intro t q hq
    rw [hreq t] at hq
    by_cases hcol : isCollected now s.sessions s.requestor t = true
    · rw [if_pos hcol] at hq
      cases hq
    · rw [if_neg hcol] at hq
      obtain ⟨h1, h2⟩ := h.1 t q hq
      rw [(htok q).1, (htok q).2]
      refine ⟨h1, ?_⟩
      rw [hcli, if_neg, h2]
      intro hc
      obtain ⟨t', ht', p', hp', hcp⟩ := (clientTokenOf_iff _ _ _).mp hc
      have h3 := (h.1 t' p' hp').2
      rw [hcp, h2] at h3
      cases h3
      have h4 := (h.1 t' q hp').1
      rw [h1] at h4
      subst h4
      exact hcol (List.mem_filter.mp ht').2
  · intro c q hq
    rw [hcli c] at hq
    by_cases hcol : clientTokenOf s
        ((GoMap.keys s.requestor).filter (isCollected now s.sessions s.requestor)) c = true
    · rw [if_pos hcol] at hq
      cases hq
    · rw [if_neg hcol] at hq
      obtain ⟨h1, h2⟩ := h.2 c q hq
      rw [(htok q).1, (htok q).2]
      refine ⟨h1, ?_⟩
      rw [hreq, if_neg, h2]
      intro hc
      apply hcol
      rw [clientTokenOf_iff]
      refine ⟨(s.sessions q).token, ?_, q, h2, h1⟩
      rw [List.mem_filter]
      refine ⟨?_, hc⟩
      rw [← GoMap.get?_isSome_iff_mem_keys, h2]
      rfl

/-- Every store reached from the empty one by `add` of new sessions and `deleteExpired`
has its two maps in step. -/
theorem inStep_of_reachable (s : MemorySessionStore) (h : Reachable s) : InStep s := by
  induction h with
  | empty sessions => exact inStep_empty sessions
  | add s p session _ hreq hcli htoken hclient ih =>
    exact inStep_add s p session ih hreq hcli htoken hclient
  | deleteExpired s s' now _ hs' ih => exact inStep_deleteExpired now s s' ih hs'

/-- The store after `add` of one new session object is reached from the empty store. -/
theorem reachable_storeOf (session : Session) : Reachable (Demo.storeOf session) :=
  Reachable.add Demo.noSessions 0 session (Reachable.empty _)
    (fun _ h => (by cases h)) (fun _ h => (by cases h)) rfl rfl

theorem sessionTimeout_eq (S : Session) :
    sessionTimeout S =
      if S.status = .initialized ∧ S.rrequest.ClientTimeout ≠ 0 then
        wrap64 (S.rrequest.ClientTimeout * 1000000000)
      else 300000000000 := by
  unfold sessionTimeout maxSessionLifetime second
  split
  · rfl
  · rfl

theorem wrap64_of_small (x : Int) (h0 : 0 ≤ x) (h1 : x < 9223372036854775808) :
    wrap64 x = x := by
  unfold wrap64
  norm_num
  omega

theorem mem_keys_of_get? (m : GoMap String Ptr) (t : String) (p : Ptr)
    (h : GoMap.get? m t = some p) : t ∈ GoMap.keys m := by
  rw [← GoMap.get?_isSome_iff_mem_keys, h]
  rfl

theorem pointsTo_keys (m : GoMap String Ptr) (t : String) (p : Ptr)
    (h : GoMap.get? m t = some p) : pointsTo m (GoMap.keys m) p = true := by
  unfold pointsTo
  rw [List.any_eq_true]
  exact ⟨t, mem_keys_of_get? m t p h, decide_eq_true h⟩

/-- C15 (amended).  In a store whose two maps are in step, as they are in every store
reached from the empty one by `add` of new sessions and `deleteExpired`, `deleteExpired`
returns, and treats the session `S` filed under a requestor token as follows, with
`timeout` the 64-bit product of `ClientTimeout` and a second if `S.status` is
`Initialized` and `ClientTimeout` is not zero (which is `ClientTimeout` seconds when
`0 < ClientTimeout ≤ 9223372036`), and five minutes otherwise: if `S.lastActive + timeout`
is not before `now`, `S` is left unchanged and stays in both maps; if it is before `now`
and `S.status` is not terminal, `S` stays in both maps, its `lastActive` becomes `now` and
its status `Timeout`; if it is before `now` and `S.status` is terminal, `S` is removed from
both maps and is not changed. -/
theorem deleteExpired_policy (now : Int) (s : MemorySessionStore) (t : String) (p : Ptr)
    (timeout : Int) (hstep : InStep s) (hp : get s t = some p)
    (htimeout : timeout =
      if (s.sessions p).status = .initialized ∧ (s.sessions p).rrequest.ClientTimeout ≠ 0 then
        wrap64 ((s.sessions p).rrequest.ClientTimeout * 1000000000)
      else 300000000000) :
    ((s.sessions p).status = .initialized → 0 < (s.sessions p).rrequest.ClientTimeout →
      (s.sessions p).rrequest.ClientTimeout ≤ 9223372036 →
      timeout = (s.sessions p).rrequest.ClientTimeout * 1000000000) ∧
    ∃ s', deleteExpired now s = .ok s' ∧
      (¬ (s.sessions p).lastActive + timeout < now →
        s'.sessions p = s.sessions p ∧ get s' t = some p ∧
          clientGet s' (s.sessions p).clientToken = some p) ∧
      ((s.sessions p).lastActive + timeout < now → (s.sessions p).status.Finished = false →
        s'.sessions p = setStatus (markAlive now (s.sessions p)) .timeout ∧
          (s'.sessions p).lastActive = now ∧ (s'.sessions p).status = .timeout ∧
          get s' t = some p ∧ clientGet s' (s.sessions p).clientToken = some p) ∧
      ((s.sessions p).lastActive + timeout < now → (s.sessions p).status.Finished = true →
        s'.sessions p = s.sessions p ∧ get s' t = none ∧
          clientGet s' (s.sessions p).clientToken = none) := by
  constructor
  · intro hinit hpos hle
    rw [htimeout, if_pos ⟨hinit, fun h => by omega⟩]
    exact wrap64_of_small _ (by omega) (by omega)
  have hexp : isExpired now (s.sessions p) = true ↔ (s.sessions p).lastActive + timeout < now := by
    unfold isExpired
    rw [sessionTimeout_eq, ← htimeout, decide_eq_true_iff]
  unfold get at hp
  obtain ⟨s', hs', hses, hreq, hcli⟩ := deleteExpired_spec now s
  have hclient : GoMap.get? s.client (s.sessions p).clientToken = some p := (hstep.1 t p hp).2
  have hcol : isCollected now s.sessions s.requestor t =
      (isExpired now (s.sessions p) && (s.sessions p).status.Finished) := by
    unfold isCollected
    rw [hp]
  have hkeep : isCollected now s.sessions s.requestor t = false →
      get s' t = some p ∧ clientGet s' (s.sessions p).clientToken = some p := by
    intro hno
    unfold get clientGet
    constructor
    · rw [hreq, hno, if_neg (by simp), hp]
    · rw [hcli, if_neg, hclient]
      intro hc
      obtain ⟨t', ht', p', hp', hcp⟩ := (clientTokenOf_iff _ _ _).mp hc
      have h3 := (hstep.1 t' p' hp').2
      rw [hcp, hclient] at h3
      cases h3
      have hcol' := (List.mem_filter.mp ht').2
      unfold isCollected at hcol' hno
      rw [hp'] at hcol'
      rw [hp] at hno
      rw [hno] at hcol'
      cases hcol'
  refine ⟨s', hs', ?_, ?_, ?_⟩
  · intro hnot
    have hne : isExpired now (s.sessions p) = false := by
      cases h : isExpired now (s.sessions p) with
      | false => rfl
      | true => exact absurd (hexp.mp h) hnot
    refine ⟨?_, hkeep (by rw [hcol, hne]; rfl)⟩
    rw [hses, if_neg]
    rintro ⟨_, h2, _⟩
    rw [hne] at h2
    cases h2
  · intro hlt hfin
    have he := hexp.mpr hlt
    have h1 : s'.sessions p = setStatus (markAlive now (s.sessions p)) .timeout := by
      rw [hses, if_pos ⟨pointsTo_keys _ t p hp, he, hfin⟩]
      rfl
    refine ⟨h1, ?_, ?_, hkeep (by rw [hcol, he, hfin]; rfl)⟩
    · rw [h1]; rfl
    · rw [h1]; rfl
  · intro hlt hfin
    have he := hexp.mpr hlt
    refine ⟨?_, ?_, ?_⟩
    · rw [hses, if_neg]
      rintro ⟨_, _, h3⟩
      rw [hfin] at h3
      cases h3
    · unfold get
      rw [hreq, hcol, he, hfin]
      rfl
    · unfold clientGet
      rw [hcli, if_pos]
      rw [clientTokenOf_iff]
      refine ⟨t, ?_, p, hp, rfl⟩
      rw [List.mem_filter]
      exact ⟨mem_keys_of_get? _ t p hp, by rw [hcol, he, hfin]; rfl⟩

/-- C15, at a store with one session that was started a second after the epoch with a
client timeout of ten seconds and is swept twenty seconds later: the session is timed out
and stays in both maps. -/
theorem deleteExpired_policy_witness :
    ∃ s', deleteExpired 21000000000
        (Demo.storeOf (Demo.sessionWith "r1" "c1" .initialized 10 1000000000)) = .ok s' ∧
      (s'.sessions 0).lastActive = 21000000000 ∧ (s'.sessions 0).status = .timeout ∧
      get s' "r1" = some 0 ∧ clientGet s' "c1" = some 0 := by
  obtain ⟨_, s', hs', _, h2, _⟩ := deleteExpired_policy 21000000000
    (Demo.storeOf (Demo.sessionWith "r1" "c1" .initialized 10 1000000000)) "r1" 0 10000000000
    (inStep_of_reachable _ (reachable_storeOf _)) (by decide) (by decide)
  exact ⟨s', hs', (h2 (by decide) (by decide)).2⟩

/-- A session that is `Initialized` with a client timeout of `-1` and was last active at
the very instant of the sweep: its last activity plus five minutes is not before that
instant, and yet `deleteExpired` moves it to `Timeout`; likewise a session with a client
timeout of `9223372037` seconds, whose product with a second does not fit 64 bits. -/
theorem deleteExpired_ClientTimeout_out_of_range :
    (Demo.sessionWith "r1" "c1" .initialized (-1) 1000).status = .initialized ∧
    ¬ (0 < (Demo.sessionWith "r1" "c1" .initialized (-1) 1000).rrequest.ClientTimeout) ∧
    ¬ ((Demo.sessionWith "r1" "c1" .initialized (-1) 1000).lastActive + 300000000000 < 1000) ∧
    get (Demo.storeOf (Demo.sessionWith "r1" "c1" .initialized (-1) 1000)) "r1" = some 0 ∧
    ((Demo.storeOf (Demo.sessionWith "r1" "c1" .initialized (-1) 1000)).sessions 0).status =
      .initialized ∧
    (deleteExpired 1000 (Demo.storeOf (Demo.sessionWith "r1" "c1" .initialized (-1) 1000))
      ).toOption.map (fun s' => (s'.sessions 0).status) = some .timeout ∧
    0 < (Demo.sessionWith "r1" "c1" .initialized 9223372037 1000).rrequest.ClientTimeout ∧
    ¬ ((Demo.sessionWith "r1" "c1" .initialized 9223372037 1000).lastActive +
      9223372037 * 1000000000 < 1000) ∧
    (deleteExpired 1000
      (Demo.storeOf (Demo.sessionWith "r1" "c1" .initialized 9223372037 1000))
      ).toOption.map (fun s' => (s'.sessions 0).status) = some .timeout := by
  decide


/-- C16.  In every state of the session store reached from the empty store by `add` (of a
new session object whose tokens are not yet keys of the maps) and `deleteExpired`, the
session object at an address is found by `get` under its token exactly when it is found by
`clientGet` under its client token, and then both return that same address; and right
after `add` of a new session, `get` and `clientGet` return it under its two tokens. -/
theorem store_maps_agree (s : MemorySessionStore) (h : Reachable s) :
    (∀ p, get s (s.sessions p).token = some p ↔
      clientGet s (s.sessions p).clientToken = some p) ∧
    (∀ t p, get s t = some p → (s.sessions p).token = t) ∧
    (∀ c p, clientGet s c = some p → (s.sessions p).clientToken = c) ∧
    (∀ p session,
      (add { s with sessions := Function.update s.sessions p session } p).sessions p = session ∧
      get (add { s with sessions := Function.update s.sessions p session } p) session.token =
        some p ∧
      clientGet (add { s with sessions := Function.update s.sessions p session } p)
        session.clientToken = some p) := by
  have hstep := inStep_of_reachable s h
  refine ⟨fun p => ⟨fun hp => (hstep.1 _ p hp).2, fun hp => (hstep.2 _ p hp).2⟩,
    fun t p hp => (hstep.1 t p hp).1, fun c p hp => (hstep.2 c p hp).1, ?_⟩
  intro p session
  refine ⟨?_, ?_, ?_⟩
  · simp only [add, Function.update_same]
  · unfold get add
    simp only [Function.update_same]
    rw [GoMap.get?_set, if_pos rfl]
  · unfold clientGet add
    simp only [Function.update_same]
    rw [GoMap.get?_set, if_pos rfl]

/-- C16, at the store after `add` of one new session with tokens `r1` and `c1`: the session
is found under both tokens, as the same object. -/
theorem store_maps_agree_witness :
    (get (Demo.storeOf (Demo.sessionWith "r1" "c1" .initialized 0 0))
        ((Demo.storeOf (Demo.sessionWith "r1" "c1" .initialized 0 0)).sessions 0).token =
        some 0 ↔
      clientGet (Demo.storeOf (Demo.sessionWith "r1" "c1" .initialized 0 0))
        ((Demo.storeOf (Demo.sessionWith "r1" "c1" .initialized 0 0)).sessions 0).clientToken =
        some 0) ∧
    get (Demo.storeOf (Demo.sessionWith "r1" "c1" .initialized 0 0)) "r1" = some 0 ∧
    clientGet (Demo.storeOf (Demo.sessionWith "r1" "c1" .initialized 0 0)) "c1" = some 0 :=
  ⟨(store_maps_agree (Demo.storeOf (Demo.sessionWith "r1" "c1" .initialized 0 0))
      (reachable_storeOf _)).1 0, by decide, by decide⟩

/-! ## The return address of a new session -/

theorem splitChars_append_cons (sep : Char) (a b : List Char) :
    splitChars sep (a ++ sep :: b) = splitChars sep a ++ splitChars sep b := by
  induction a with
  | nil => simp [splitChars]
  | cons c a ih =>
    by_cases hc : c = sep
    · simp [splitChars, hc, ih]
    · show splitChars sep (c :: (a ++ sep :: b)) = splitChars sep (c :: a) ++ splitChars sep b
      rw [splitChars, splitChars, if_neg hc, if_neg hc, ih]
      cases hs : splitChars sep a with
      | nil => exact absurd hs (splitChars_ne_nil sep a)
      | cons p ps => rfl

theorem takeWhile_ne_of_not_mem (x : Char) (l : List Char) (h : x ∉ l) :
    l.takeWhile (fun c => c ≠ x) = l := by
  induction l with
  | nil => rfl
  | cons c l ih =>
    have hc : c ≠ x := fun e => h (by simp [e])
    have hl : x ∉ l := fun e => h (by simp [e])
    rw [List.takeWhile_cons_of_pos (by simpa using hc), ih hl]

theorem dropWhile_ne_append_of_mem (x : Char) (l r : List Char) (h : x ∈ l) :
    (l ++ r).dropWhile (fun c => c ≠ x) = l.dropWhile (fun c => c ≠ x) ++ r := by
  induction l with
  | nil => cases h
  | cons c l ih =>
    by_cases hc : c = x
    · rw [List.cons_append, List.dropWhile_cons_of_neg (by simpa using hc),
        List.dropWhile_cons_of_neg (by simpa using hc)]
      rfl
    · have hl : x ∈ l := by
        rcases List.mem_cons.mp h with e | e
        · exact absurd e.symm hc
        · exact e
      rw [List.cons_append, List.dropWhile_cons_of_pos (by simpa using hc),
        List.dropWhile_cons_of_pos (by simpa using hc), ih hl]

theorem dropWhile_ne_append_of_not_mem (x : Char) (l r : List Char) (h : x ∉ l) :
    (l ++ x :: r).dropWhile (fun c => c ≠ x) = x :: r := by
  induction l with
  | nil =>
    rw [List.nil_append, List.dropWhile_cons_of_neg (by simp)]
  | cons c l ih =>
    have hc : c ≠ x := fun e => h (by simp [e])
    have hl : x ∉ l := fun e => h (by simp [e])
    rw [List.cons_append, List.dropWhile_cons_of_pos (by simpa using hc), ih hl]

theorem dropWhile_ne_head (x : Char) (l : List Char) (h : x ∈ l) :
    ∃ r, l.dropWhile (fun c => c ≠ x) = x :: r := by
  induction l with
  | nil => cases h
  | cons c l ih =>
    by_cases hc : c = x
    · refine ⟨l, ?_⟩
      rw [List.dropWhile_cons_of_neg (by simpa using hc), hc]
    · have hl : x ∈ l := by
        rcases List.mem_cons.mp h with e | e
        · exact absurd e.symm hc
        · exact e
      obtain ⟨r, hr⟩ := ih hl
      refine ⟨r, ?_⟩
      rw [List.dropWhile_cons_of_pos (by simpa using hc), hr]

/-- The query parameters after `&token=` and a token are appended to an address that has
a query and no fragment. -/
theorem queryParameters_append_amp (u t : String) (hq : '?' ∈ u.data) (hfrag : '#' ∉ u.data)
    (ht1 : '#' ∉ t.data) (ht2 : '&' ∉ t.data) :
    queryParameters (u ++ "&token=" ++ t) = queryParameters u ++ ["token=" ++ t] := by
  have hd : (u ++ "&token=" ++ t).data = u.data ++ '&' :: ("token=".data ++ t.data) := by
    simp only [String.data_append]
    rw [List.append_assoc]
    rfl
  have hnew : '#' ∉ (u ++ "&token=" ++ t).data := by
    rw [hd]
    simp only [List.mem_append, List.mem_cons, not_or]
    exact ⟨hfrag, by decide, by decide, ht1⟩
  obtain ⟨r, hr⟩ := dropWhile_ne_head '?' u.data hq
  have hx : '&' ∉ "token=".data ++ t.data := by
    simp only [List.mem_append, not_or]
    exact ⟨by decide, ht2⟩
  have hmk : "token=" ++ t = String.mk ("token=".data ++ t.data) := rfl
  unfold queryParameters queryOf
  simp only []
  rw [takeWhile_ne_of_not_mem _ _ hnew, takeWhile_ne_of_not_mem _ _ hfrag, hd, hmk]
  rw [if_pos (List.mem_append_left _ hq), if_pos hq, dropWhile_ne_append_of_mem _ _ _ hq, hr]
  generalize "token=".data ++ t.data = x at hx
  simp only [List.cons_append, List.drop_succ_cons, List.drop_zero]
  rw [splitChars_append_cons, splitChars_of_not_mem _ _ hx]
  simp only [List.map_append, List.map_cons, List.map_nil]

/-- The query parameters after `?token=` and a token are appended to an address that has
neither a query nor a fragment. -/
theorem queryParameters_append_question (u t : String) (hq : '?' ∉ u.data)
    (hfrag : '#' ∉ u.data) (ht1 : '#' ∉ t.data) (ht2 : '&' ∉ t.data) :
    queryParameters (u ++ "?token=" ++ t) = queryParameters u ++ ["token=" ++ t] := by
  have hd : (u ++ "?token=" ++ t).data = u.data ++ '?' :: ("token=".data ++ t.data) := by
    simp only [String.data_append]
    rw [List.append_assoc]
    rfl
  have hnew : '#' ∉ (u ++ "?token=" ++ t).data := by
    rw [hd]
    simp only [List.mem_append, List.mem_cons, not_or]
    exact ⟨hfrag, by decide, by decide, ht1⟩
  have hx : '&' ∉ "token=".data ++ t.data := by
    simp only [List.mem_append, not_or]
    exact ⟨by decide, ht2⟩
  have hmk : "token=" ++ t = String.mk ("token=".data ++ t.data) := rfl
  unfold queryParameters queryOf
  simp only []
  rw [takeWhile_ne_of_not_mem _ _ hnew, takeWhile_ne_of_not_mem _ _ hfrag, hd, hmk]
  rw [if_pos (by simp), if_neg hq, dropWhile_ne_append_of_not_mem _ _ _ hq]
  generalize "token=".data ++ t.data = x at hx
  simp only [List.drop_succ_cons, List.drop_zero, List.nil_append]
  rw [splitChars_of_not_mem _ _ hx]
  rfl

/-- C17 (amended): if the server's `AugmentClientReturnURL` flag is set, the request's
`AugmentReturnURL` flag is set and `ClientReturnURL = u` is not empty, then after
`newSession` with requestor token `t`, `ClientReturnURL` is `u + "&token=" + t` when `u`
holds a `?` and `u + "?token=" + t` otherwise; when `u` has no fragment (no `#`) and `t`
holds neither `#` nor `&`, this is `u` with the query parameter `token=t` appended.  If
one of the three conditions fails, `ClientReturnURL` is unchanged. -/
theorem newSession_returnURL (conf : Configuration) (store : MemorySessionStore) (sse : Bool)
    (p : Ptr) (t clientToken : String) (now nonce : Int) (action : Action)
    (request : RequestorRequest) :
    (conf.AugmentClientReturnURL = true ∧ request.base.AugmentReturnURL = true ∧
        request.base.ClientReturnURL ≠ "" →
      (newSession conf store sse p t clientToken now nonce action request).request.base.ClientReturnURL
        = (if '?' ∈ request.base.ClientReturnURL.data
            then request.base.ClientReturnURL ++ "&token=" ++ t
            else request.base.ClientReturnURL ++ "?token=" ++ t) ∧
      ('#' ∉ request.base.ClientReturnURL.data → '#' ∉ t.data → '&' ∉ t.data →
        queryParameters
          (newSession conf store sse p t clientToken now nonce action
            request).request.base.ClientReturnURL =
          queryParameters request.base.ClientReturnURL ++ ["token=" ++ t])) ∧
    (¬ (conf.AugmentClientReturnURL = true ∧ request.base.AugmentReturnURL = true ∧
        request.base.ClientReturnURL ≠ "") →
      (newSession conf store sse p t clientToken now nonce action request).request.base.ClientReturnURL
        = request.base.ClientReturnURL) := by
  constructor
  · intro h
    have hurl : (newSession conf store sse p t clientToken now nonce action
        request).request.base.ClientReturnURL
        = (if '?' ∈ request.base.ClientReturnURL.data
            then request.base.ClientReturnURL ++ "&token=" ++ t
            else request.base.ClientReturnURL ++ "?token=" ++ t) := by
      unfold newSession
      simp only [h.1, h.2.1, h.2.2, ne_eq, not_false_eq_true, and_self, if_true]
      split
      · simp only [String.append_assoc]
      · simp only [String.append_assoc]
    refine ⟨hurl, ?_⟩
    intro hfrag ht1 ht2
    rw [hurl]
    by_cases hq : '?' ∈ request.base.ClientReturnURL.data
    · rw [if_pos hq]
      exact queryParameters_append_amp _ _ hq hfrag ht1 ht2
    · rw [if_neg hq]
      exact queryParameters_append_question _ _ hq hfrag ht1 ht2
  · intro h
    unfold newSession
    simp only [ne_eq] at h
    simp only [ne_eq, h, if_false]

/-- C17 (amended), at a request that returns to `https://example.org/done?lang=nl`. -/
theorem newSession_returnURL_witness :
    (newSession ⟨true⟩ Demo.noSessions false 0 "abc" "xyz" 1000 7 .disclosing
        (Demo.requestReturning "https://example.org/done?lang=nl")).request.base.ClientReturnURL
      = (if '?' ∈ (Demo.requestReturning "https://example.org/done?lang=nl").base.ClientReturnURL.data
          then (Demo.requestReturning "https://example.org/done?lang=nl").base.ClientReturnURL
            ++ "&token=" ++ "abc"
          else (Demo.requestReturning "https://example.org/done?lang=nl").base.ClientReturnURL
            ++ "?token=" ++ "abc") ∧
    ('#' ∉ (Demo.requestReturning "https://example.org/done?lang=nl").base.ClientReturnURL.data →
      '#' ∉ "abc".data → '&' ∉ "abc".data →
      queryParameters
        (newSession ⟨true⟩ Demo.noSessions false 0 "abc" "xyz" 1000 7 .disclosing
          (Demo.requestReturning "https://example.org/done?lang=nl")).request.base.ClientReturnURL
        = queryParameters
            (Demo.requestReturning "https://example.org/done?lang=nl").base.ClientReturnURL
          ++ ["token=" ++ "abc"]) :=
  (newSession_returnURL ⟨true⟩ Demo.noSessions false 0 "abc" "xyz" 1000 7 .disclosing
    (Demo.requestReturning "https://example.org/done?lang=nl")).1 (by decide)

/-- C17 as stated fails: for the return address `https://example.org/done#top`, which has a
fragment, the three conditions hold and `newSession` with token `abc` leaves
`https://example.org/done#top?token=abc`, an address without any query parameter. -/
theorem newSession_token_in_fragment :
    (newSession ⟨true⟩ Demo.noSessions false 0 "abc" "xyz" 1000 7 .disclosing
        (Demo.requestReturning "https://example.org/done#top")).request.base.ClientReturnURL
      = "https://example.org/done#top?token=abc" ∧
    queryParameters "https://example.org/done#top?token=abc" = [] ∧
    queryParameters "https://example.org/done#top" = [] := by
  decide

end Server
